import Mathlib

/-!
# CTA railway simulation: a shallow embedding of `Simulation.cpp`

The discrete-event engine of `src/Simulation.cpp` is translated function by
function.  Conventions of the embedding:

* `int` is `Int`; station and train identifiers, which the source only uses as
  array indices, are `Nat`.
* `double` is the exact rational field `ℚ`: rounding, infinities and NaN are not
  modelled, and a quotient whose divisor is 0 has no counterpart (the divisor of
  the running mean is `newLen`).  The running mean of `addPassengers` is also
  given in binary64 arithmetic, as `meanBinary64`.
* A C array is a `List`; reading outside the list yields a default value and
  writing outside the list does nothing (both are undefined in the source, so
  each theorem that depends on an index states its range).  The two-element
  per-direction arrays of a station are an `Arr2`.
* A `Train*` carried by an event is the train's value; every train is
  referenced by exactly one pending event, and `delete train;` has no
  counterpart.
* `delete& nextevent;` (lines 351, 357, 374 and 383) is applied to `nextevent`,
  the local copy of the popped event declared at line 216, an object that was
  not allocated with `new`.  Its behaviour is undefined and `run` does not get
  past it: it is the outcome `badDelete`, which carries the state in which the
  statement is executed.
* `rand()` is the `randCalls`-th element of the fixed sequence `randSeq`.
* `std::priority_queue` is the binary heap of the standard library
  (`push_back` + `push_heap`, `pop_heap` + `pop_back`) over a vector.
* Loops of the source that need not terminate take a fuel argument; running
  out of fuel is the outcome `diverged`.
-/

set_option autoImplicit false

namespace CTA

/-! ## Constants of the source -/

def TOTAL_STATIONS : Nat := 3
def DEFAULT_CAPACITY : Int := 300
def WARMUP_PERIOD : ℚ := 3600
def TOTAL_SIMULATION_TIME : ℚ := 7200
def MAX_TRANSFER : Nat := 8
def MAX_POLICY_NUM : Nat := 4

/-! ## Data model -/

inductive EventType where
  | ARRIVAL
  | SUSPEND
  | NEW_OD
  | TRANSFER
  deriving DecidableEq, Repr

structure WaitingPassengers where
  numPassengers : Int
  destination : Nat
  deriving DecidableEq, Repr

/-- The itinerary decision `Policy` of the source. -/
structure Policy where
  direction : Int
  transferStation : Int
  transferDirection : Int
  deriving DecidableEq, Repr

structure Train where
  trainID : Nat
  lineID : Int
  arrivingStation : Nat
  direction : Int
  capacity : Int
  lastTime : ℚ
  destination : List Int
  passengerNum : Int
  deriving DecidableEq, Repr

/-- The constructor `Train::Train`: no passengers, an all-zero histogram. -/
def Train.new (trainID : Nat) (lineID : Int) (direction : Int) (arrivingStation : Nat)
    (startTime : ℚ) (capacity : Int) : Train :=
  { trainID := trainID, lineID := lineID, arrivingStation := arrivingStation,
    direction := direction, capacity := capacity, lastTime := startTime,
    destination := List.replicate TOTAL_STATIONS 0, passengerNum := 0 }

/-- An event; `OD = []` and `train = none` stand for the `NULL` defaults. -/
structure Event where
  type : EventType
  time : ℚ
  OD : List (List Int)
  train : Option Train
  deriving DecidableEq, Repr

/-- The constructor `Event::Event(t, type)`. -/
def Event.new (t : ℚ) (type : EventType) : Event :=
  { type := type, time := t, OD := [], train := none }

/-- The comparator `EventCompare`: `left.time > right.time`. -/
def EventCompare (left right : Event) : Bool := decide (left.time > right.time)

/-- A two-element C array indexed by a direction. -/
structure Arr2 (α : Type) where
  d0 : α
  d1 : α
  deriving DecidableEq, Repr

/-- Read `a[i]`; an index other than 0 or 1 yields `dflt`. -/
def Arr2.get {α : Type} (a : Arr2 α) (i : Int) (dflt : α) : α :=
  if i = 0 then a.d0 else if i = 1 then a.d1 else dflt

/-- Write `a[i] = v`; an index other than 0 or 1 leaves the array as it is. -/
def Arr2.set {α : Type} (a : Arr2 α) (i : Int) (v : α) : Arr2 α :=
  if i = 0 then { a with d0 := v } else if i = 1 then { a with d1 := v } else a

abbrev Q := List WaitingPassengers

structure Station where
  ID : Nat
  lineID : Int
  isTerminal : Arr2 Bool
  isTransfer : Bool
  queue : Arr2 Q
  avg_inStationTime : Arr2 ℚ
  deriving DecidableEq, Repr

/-- The value read for `stations[i]` when `i` is outside the array. -/
def Station.dflt : Station :=
  { ID := 0, lineID := 0, isTerminal := ⟨false, false⟩, isTransfer := false,
    queue := ⟨[], []⟩, avg_inStationTime := ⟨0, 0⟩ }

/-- The member function `Station::getQueueNum`: the number of cohorts in the queue. -/
def Station.getQueueNum (st : Station) (direction : Int) : Nat :=
  (st.queue.get direction []).length

structure Report where
  isFinished : Bool
  totalTravelTime : ℚ
  totalDelay : ℚ
  deriving DecidableEq, Repr

/-- The class `Simulation`: counters, static tables, stations, the vector under
the event priority queue, the per-train cursors, and the number of `rand()`
calls made so far. -/
structure Simulation where
  time : ℚ
  totalTravelTime : ℚ
  totalDelay : ℚ
  num_departed : Int
  num_arrived : Int
  policy_num : List (List Int)
  policy : List (List (List Nat))
  directions : List (List Int)
  transferTime : List (List ℚ)
  lineIDOfStation : List Int
  startTrainInfo : List (List Int)
  arrivalTime : List (List ℚ)
  arrivalStationID : List (List Nat)
  stations : List Station
  EventQueue : List Event
  totalTrainNum : Nat
  time_iter : List Nat
  stationID_iter : List Nat
  randSeq : List Nat
  randCalls : Nat
  deriving DecidableEq, Repr

/-! ## The event priority queue -/

/-- The loop of the library routine `__push_heap`: move the hole at `holeIndex`
up while the parent compares greater than `value`, then store `value`.  The
hole index at least halves at each turn, so `holeIndex + 1` turns suffice. -/
def pushHeapLoop : Nat → List Event → Nat → Nat → Event → List Event
  | 0, v, holeIndex, _, value => v.set holeIndex value
  | fuel + 1, v, holeIndex, topIndex, value =>
    let parent := (holeIndex - 1) / 2
    if holeIndex > topIndex ∧ EventCompare (v.getD parent value) value = true then
      pushHeapLoop fuel (v.set holeIndex (v.getD parent value)) parent topIndex value
    else
      v.set holeIndex value

def pushHeap (v : List Event) (holeIndex topIndex : Nat) (value : Event) : List Event :=
  pushHeapLoop (holeIndex + 1) v holeIndex topIndex value

/-- The first loop of the library routine `__adjust_heap`: while the hole has
two children, move the child that does not compare greater into the hole.
Returns the vector and the final hole index. -/
def adjustHeapLoop : Nat → List Event → Nat → Nat → Event → List Event × Nat
  | 0, v, holeIndex, _, _ => (v, holeIndex)
  | fuel + 1, v, holeIndex, len, value =>
    if holeIndex < (len - 1) / 2 then
      let secondChild := 2 * (holeIndex + 1)
      let secondChild :=
        if EventCompare (v.getD secondChild value) (v.getD (secondChild - 1) value) = true
        then secondChild - 1 else secondChild
      adjustHeapLoop fuel (v.set holeIndex (v.getD secondChild value)) secondChild len value
    else
      (v, holeIndex)

/-- The library routine `__adjust_heap` called with `holeIndex = 0`. -/
def adjustHeap (v : List Event) (len : Nat) (value : Event) : List Event :=
  let (v1, hole) := adjustHeapLoop len v 0 len value
  let (v2, hole2) :=
    if len % 2 = 0 ∧ hole = (len - 2) / 2 then
      let secondChild := 2 * (hole + 1)
      (v1.set hole (v1.getD (secondChild - 1) value), secondChild - 1)
    else (v1, hole)
  pushHeap v2 hole2 0 value

/-- The call `EventQueue.push(e)`: `push_back` then `push_heap`. -/
def EventQueue.push (v : List Event) (e : Event) : List Event :=
  pushHeap (v ++ [e]) v.length 0 e

/-- The call `EventQueue.top()`. -/
def EventQueue.top (v : List Event) : Option Event := v.head?

/-- The call `EventQueue.pop()`: `pop_heap` then `pop_back`. -/
def EventQueue.pop (v : List Event) : List Event :=
  match v with
  | [] => []
  | first :: _ =>
    if v.length > 1 then
      let value := v.getD (v.length - 1) first
      adjustHeap (v.take (v.length - 1)) (v.length - 1) value
    else []

/-! ## Routing -/

/-- The outcome of a piece of the source that may throw, loop for ever,
dereference a null pointer, or execute `delete& nextevent;` on the local copy of
the popped event; `badDelete s` says that this statement is executed in state
`s`. -/
inductive Outcome (α : Type) where
  | done (a : α)
  | thrown (msg : String)
  | diverged
  | fault
  | badDelete (s : Simulation)
  deriving DecidableEq, Repr

def Simulation.stationAt (s : Simulation) (i : Nat) : Station :=
  s.stations.getD i Station.dflt

def Simulation.transferTimeAt (s : Simulation) (i j : Nat) : ℚ :=
  (s.transferTime.getD i []).getD j 0

def Simulation.directionsAt (s : Simulation) (i j : Nat) : Int :=
  (s.directions.getD i []).getD j 0

def Simulation.policyNumAt (s : Simulation) (i j : Nat) : Int :=
  (s.policy_num.getD i []).getD j 0

def Simulation.policyAt (s : Simulation) (i j k : Nat) : Nat :=
  ((s.policy.getD i []).getD j []).getD k 0

/-- The library call `rand()`: the next element of the generator's sequence. -/
def Simulation.rand (s : Simulation) : Nat × Simulation :=
  (s.randSeq.getD s.randCalls 0, { s with randCalls := s.randCalls + 1 })

/-- The candidate scan of `getPolicy`: the first `i < num` whose candidate
station lies on line `lineID`, if there is one. -/
def getPolicyScan (s : Simulation) (from_ to_ : Nat) (lineID : Int) (num : Int) : Option Nat :=
  (List.range num.toNat).find?
    (fun i => decide (s.lineIDOfStation.getD (s.policyAt from_ to_ i) 0 = lineID))

/-- Lines 396-416 of `getPolicy`: the choice of `nextStation`, with the state
after the possible call of `rand()`. -/
def getPolicyNext (s : Simulation) (from_ to_ : Nat) (lineID : Int) : Nat × Simulation :=
  let num := s.policyNumAt from_ to_
  if num = 1 then
    (s.policyAt from_ to_ 0, s)
  else
    match getPolicyScan s from_ to_ lineID num with
    | some i => (s.policyAt from_ to_ i, s)
    | none => (s.policyAt from_ to_ (Int.tmod s.rand.1 num).toNat, s.rand.2)

/-- The function `Simulation::getPolicy`. -/
def getPolicy (s : Simulation) (from_ to_ : Nat) (lineID : Int) : Policy × Simulation :=
  let nextStation := (getPolicyNext s from_ to_ lineID).1
  let dir := s.directionsAt from_ nextStation
  if dir ≠ -1 then
    ({ direction := dir, transferStation := -1, transferDirection := -1 },
      (getPolicyNext s from_ to_ lineID).2)
  else
    let dir := s.directionsAt nextStation to_
    ({ direction := -1, transferStation := nextStation, transferDirection := dir },
      (getPolicyNext s from_ to_ lineID).2)

/-! ## Passenger injection -/

/-- The function `Simulation::addPassengers`. -/
def addPassengers (s : Simulation) (from_ to_ : Nat) (num : Int) : Simulation :=
  let policy := (getPolicy s from_ to_ (-1)).1
  let s := (getPolicy s from_ to_ (-1)).2
  let transfer : Bool := decide (policy.direction = -1)
  let s :=
    if transfer then
      { s with totalTravelTime :=
          s.totalTravelTime + s.transferTimeAt from_ policy.transferStation.toNat * num }
    else s
  let from_ := if transfer then policy.transferStation.toNat else from_
  let direction := if transfer then policy.transferDirection else policy.direction
  let station := s.stationAt from_
  let queue_len : ℚ := ((station.queue.get direction []).length : ℚ)
  let new_len : ℚ := queue_len + num
  let station :=
    { station with
      avg_inStationTime := station.avg_inStationTime.set direction
        ((queue_len * station.avg_inStationTime.get direction 0 + num * s.time) / new_len)
      queue := station.queue.set direction
        (station.queue.get direction [] ++ [{ numPassengers := num, destination := to_ }]) }
  { s with stations := s.stations.set from_ station, num_departed := s.num_departed + num }

/-! ## Reset -/

/-- The train-renewal loop body of `reset`: row `i` of `startTrainInfo` becomes a
fresh train carried by an `ARRIVAL` event at its start time. -/
def resetTrain (s : Simulation) (i : Nat) : Simulation :=
  let row := s.startTrainInfo.getD i []
  let trainID := (row.getD 0 0).toNat
  let startingStationID := (row.getD 1 0).toNat
  let lineID := row.getD 2 0
  let direction := row.getD 3 0
  let capacity := row.getD 4 0
  let startTime : ℚ := ((row.getD 5 0 : Int) : ℚ)
  let newTrain := Train.new trainID lineID direction startingStationID startTime capacity
  let newEvent := Event.new startTime EventType.ARRIVAL
  let newEvent := { newEvent with train := some newTrain }
  { s with EventQueue := EventQueue.push s.EventQueue newEvent }

/-- The station-renewal loop body of `reset`: both queues emptied, both averages zeroed. -/
def resetStation (s : Simulation) (i : Nat) : Simulation :=
  let st := s.stationAt i
  let st := { st with queue := ⟨[], []⟩, avg_inStationTime := ⟨0, 0⟩ }
  { s with stations := s.stations.set i st }

/-- The function `Simulation::reset`.  The loop that pops the event queue until
it is empty leaves the empty vector. -/
def reset (s : Simulation) : Simulation :=
  let s := { s with time := 0, totalTravelTime := 0, totalDelay := 0,
                    num_departed := 0, num_arrived := 0 }
  let s := { s with EventQueue := [] }
  let s := (List.range s.totalTrainNum).foldl
    (fun s i => { s with time_iter := s.time_iter.set i 0,
                         stationID_iter := s.stationID_iter.set i 0 }) s
  let s := (List.range s.totalTrainNum).foldl resetTrain s
  (List.range TOTAL_STATIONS).foldl resetStation s

/-- The inline member `Simulation::addEvent`. -/
def addEvent (s : Simulation) (newevent : Event) : Simulation :=
  { s with EventQueue := EventQueue.push s.EventQueue newevent }

/-! ## The event loop -/

/-- The function `Simulation::report`. -/
def report (s : Simulation) : Report :=
  { isFinished := if s.time < TOTAL_SIMULATION_TIME then false else true,
    totalDelay := s.totalDelay,
    totalTravelTime := s.totalTravelTime }

/-- Modelled from the spec: `getNextArrivalTime` is declared in the class but its
body is not among the sources.  Per the spec the next arrival time is
`arrivalTime[trainId][cursor]` and the cursor `time_iter[trainId]` advances. -/
def getNextArrivalTime (s : Simulation) (trainID : Nat) : ℚ × Simulation :=
  let cursor := s.time_iter.getD trainID 0
  ((s.arrivalTime.getD trainID []).getD cursor 0,
    { s with time_iter := s.time_iter.set trainID (cursor + 1) })

/-- Modelled from the spec: `getNextArrivalStationID` is declared in the class but
its body is not among the sources.  Per the spec the next station is
`arrivalStationId[trainId][cursor]` and the cursor `stationID_iter[trainId]` advances. -/
def getNextArrivalStationID (s : Simulation) (trainID : Nat) : Nat × Simulation :=
  let cursor := s.stationID_iter.getD trainID 0
  ((s.arrivalStationID.getD trainID []).getD cursor 0,
    { s with stationID_iter := s.stationID_iter.set trainID (cursor + 1) })

/-- Lines 231-236 of `run`: the on-board travel time of the segment, then the
passengers bound for the arriving station get off. -/
def alightDirect (s : Simulation) (train : Train) : Simulation × Train :=
  let station := train.arrivingStation
  let off := train.destination.getD station 0
  ({ s with totalTravelTime := s.totalTravelTime + train.passengerNum * (s.time - train.lastTime),
            num_arrived := s.num_arrived + off },
   { train with passengerNum := train.passengerNum - off,
                capacity := train.capacity + off,
                destination := train.destination.set station 0 })

/-- Lines 245-295 of `run`: the body of the loop over `dest_station` at a transfer station. -/
def transferBody (station : Nat) (lineID : Int) (st : Simulation × Train) (dest_station : Nat) :
    Simulation × Train :=
  let s := st.1
  let train := st.2
  if train.destination.getD dest_station 0 > 0 then
    if s.transferTimeAt station dest_station ≥ 0 then
      let off_num := train.destination.getD dest_station 0
      ({ s with num_arrived := s.num_arrived + off_num,
                totalTravelTime := s.totalTravelTime + s.transferTimeAt station dest_station * off_num },
       { train with passengerNum := train.passengerNum - off_num,
                    capacity := train.capacity + off_num,
                    destination := train.destination.set dest_station 0 })
    else
      let transfer_policy := (getPolicy s station dest_station lineID).1
      let s := (getPolicy s station dest_station lineID).2
      if transfer_policy.direction = -1 then
        let num_transfer := train.destination.getD dest_station 0
        let train := { train with passengerNum := train.passengerNum - num_transfer,
                                  capacity := train.capacity + num_transfer }
        let transfer_stationID := transfer_policy.transferStation.toNat
        if s.transferTimeAt station transfer_stationID = 0 then
          (addPassengers s transfer_stationID dest_station num_transfer, train)
        else
          let walk := s.transferTimeAt station transfer_stationID
          let newEvent := Event.new (s.time + walk) EventType.TRANSFER
          let newEvent :=
            { newEvent with OD := [[(transfer_stationID : Int), (dest_station : Int), num_transfer]] }
          let s := { s with totalTravelTime := s.totalTravelTime + walk * num_transfer }
          ({ s with EventQueue := EventQueue.push s.EventQueue newEvent }, train)
      else (s, train)
  else (s, train)

/-- Lines 244-296 of `run`: the loop over every `dest_station`. -/
def transferLoop (station : Nat) (lineID : Int) (s : Simulation) (train : Train) :
    Simulation × Train :=
  (List.range TOTAL_STATIONS).foldl (transferBody station lineID) (s, train)

/-- Lines 231-297 of `run`: direct alighting, then transfer handling when the
station is a transfer station. -/
def alightAndTransfer (s : Simulation) (train : Train) : Simulation × Train :=
  let station := train.arrivingStation
  let lineID := train.lineID
  let r := alightDirect s train
  if (r.1.stationAt station).isTransfer then transferLoop station lineID r.1 r.2 else r

/-- Lines 303-307 of `run`: the delay integral of the waiting queue. -/
def drainOnArrival (s : Simulation) (station : Nat) (direction : Int) : Simulation :=
  let st := s.stationAt station
  let delta_time : ℚ :=
    (s.time - st.avg_inStationTime.get direction 0) * ((st.queue.get direction []).length : ℚ)
  let st := { st with avg_inStationTime := st.avg_inStationTime.set direction s.time }
  { s with totalDelay := s.totalDelay + delta_time,
           totalTravelTime := s.totalTravelTime + delta_time,
           stations := s.stations.set station st }

/-- Lines 310-327 of `run`: the boarding loop `while (!passengerQueue->empty())`.
`none` means the fuel ran out before the queue was empty. -/
def boardLoop : Nat → Train → Q → Option (Train × Q)
  | _, train, [] => some (train, [])
  | 0, _, _ :: _ => none
  | fuel + 1, train, passengers :: rest =>
    if passengers.numPassengers ≤ train.capacity then
      boardLoop fuel
        { train with
          capacity := train.capacity - passengers.numPassengers,
          passengerNum := train.passengerNum + passengers.numPassengers,
          destination := train.destination.set passengers.destination
            (train.destination.getD passengers.destination 0 + passengers.numPassengers) }
        rest
    else
      boardLoop fuel
        { train with
          passengerNum := train.passengerNum + train.capacity,
          destination := train.destination.set passengers.destination
            (train.destination.getD passengers.destination 0 + train.capacity),
          capacity := 0 }
        ({ passengers with numPassengers := passengers.numPassengers - train.capacity } :: rest)

/-- Lines 299-344 of `run`: the block executed at a station that is not terminal
in the train's direction. -/
def boardAndDepart (fuel : Nat) (s : Simulation) (nextevent : Event) (train : Train)
    (trainID station : Nat) (direction : Int) : Outcome (Simulation × Train) :=
  let s := drainOnArrival s station direction
  let st := s.stationAt station
  match boardLoop fuel train (st.queue.get direction []) with
  | none => Outcome.diverged
  | some r =>
    let train := r.1
    let st := { st with queue := st.queue.set direction r.2 }
    let s := { s with stations := s.stations.set station st }
    let t := (getNextArrivalTime s trainID).1
    let s := (getNextArrivalTime s trainID).2
    let next := (getNextArrivalStationID s trainID).1
    let s := (getNextArrivalStationID s trainID).2
    let train := { train with arrivingStation := next }
    let nextevent := { nextevent with time := t, train := some train }
    Outcome.done ({ s with EventQueue := EventQueue.push s.EventQueue nextevent }, train)

/-- Lines 347-352 of `run`: the check made at a terminal station, followed by
`delete train;` and `delete& nextevent;`. -/
def terminalCheck (s : Simulation) (train : Train) : Outcome Simulation :=
  if train.passengerNum > 0 then Outcome.thrown "passenger not cleared at terminal!"
  else Outcome.badDelete s

/-- Lines 220-354 of `run`: the `ARRIVAL` branch. -/
def processArrival (fuel : Nat) (s : Simulation) (nextevent : Event) : Outcome Simulation :=
  match nextevent.train with
  | none => Outcome.fault
  | some train =>
    let trainID := train.trainID
    let station := train.arrivingStation
    let direction := train.direction
    let a := alightAndTransfer s train
    let r : Outcome (Simulation × Train) :=
      if (a.1.stationAt station).isTerminal.get direction false = false then
        boardAndDepart fuel a.1 nextevent a.2 trainID station direction
      else Outcome.done a
    match r with
    | Outcome.done b =>
      if (b.1.stationAt station).isTerminal.get direction false = true then terminalCheck b.1 b.2
      else Outcome.done b.1
    | Outcome.thrown msg => Outcome.thrown msg
    | Outcome.diverged => Outcome.diverged
    | Outcome.fault => Outcome.fault
    | Outcome.badDelete b => Outcome.badDelete b

/-- Lines 361-373 of `run`: the loops of the `NEW_OD` branch. -/
def processNewOD (s : Simulation) (OD : List (List Int)) : Simulation :=
  (List.range TOTAL_STATIONS).foldl
    (fun s from_ =>
      (List.range TOTAL_STATIONS).foldl
        (fun s to_ =>
          if (OD.getD from_ []).getD to_ 0 ≠ 0 then
            addPassengers s from_ to_ ((OD.getD from_ []).getD to_ 0)
          else s) s) s

/-- Lines 378-381 of `run`: the call made by the `TRANSFER` branch. -/
def processTransfer (s : Simulation) (OD : List (List Int)) : Simulation :=
  let from_ := ((OD.getD 0 []).getD 0 0).toNat
  let to_ := ((OD.getD 0 []).getD 1 0).toNat
  let num := (OD.getD 0 []).getD 2 0
  addPassengers s from_ to_ num

/-- The dispatch on the type of the popped event.  The `SUSPEND`, `NEW_OD` and
`TRANSFER` branches end with `delete& nextevent;` (lines 357, 374, 383). -/
def dispatch (fuel : Nat) (s : Simulation) (nextevent : Event) : Outcome Simulation :=
  match nextevent.type with
  | EventType.ARRIVAL => processArrival fuel s nextevent
  | EventType.SUSPEND => Outcome.badDelete s
  | EventType.NEW_OD => Outcome.badDelete (processNewOD s nextevent.OD)
  | EventType.TRANSFER => Outcome.badDelete (processTransfer s nextevent.OD)

/-- Lines 216-218 of `run`: take the top event, pop it, set the clock. -/
def popEvent (s : Simulation) : Option (Event × Simulation) :=
  match EventQueue.top s.EventQueue with
  | none => none
  | some nextevent =>
    some (nextevent, { s with EventQueue := EventQueue.pop s.EventQueue, time := nextevent.time })

/-- One turn of the loop of `run` on a non-empty queue: the state after the
popped event has been processed. -/
def runEvent (fuel : Nat) (s : Simulation) : Outcome Simulation :=
  match popEvent s with
  | none => Outcome.done s
  | some (nextevent, s) => dispatch fuel s nextevent

/-- The function `Simulation::run`; `fuel` bounds the number of events popped
and the turns of each boarding loop. -/
def run : Nat → Simulation → Outcome (Report × Simulation)
  | 0, _ => Outcome.diverged
  | fuel + 1, s =>
    match popEvent s with
    | none => Outcome.done (report s, s)
    | some (nextevent, s1) =>
      match dispatch (fuel + 1) s1 nextevent with
      | Outcome.done s2 =>
        if nextevent.type = EventType.SUSPEND then Outcome.done (report s2, s2)
        else if s2.time < TOTAL_SIMULATION_TIME then run fuel s2
        else Outcome.done (report s2, s2)
      | Outcome.thrown msg => Outcome.thrown msg
      | Outcome.diverged => Outcome.diverged
      | Outcome.fault => Outcome.fault
      | Outcome.badDelete s2 => Outcome.badDelete s2

/-! ## Specification-level notions -/

/-- The time of the event stored at index `i` of the vector. -/
def keyAt (v : List Event) (i : Nat) : ℚ := (v.getD i (Event.new 0 EventType.SUSPEND)).time

/-- Heap order under `EventCompare`: no parent has a later time than its child. -/
def IsHeap (v : List Event) : Prop :=
  ∀ i, 0 < i → i < v.length → keyAt v ((i - 1) / 2) ≤ keyAt v i

/-! ### The event queue as a heap -/

/-- The invariant of the sift-up loop: heap order holds on every edge that does
not end in the hole, where the hole is read as holding `x`, and the parent of
the hole is in order with the children of the hole. -/
def UpInv (v : List Event) (hole : Nat) (x : ℚ) : Prop :=
  (∀ i, 0 < i → i < v.length → i ≠ hole →
      (if (i - 1) / 2 = hole then x else keyAt v ((i - 1) / 2)) ≤ keyAt v i) ∧
  (∀ c, 0 < c → c < v.length → (c - 1) / 2 = hole → 0 < hole →
      keyAt v ((hole - 1) / 2) ≤ keyAt v c)

/-- The invariant of the sift-down loop: heap order holds on every edge that
avoids the hole, and the parent of the hole is in order with the children of
the hole. -/
def DownInv (w : List Event) (hole : Nat) : Prop :=
  (∀ i, 0 < i → i < w.length → i ≠ hole → (i - 1) / 2 ≠ hole →
      keyAt w ((i - 1) / 2) ≤ keyAt w i) ∧
  (∀ c, 0 < c → c < w.length → (c - 1) / 2 = hole → 0 < hole →
      keyAt w ((hole - 1) / 2) ≤ keyAt w c)

def pushAll (es : List Event) : List Event := es.foldl EventQueue.push []

def popAll : Nat → List Event → List Event
  | 0, _ => []
  | n + 1, v =>
    match EventQueue.top v with
    | none => []
    | some e => e :: popAll n (EventQueue.pop v)

def popOrder (es : List Event) : List Event := popAll es.length (pushAll es)

/-! ### Passenger accounting -/

/-- Apply a function to the result of a finished computation. -/
def Outcome.map {α β : Type} (f : α → β) : Outcome α → Outcome β
  | Outcome.done a => Outcome.done (f a)
  | Outcome.thrown msg => Outcome.thrown msg
  | Outcome.diverged => Outcome.diverged
  | Outcome.fault => Outcome.fault
  | Outcome.badDelete s => Outcome.badDelete s

/-- The value of `f` on the state in which `delete& nextevent;` is executed, for
an outcome that ends there. -/
def Outcome.atDelete {α β : Type} (f : Simulation → β) : Outcome α → Option β
  | Outcome.badDelete s => some (f s)
  | _ => none

/-- The processing of an event stops in state `s2`: it returns in `s2`, or it
executes `delete& nextevent;` in `s2`. -/
def StopsIn (o : Outcome Simulation) (s2 : Simulation) : Prop :=
  o = Outcome.done s2 ∨ o = Outcome.badDelete s2

/-- A call of `run` stops in state `s2`: it returns a report in `s2`, or it
executes `delete& nextevent;` in `s2`. -/
def RunStopsIn (o : Outcome (Report × Simulation)) (s2 : Simulation) : Prop :=
  (∃ r, o = Outcome.done (r, s2)) ∨ o = Outcome.badDelete s2

/-- The number of passengers waiting in a queue: the sum of `numPassengers` over its cohorts. -/
def queuePassengers (q : Q) : Int := (q.map (fun p => p.numPassengers)).sum

/-- The passengers waiting at a station, both directions. -/
def stationPassengers (st : Station) : Int :=
  queuePassengers st.queue.d0 + queuePassengers st.queue.d1

/-- The passengers waiting in all station queues. -/
def passengersQueued (s : Simulation) : Int := (s.stations.map stationPassengers).sum

/-- The passengers aboard the train of a pending `ARRIVAL` event. -/
def eventPassengers (e : Event) : Int :=
  match e.type, e.train with
  | EventType.ARRIVAL, some train => train.passengerNum
  | _, _ => 0

/-- The passengers aboard all live trains, a live train being one carried by a
pending `ARRIVAL` event. -/
def passengersAboard (s : Simulation) : Int := (s.EventQueue.map eventPassengers).sum

/-- The surplus `num_arrived + queued + aboard - num_departed`; conservation says it is 0. -/
def balance (s : Simulation) : Int :=
  s.num_arrived + passengersQueued s + passengersAboard s - s.num_departed

/-! ### Scenario networks -/

/-- The two-station line of scenarios S1 and S2: stations A = 0 and B = 1 on line 0
(station 2 is unused), one train of capacity `C` leaving A at `start` in direction 0
and due at the terminal B at time `T`. -/
def lineAB (C : Int) (start : Int) (T : ℚ) : Simulation :=
  { time := 0, totalTravelTime := 0, totalDelay := 0, num_departed := 0, num_arrived := 0,
    policy_num := [[0, 1, 0], [1, 0, 0], [0, 0, 0]],
    policy := [[[0], [1], [0]], [[0], [1], [0]], [[0], [0], [0]]],
    directions := [[-1, 0, -1], [1, -1, -1], [-1, -1, -1]],
    transferTime := [[-1, -1, -1], [-1, -1, -1], [-1, -1, -1]],
    lineIDOfStation := [0, 0, 1],
    startTrainInfo := [[0, 0, 0, 0, C, start]],
    arrivalTime := [[T]],
    arrivalStationID := [[1]],
    stations :=
      [{ ID := 0, lineID := 0, isTerminal := ⟨false, true⟩, isTransfer := false,
         queue := ⟨[], []⟩, avg_inStationTime := ⟨0, 0⟩ },
       { ID := 1, lineID := 0, isTerminal := ⟨true, false⟩, isTransfer := false,
         queue := ⟨[], []⟩, avg_inStationTime := ⟨0, 0⟩ },
       { ID := 2, lineID := 1, isTerminal := ⟨true, true⟩, isTransfer := false,
         queue := ⟨[], []⟩, avg_inStationTime := ⟨0, 0⟩ }],
    EventQueue := [], totalTrainNum := 1, time_iter := [0], stationID_iter := [0],
    randSeq := [], randCalls := 0 }

/-- A three-station network with a transfer: the train runs on line 0 from
station 0 to the transfer station 1 (due at 60) and on to its terminal, station 2
(due at 120).  Station 2 is also the platform of line 1 at the interchange,
`walk` seconds from station 1, and line 1 leads from station 2 to station 0.
Passengers bound for station 0 who reach station 1 are routed to transfer via
station 2. -/
def transferNet (walk : ℚ) : Simulation :=
  { time := 0, totalTravelTime := 0, totalDelay := 0, num_departed := 0, num_arrived := 0,
    policy_num := [[1, 1, 1], [1, 1, 1], [1, 1, 1]],
    policy := [[[1], [1], [1]], [[2], [1], [2]], [[0], [1], [2]]],
    directions := [[-1, 0, -1], [-1, -1, -1], [0, -1, -1]],
    transferTime := [[-1, -1, -1], [-1, 0, walk], [-1, walk, 0]],
    lineIDOfStation := [0, 0, 1],
    startTrainInfo := [[0, 0, 0, 0, 300, 0]],
    arrivalTime := [[60, 120]],
    arrivalStationID := [[1, 2]],
    stations :=
      [{ ID := 0, lineID := 0, isTerminal := ⟨false, true⟩, isTransfer := false,
         queue := ⟨[], []⟩, avg_inStationTime := ⟨0, 0⟩ },
       { ID := 1, lineID := 0, isTerminal := ⟨false, false⟩, isTransfer := true,
         queue := ⟨[], []⟩, avg_inStationTime := ⟨0, 0⟩ },
       { ID := 2, lineID := 1, isTerminal := ⟨true, false⟩, isTransfer := true,
         queue := ⟨[], []⟩, avg_inStationTime := ⟨0, 0⟩ }],
    EventQueue := [], totalTrainNum := 1, time_iter := [0], stationID_iter := [0],
    randSeq := [], randCalls := 0 }

/-- Sequencing of computations that may fail. -/
def Outcome.bind {α β : Type} (o : Outcome α) (f : α → Outcome β) : Outcome β :=
  match o with
  | Outcome.done a => f a
  | Outcome.thrown msg => Outcome.thrown msg
  | Outcome.diverged => Outcome.diverged
  | Outcome.fault => Outcome.fault
  | Outcome.badDelete s => Outcome.badDelete s

/-- The pair `(passengerNum, destination)` of each train carried by a pending event. -/
def trainLoads (s : Simulation) : List (Int × List Int) :=
  s.EventQueue.filterMap (fun e => e.train.map (fun t => (t.passengerNum, t.destination)))

/-! ### The static part of a state -/

/-- The fields of a station that the simulation never writes. -/
def Station.static (st : Station) : Nat × Int × Arr2 Bool × Bool :=
  (st.ID, st.lineID, st.isTerminal, st.isTransfer)

/-- Two states agree on the loaded data: the static tables, the generator's
sequence, the number of trains, the static fields of every station, and the
sizes of the cursor arrays. -/
def SameStatic (a b : Simulation) : Prop :=
  a.policy_num = b.policy_num ∧ a.policy = b.policy ∧ a.directions = b.directions ∧
  a.transferTime = b.transferTime ∧ a.lineIDOfStation = b.lineIDOfStation ∧
  a.startTrainInfo = b.startTrainInfo ∧ a.arrivalTime = b.arrivalTime ∧
  a.arrivalStationID = b.arrivalStationID ∧ a.totalTrainNum = b.totalTrainNum ∧
  a.randSeq = b.randSeq ∧
  a.stations.map Station.static = b.stations.map Station.static ∧
  a.time_iter.length = b.time_iter.length ∧
  a.stationID_iter.length = b.stationID_iter.length

/-- The station whose queue `addPassengers` writes. -/
def routedStation (s : Simulation) (from_ to_ : Nat) : Nat :=
  if (getPolicy s from_ to_ (-1)).1.direction = -1 then
    (getPolicy s from_ to_ (-1)).1.transferStation.toNat
  else from_

/-- The direction of the queue that `addPassengers` writes. -/
def routedDirection (s : Simulation) (from_ to_ : Nat) : Int :=
  if (getPolicy s from_ to_ (-1)).1.direction = -1 then
    (getPolicy s from_ to_ (-1)).1.transferDirection
  else (getPolicy s from_ to_ (-1)).1.direction

/-! ### Scenario events -/

/-- An `ARRIVAL` event at time `t` carrying `train`. -/
def arrivalOf (train : Train) (t : ℚ) : Event :=
  { type := EventType.ARRIVAL, time := t, OD := [], train := some train }

/-- A train of line 0 and direction 0 arriving at station 1 with the given load. -/
def trainAtB (destination : List Int) (passengerNum : Int) : Train :=
  { trainID := 0, lineID := 0, arrivingStation := 1, direction := 0,
    capacity := 300 - passengerNum, lastTime := 0, destination := destination,
    passengerNum := passengerNum }

/-! ### Reset and reachability -/

/-- The event that `reset` is to create for a row
`(trainID, startingStationID, lineID, direction, capacity, startTime)` of
`startTrainInfo`: an `ARRIVAL` at `startTime` carrying a fresh train. -/
def startEvent (row : List Int) : Event :=
  { type := EventType.ARRIVAL, time := ((row.getD 5 0 : Int) : ℚ), OD := [],
    train := some
      { trainID := (row.getD 0 0).toNat, lineID := row.getD 2 0,
        arrivingStation := (row.getD 1 0).toNat, direction := row.getD 3 0,
        capacity := row.getD 4 0, lastTime := ((row.getD 5 0 : Int) : ℚ),
        destination := List.replicate TOTAL_STATIONS 0, passengerNum := 0 } }

/-- A station with both queues emptied and both averages zeroed. -/
def Station.cleared (st : Station) : Station :=
  { st with queue := ⟨[], []⟩, avg_inStationTime := ⟨0, 0⟩ }

/-- What `init` establishes before it calls `reset`: one train per row of
`startTrainInfo`, cursor arrays of that size, and `TOTAL_STATIONS` stations. -/
def Loaded (s : Simulation) : Prop :=
  s.totalTrainNum = s.startTrainInfo.length ∧ s.time_iter.length = s.totalTrainNum ∧
  s.stationID_iter.length = s.totalTrainNum ∧ s.stations.length = TOTAL_STATIONS

/-- The states reachable from loaded data `s0`: `init` resets, and then the
caller may inject passengers, add an event that satisfies `allow`, let `run`
process one event or run until it stops, and reset again.  The state in which
`delete& nextevent;` is executed counts as reached, and an execution may go on
from it: what holds of every such execution holds of the run that ends at the
statement and of a run that survives it. -/
inductive Reachable (allow : Event → Prop) (s0 : Simulation) : Simulation → Prop where
  | init : Reachable allow s0 (reset s0)
  | addPassengers {s : Simulation} (from_ to_ : Nat) (num : Int) :
      Reachable allow s0 s → Reachable allow s0 (addPassengers s from_ to_ num)
  | addEvent {s : Simulation} (e : Event) :
      Reachable allow s0 s → allow e → Reachable allow s0 (addEvent s e)
  | runEvent {s s' : Simulation} (fuel : Nat) :
      Reachable allow s0 s → StopsIn (runEvent fuel s) s' → Reachable allow s0 s'
  | run {s s' : Simulation} (fuel : Nat) :
      Reachable allow s0 s → RunStopsIn (run fuel s) s' → Reachable allow s0 s'
  | reset {s : Simulation} : Reachable allow s0 s → Reachable allow s0 (reset s)

/-! ### Event queue scenarios -/

/-- A `TRANSFER` event at time `t` carrying the OD triple `(from, to, num)`. -/
def transferOf (t : ℚ) (from_ to_ : Nat) (num : Int) : Event :=
  { type := EventType.TRANSFER, time := t, OD := [[(from_ : Int), (to_ : Int), num]],
    train := none }

/-- The vectors that the event queue can hold: those obtained from the empty
queue by pushes and pops in any order. -/
inductive Pending : List Event → Prop where
  | empty : Pending []
  | push {v : List Event} (e : Event) : Pending v → Pending (EventQueue.push v e)
  | pop {v : List Event} : Pending v → Pending (EventQueue.pop v)

/-! ### Train invariants -/

/-- A consistent histogram: no negative entry, and the entries sum to `passengerNum`. -/
def TrainWF (train : Train) : Prop :=
  (∀ x ∈ train.destination, 0 ≤ x) ∧ train.destination.sum = train.passengerNum

/-- The queue that `addPassengers(from_, to_, _)` writes exists, whatever the
position in the random sequence: its station lies in the station array and
its direction is 0 or 1. -/
def RouteValid (s0 : Simulation) (from_ to_ : Nat) : Prop :=
  ∀ calls : Nat,
    routedStation { s0 with randCalls := calls } from_ to_ < s0.stations.length ∧
    (routedDirection { s0 with randCalls := calls } from_ to_ = 0 ∨
      routedDirection { s0 with randCalls := calls } from_ to_ = 1)

/-- A cohort that an injection may create: a non-negative count bound for a
station of the network. -/
def CohortOK (p : WaitingPassengers) : Prop :=
  0 ≤ p.numPassengers ∧ p.destination < TOTAL_STATIONS

/-- Both queues of the station hold only such cohorts. -/
def StationOK (st : Station) : Prop :=
  (∀ p ∈ st.queue.d0, CohortOK p) ∧ (∀ p ∈ st.queue.d1, CohortOK p)

/-- A train with a consistent histogram over the `TOTAL_STATIONS` stations. -/
def TrainOK (train : Train) : Prop :=
  TrainWF train ∧ train.destination.length = TOTAL_STATIONS

/-- Every queue holds only admissible cohorts and every train carried by a
pending event has a consistent histogram. -/
def StateOK (s : Simulation) : Prop :=
  (∀ st ∈ s.stations, StationOK st) ∧
  (∀ e ∈ s.EventQueue, ∀ train, e.train = some train → TrainOK train)

/-- The handling of the arrival of `train` sends nobody to a transfer: when the
station is a transfer station, every other station the train carries passengers
for is an exit of this one (`transferTime ≥ 0`) or is routed without a
transfer, whatever the position in the random sequence. -/
def NoTransferOff (s0 : Simulation) (train : Train) : Prop :=
  (s0.stationAt train.arrivingStation).isTransfer = true →
    ∀ dest, dest < TOTAL_STATIONS → dest ≠ train.arrivingStation →
      0 < train.destination.getD dest 0 →
        0 ≤ s0.transferTimeAt train.arrivingStation dest ∨
        ∀ calls, (getPolicy { s0 with randCalls := calls } train.arrivingStation dest
          train.lineID).1.direction ≠ -1

/-- What alighting without transfer keeps of `s`: queues, pending events and
`num_departed`; the passengers that left the train are counted as arrived; the
histogram stays consistent and its entries are those of `T` or zero. -/
def Keeps (s : Simulation) (c : Int) (T : List Int) (st : Simulation × Train) : Prop :=
  st.1.stations = s.stations ∧ st.1.EventQueue = s.EventQueue ∧
  st.1.num_departed = s.num_departed ∧ st.1.num_arrived + st.2.passengerNum = c ∧
  TrainOK st.2 ∧
  ∀ d, st.2.destination.getD d 0 = T.getD d 0 ∨ st.2.destination.getD d 0 = 0

/-- The event on top of the queue of `s` involves no transfer from a train and
injects admissible cohorts into queues that exist: the handling of an `ARRIVAL`
sends nobody to a transfer; the entries of a `NEW_OD` matrix and the count of a
`TRANSFER` event are non-negative and routed to existing queues. -/
def EventOK (s0 s : Simulation) : Prop :=
  ∀ e, EventQueue.top s.EventQueue = some e →
    (e.type = EventType.ARRIVAL → ∀ train, e.train = some train → NoTransferOff s0 train) ∧
    (e.type = EventType.NEW_OD → ∀ from_ to_, from_ < TOTAL_STATIONS → to_ < TOTAL_STATIONS →
      (e.OD.getD from_ []).getD to_ 0 ≠ 0 →
        RouteValid s0 from_ to_ ∧ 0 ≤ (e.OD.getD from_ []).getD to_ 0) ∧
    (e.type = EventType.TRANSFER →
      RouteValid s0 ((e.OD.getD 0 []).getD 0 0).toNat ((e.OD.getD 0 []).getD 1 0).toNat ∧
      0 ≤ (e.OD.getD 0 []).getD 2 0 ∧ ((e.OD.getD 0 []).getD 1 0).toNat < TOTAL_STATIONS)

/-- The executions along which no passenger is routed to a transfer from a
train: from `init`, the caller injects non-negative counts bound for stations
of the network into queues that exist, adds events that carry no train, and
`run` processes events that are `EventOK`, up to the return of the branch or to
its `delete& nextevent;`. -/
inductive ConservingRun (s0 : Simulation) : Simulation → Prop where
  | init : ConservingRun s0 (reset s0)
  | addPassengers {s : Simulation} (from_ to_ : Nat) (num : Int) :
      ConservingRun s0 s → RouteValid s0 from_ to_ → 0 ≤ num → to_ < TOTAL_STATIONS →
      ConservingRun s0 (addPassengers s from_ to_ num)
  | addEvent {s : Simulation} (e : Event) :
      ConservingRun s0 s → e.train = none → ConservingRun s0 (addEvent s e)
  | runEvent {s s' : Simulation} (fuel : Nat) :
      ConservingRun s0 s → EventOK s0 s → StopsIn (runEvent fuel s) s' →
      ConservingRun s0 s'

/-! ### Suspension scenario -/

/-- Scenario S2 with a `SUSPEND` scheduled at t = 30: on the two-station line
whose train starts at t = 60, 50 passengers are injected at t = 0 and the caller
adds a `SUSPEND` event at t = 30. -/
def suspendAt30 : Simulation :=
  addEvent (addPassengers (reset (lineAB 300 60 120)) 0 1 50) (Event.new 30 EventType.SUSPEND)

/-! ### Further scenarios -/

/-- A three-station line: stations 0, 1 and 2 on line 0, none of them a transfer
station.  One train of capacity 300 leaves station 0 at time 0 in direction 0,
is due at station 1 at time 60 and at its terminal, station 2, at time 120. -/
def lineABC : Simulation :=
  { time := 0, totalTravelTime := 0, totalDelay := 0, num_departed := 0, num_arrived := 0,
    policy_num := [[1, 1, 1], [1, 1, 1], [1, 1, 1]],
    policy := [[[0], [1], [1]], [[0], [1], [2]], [[1], [1], [2]]],
    directions := [[-1, 0, -1], [1, -1, 0], [-1, 1, -1]],
    transferTime := [[-1, -1, -1], [-1, -1, -1], [-1, -1, -1]],
    lineIDOfStation := [0, 0, 0],
    startTrainInfo := [[0, 0, 0, 0, 300, 0]],
    arrivalTime := [[60, 120]],
    arrivalStationID := [[1, 2]],
    stations :=
      [{ ID := 0, lineID := 0, isTerminal := ⟨false, true⟩, isTransfer := false,
         queue := ⟨[], []⟩, avg_inStationTime := ⟨0, 0⟩ },
       { ID := 1, lineID := 0, isTerminal := ⟨false, false⟩, isTransfer := false,
         queue := ⟨[], []⟩, avg_inStationTime := ⟨0, 0⟩ },
       { ID := 2, lineID := 0, isTerminal := ⟨true, false⟩, isTransfer := false,
         queue := ⟨[], []⟩, avg_inStationTime := ⟨0, 0⟩ }],
    EventQueue := [], totalTrainNum := 1, time_iter := [0], stationID_iter := [0],
    randSeq := [], randCalls := 0 }

/-- The triple `(lastTime, passengerNum, arrivingStation)` of each train carried by
a pending event. -/
def trainClocks (s : Simulation) : List (ℚ × Int × Nat) :=
  s.EventQueue.filterMap
    (fun e => e.train.map (fun t => (t.lastTime, t.passengerNum, t.arrivingStation)))

/-- The number of passengers of a queue bound for station `d`: the sum of the
counts of its cohorts with destination `d`. -/
def boundFor (q : Q) (d : Nat) : Int :=
  ((q.filter (fun p => decide (p.destination = d))).map (fun p => p.numPassengers)).sum

/-! ### Executions -/

/-- The executions from loaded data `s0`: `init` resets; then the caller injects
passengers when `inj` allows the call, adds an event that `ext` allows, and
`run` processes the event on top of the queue when the state satisfies `step`,
up to the return of the branch or to its `delete& nextevent;`. -/
inductive Exec (s0 : Simulation) (inj : Simulation → Nat → Nat → Int → Prop)
    (ext : Simulation → Event → Prop) (step : Simulation → Prop) : Simulation → Prop where
  | init : Exec s0 inj ext step (reset s0)
  | addPassengers {s : Simulation} (from_ to_ : Nat) (num : Int) :
      Exec s0 inj ext step s → inj s from_ to_ num →
      Exec s0 inj ext step (addPassengers s from_ to_ num)
  | addEvent {s : Simulation} (e : Event) :
      Exec s0 inj ext step s → ext s e → Exec s0 inj ext step (addEvent s e)
  | runEvent {s s' : Simulation} (fuel : Nat) :
      Exec s0 inj ext step s → step s → StopsIn (runEvent fuel s) s' →
      Exec s0 inj ext step s'

/-! ### Empty networks -/

/-- A train without passengers: `passengerNum` is 0 and so is every entry of the
histogram. -/
def EmptyTrain (train : Train) : Prop :=
  train.passengerNum = 0 ∧ ∀ d, train.destination.getD d 0 = 0

/-- A network without passengers: the four counters are 0, every queue is empty
and every pending event is a `SUSPEND` or the `ARRIVAL` of an empty train. -/
def EmptyNetwork (s : Simulation) : Prop :=
  s.totalDelay = 0 ∧ s.totalTravelTime = 0 ∧ s.num_departed = 0 ∧ s.num_arrived = 0 ∧
  (∀ st ∈ s.stations, st.queue = ⟨[], []⟩) ∧
  (∀ e ∈ s.EventQueue, e.type = EventType.SUSPEND ∨
    (e.type = EventType.ARRIVAL ∧ ∃ train, e.train = some train ∧ EmptyTrain train))

/-! ### Averages in range -/

/-- Both per-direction averages of the station lie between 0 and `t`. -/
def Station.avgWithin (st : Station) (t : ℚ) : Prop :=
  0 ≤ st.avg_inStationTime.d0 ∧ st.avg_inStationTime.d0 ≤ t ∧
  0 ≤ st.avg_inStationTime.d1 ∧ st.avg_inStationTime.d1 ≤ t

/-- The clock is not negative and every average of every station lies between 0
and the clock. -/
def AvgInRange (s : Simulation) : Prop :=
  0 ≤ s.time ∧ ∀ st ∈ s.stations, st.avgWithin s.time

/-- The event on top of the queue is not earlier than the clock and injects
positive counts only: the entries of a `NEW_OD` matrix are not negative and the
count of a `TRANSFER` event is positive. -/
def AvgStep (s : Simulation) : Prop :=
  ∀ e, EventQueue.top s.EventQueue = some e →
    s.time ≤ e.time ∧
    (e.type = EventType.NEW_OD → ∀ from_ to_, from_ < TOTAL_STATIONS → to_ < TOTAL_STATIONS →
      0 ≤ (e.OD.getD from_ []).getD to_ 0) ∧
    (e.type = EventType.TRANSFER → 0 < (e.OD.getD 0 []).getD 2 0)

/-- The three-station line with a train that starts late: it leaves station 0 at
t = 100, while its schedule has it due at station 1 at t = 60. -/
def lateStart : Simulation :=
  { lineABC with startTrainInfo := [[0, 0, 0, 0, 300, 100]] }

/-- The three-station line with the train due at station 1 at `t1` and at station 2
at `t2`. -/
def lineABCAt (t1 t2 : ℚ) : Simulation :=
  { lineABC with arrivalTime := [[t1, t2]] }

/-! ### Binary64 arithmetic -/

/-- The integer nearest to `y`, ties going to the even one. -/
def roundHalfEven (y : ℚ) : Int :=
  if y - ⌊y⌋ < 1 / 2 then ⌊y⌋
  else if 1 / 2 < y - ⌊y⌋ then ⌊y⌋ + 1
  else if ⌊y⌋ % 2 = 0 then ⌊y⌋ else ⌊y⌋ + 1

/-- The position of the leading bit of `n`: the `k` with `2 ^ k ≤ n < 2 ^ (k + 1)`
for `0 < n ≤ fuel`. -/
def leadingBit : Nat → Nat → Nat
  | 0, _ => 0
  | fuel + 1, n => if n < 2 then 0 else leadingBit fuel (n / 2) + 1

/-- The binary exponent of a rational `q ≠ 0`: the integer `e` with
`2 ^ e ≤ |q| < 2 ^ (e + 1)`. -/
def binaryExponent (q : ℚ) : Int :=
  if (2 : ℚ) ^ ((leadingBit q.num.natAbs q.num.natAbs : Int) - (leadingBit q.den q.den : Int))
      ≤ |q| then
    (leadingBit q.num.natAbs q.num.natAbs : Int) - (leadingBit q.den q.den : Int)
  else (leadingBit q.num.natAbs q.num.natAbs : Int) - (leadingBit q.den q.den : Int) - 1

/-- Rounding to binary64, to nearest with ties to even: the rational with a
significand of 53 bits that is nearest to `q`.  The exponent range is not
modelled: no overflow, no subnormal numbers. -/
def roundBinary64 (q : ℚ) : ℚ :=
  if q = 0 then 0
  else (roundHalfEven (q * 2 ^ (52 - binaryExponent q)) : ℚ) / 2 ^ (52 - binaryExponent q)

/-- Lines 445-449 of `addPassengers` in binary64 arithmetic: with
`queue_len = (double)size` and `new_len = queue_len + (double)num`, the value
`(queue_len * avg + (double)num * time) / new_len`, each conversion and each
operation rounded to nearest.  `addPassengers` has the same expression in exact
arithmetic. -/
def meanBinary64 (queue_len : Nat) (avg : ℚ) (num : Int) (time : ℚ) : ℚ :=
  roundBinary64
    (roundBinary64 (roundBinary64 (roundBinary64 queue_len * avg) +
        roundBinary64 (roundBinary64 num * time)) /
      roundBinary64 (roundBinary64 queue_len + roundBinary64 num))

/-! ### Walks and delay steps -/

/-- Routing from `from_` to `to_` for a passenger on line `lineID` charges no
negative walk: whenever it returns a transfer via `n`, whatever the position in
the random sequence, `transferTime[from_][n] ≥ 0`. -/
def WalkOK (s0 : Simulation) (from_ to_ : Nat) (lineID : Int) : Prop :=
  ∀ calls : Nat,
    (getPolicy { s0 with randCalls := calls } from_ to_ lineID).1.direction = -1 →
      0 ≤ s0.transferTimeAt from_
        (getPolicy { s0 with randCalls := calls } from_ to_ lineID).1.transferStation.toNat

/-- The transfers out of a train of line `lineID` at `station` charge no negative
walk, and neither does the injection at the transfer station when the transfer
is on the same platform. -/
def TrainWalksOK (s0 : Simulation) (station : Nat) (lineID : Int) : Prop :=
  ∀ dest, dest < TOTAL_STATIONS →
    WalkOK s0 station dest lineID ∧
    ∀ calls : Nat,
      (getPolicy { s0 with randCalls := calls } station dest lineID).1.direction = -1 →
      s0.transferTimeAt station
        (getPolicy { s0 with randCalls := calls } station dest lineID).1.transferStation.toNat = 0 →
        WalkOK s0
          (getPolicy { s0 with randCalls := calls } station dest lineID).1.transferStation.toNat
          dest (-1)

/-- The event on top of the queue of `s` adds no negative term to
`totalTravelTime` and divides by no empty count: an `ARRIVAL` carries a train with
`passengerNum ≥ 0`, is not earlier than the train's `lastTime`, and at a
transfer station the walks of its transfers are not negative; the entries of a
`NEW_OD` matrix are not negative, the count of a `TRANSFER` event is positive,
and their routing charges no negative walk. -/
def DelayStep (s0 s : Simulation) : Prop :=
  ∀ e, EventQueue.top s.EventQueue = some e →
    (e.type = EventType.ARRIVAL → ∀ train, e.train = some train →
      0 ≤ train.passengerNum ∧ train.lastTime ≤ e.time ∧
      ((s0.stationAt train.arrivingStation).isTransfer = true →
        TrainWalksOK s0 train.arrivingStation train.lineID)) ∧
    (e.type = EventType.NEW_OD → ∀ from_ to_, from_ < TOTAL_STATIONS → to_ < TOTAL_STATIONS →
      (e.OD.getD from_ []).getD to_ 0 ≠ 0 →
        0 ≤ (e.OD.getD from_ []).getD to_ 0 ∧ WalkOK s0 from_ to_ (-1)) ∧
    (e.type = EventType.TRANSFER →
      0 < (e.OD.getD 0 []).getD 2 0 ∧
      WalkOK s0 ((e.OD.getD 0 []).getD 0 0).toNat ((e.OD.getD 0 []).getD 1 0).toNat (-1))

/-! ### Clock traces -/

/-- The events that processing the top event of `s` pushes are not earlier than
that event.  For an `ARRIVAL` of `train`: at a station that is not terminal in
the train's direction the schedule entry under the train's cursor is not
earlier than the event, and at a transfer station the walks of the transfers
out of the train are not negative. -/
def FollowOnLater (s0 s : Simulation) : Prop :=
  ∀ e, EventQueue.top s.EventQueue = some e → e.type = EventType.ARRIVAL →
    ∀ train, e.train = some train →
      ((s0.stationAt train.arrivingStation).isTerminal.get train.direction false = false →
        e.time ≤ (s0.arrivalTime.getD train.trainID []).getD
          (s.time_iter.getD train.trainID 0) 0) ∧
      ((s0.stationAt train.arrivingStation).isTransfer = true →
        ∀ dest, dest < TOTAL_STATIONS → WalkOK s0 train.arrivingStation dest train.lineID)

/-- The executions of `run` from `init` with the clock values of their pops:
`PopTrace s0 s ts` says that `s` is reached from `reset s0` and that `ts` lists,
latest first, the values assigned to `time` at the pops so far.  The caller may
inject passengers and add events that are not earlier than the last pop; an
event is popped and processed when `FollowOnLater` holds, up to the return of the
branch or to its `delete& nextevent;`. -/
inductive PopTrace (s0 : Simulation) : Simulation → List ℚ → Prop where
  | init : PopTrace s0 (reset s0) []
  | addPassengers {s : Simulation} {ts : List ℚ} (from_ to_ : Nat) (num : Int) :
      PopTrace s0 s ts → PopTrace s0 (addPassengers s from_ to_ num) ts
  | addEvent {s : Simulation} {ts : List ℚ} (e : Event) :
      PopTrace s0 s ts → (∀ t ∈ ts.head?, t ≤ e.time) → PopTrace s0 (addEvent s e) ts
  | pop {s s' : Simulation} {ts : List ℚ} (fuel : Nat) (e : Event) :
      PopTrace s0 s ts → EventQueue.top s.EventQueue = some e → FollowOnLater s0 s →
      StopsIn (runEvent fuel s) s' → PopTrace s0 s' (e.time :: ts)

/-- The clock is `t`, the cursors are `it`, the queue is in heap order, and every
pending event is one of `Q0` or not earlier than `t`. -/
def QueueLater (Q0 : List Event) (t : ℚ) (it : List Nat) (s : Simulation) : Prop :=
  s.time = t ∧ s.time_iter = it ∧ IsHeap s.EventQueue ∧
  ∀ x ∈ s.EventQueue, x ∈ Q0 ∨ t ≤ x.time

/-! ### Routing scenarios -/

/-- A network with a choice of routes: as `transferNet 30`, but from station 0 to
station 2 two candidates are stored, station 1 (line 0) and station 2 (line 1),
and the generator's first draw is 5. -/
def forkNet : Simulation :=
  { transferNet 30 with
    policy_num := [[1, 1, 2], [1, 1, 1], [1, 1, 1]],
    policy := [[[1], [1], [1, 2]], [[2], [1], [2]], [[0], [1], [2]]],
    randSeq := [5] }

/-! ### Transfer scenarios -/

/-- Scenario S5 at the moment the train reaches the transfer station: the state of
`transferNet 30` with the clock at 60, and the train arriving at station 1 with
10 passengers bound for station 0. -/
def walkState : Simulation := { reset (transferNet 30) with time := 60 }

/-- The train of scenarios S5 and S6 on arrival at station 1: line 0, direction 0,
10 passengers on board, all bound for station 0. -/
def tenForZero : Train :=
  { trainID := 0, lineID := 0, arrivingStation := 1, direction := 0, capacity := 290,
    lastTime := 0, destination := [10, 0, 0], passengerNum := 10 }

/-- Scenario S6: as `transferNet 30`, but station 0 is an exit of the transfer
station 1, 45 seconds away (`transferTime[1][0] = 45`). -/
def exitNet : Simulation :=
  { transferNet 30 with transferTime := [[-1, -1, -1], [45, 0, 30], [-1, 30, 0]] }

/-! ### Calls and reads -/

/-- Lines 446-447 of `addPassengers`: the denominator `new_len` of the running
mean, the size of the queue that is written plus `num`. -/
def newLen (s : Simulation) (from_ to_ : Nat) (num : Int) : ℚ :=
  (((s.stationAt (routedStation s from_ to_)).queue.get
    (routedDirection s from_ to_) []).length : ℚ) + num

/-- The calls `addPassengers(from, to, OD[from][to])` that the `NEW_OD` branch
issues for the row `from_` of the matrix, in the order of the loop. -/
def newODRow (OD : List (List Int)) (from_ : Nat) : List (Nat × Nat × Int) :=
  (List.range TOTAL_STATIONS).filterMap
    (fun to_ =>
      if (OD.getD from_ []).getD to_ 0 ≠ 0 then some (from_, to_, (OD.getD from_ []).getD to_ 0)
      else none)

/-- The calls of `addPassengers` that the `NEW_OD` branch issues, in order. -/
def newODCalls (OD : List (List Int)) : List (Nat × Nat × Int) :=
  ((List.range TOTAL_STATIONS).map (newODRow OD)).flatten

/-- The divisor of the `%` that `getPolicy` evaluates, if it evaluates one: the
expression `rand() % num` stands in the branch taken when `num` is not 1 and the
scan finds no candidate on the line. -/
def getPolicyModulus (s : Simulation) (from_ to_ : Nat) (lineID : Int) : Option Int :=
  if s.policyNumAt from_ to_ = 1 then none
  else
    match getPolicyScan s from_ to_ lineID (s.policyNumAt from_ to_) with
    | some _ => none
    | none => some (s.policyNumAt from_ to_)

/-- The indices `i` at which `getPolicy` reads `policy[from][to][i]`, in order:
index 0 when `num` is 1; otherwise the indices of the scan, up to the first
candidate on the line, and after a scan without match the index `rand() % num`. -/
def getPolicyReads (s : Simulation) (from_ to_ : Nat) (lineID : Int) : List Nat :=
  if s.policyNumAt from_ to_ = 1 then [0]
  else
    match getPolicyScan s from_ to_ lineID (s.policyNumAt from_ to_) with
    | some i => List.range (i + 1)
    | none =>
      List.range (s.policyNumAt from_ to_).toNat ++
        [(Int.tmod s.rand.1 (s.policyNumAt from_ to_)).toNat]

/-! # Lemmas and theorems -/

/-! ## Outcomes -/

@[simp]
theorem stopsIn_done (a b : Simulation) : StopsIn (Outcome.done a) b ↔ a = b := by
  simp [StopsIn]

@[simp]
theorem stopsIn_badDelete (a b : Simulation) :
    StopsIn (Outcome.badDelete a) b ↔ a = b := by
  simp [StopsIn]

@[simp]
theorem stopsIn_thrown (msg : String) (b : Simulation) :
    ¬ StopsIn (Outcome.thrown msg) b := by
  simp [StopsIn]

@[simp]
theorem stopsIn_diverged (b : Simulation) : ¬ StopsIn Outcome.diverged b := by
  simp [StopsIn]

@[simp]
theorem stopsIn_fault (b : Simulation) : ¬ StopsIn Outcome.fault b := by
  simp [StopsIn]

theorem stopsIn_unique {o : Outcome Simulation} {a b : Simulation} (ha : StopsIn o a)
    (hb : StopsIn o b) : a = b := by
  unfold StopsIn at ha hb
  rcases ha with ha | ha <;> rcases hb with hb | hb <;> rw [ha] at hb <;> simp at hb <;> exact hb

/-! ## Lists -/

theorem perm_cons_set {α : Type} (t : List α) (k : Nat) (hk : k < t.length) (a x : α) :
    (x :: t.set k a).Perm (a :: t.set k x) := by
  induction t generalizing k with
  | nil => simp at hk
  | cons b t ih =>
    cases k with
    | zero => simpa using List.Perm.swap a x t
    | succ k =>
      simp only [List.set_cons_succ]
      have hk' : k < t.length := by simpa using hk
      exact ((List.Perm.swap b x _).trans ((ih k hk').cons b)).trans (List.Perm.swap a b _)

theorem set_getD_self {α : Type} (l : List α) (i : Nat) (d : α) : l.set i (l.getD i d) = l := by
  induction l generalizing i with
  | nil => simp
  | cons a t ih =>
    cases i with
    | zero => simp
    | succ i => simp only [List.getD_cons_succ, List.set_cons_succ, ih]

theorem perm_set_transpose {α : Type} (l : List α) (i j : Nat) (d x : α) (hij : i ≠ j)
    (hi : i < l.length) (hj : j < l.length) :
    ((l.set i (l.getD j d)).set j x).Perm (l.set i x) := by
  induction l generalizing i j with
  | nil => simp at hi
  | cons a t ih =>
    cases i with
    | zero =>
      cases j with
      | zero => exact absurd rfl hij
      | succ j =>
        have hj' : j < t.length := by simpa using hj
        simp only [List.set_cons_zero, List.set_cons_succ, List.getD_cons_succ]
        have := perm_cons_set t j hj' x (t.getD j d)
        rw [set_getD_self] at this
        exact this
    | succ i =>
      cases j with
      | zero =>
        have hi' : i < t.length := by simpa using hi
        simp only [List.set_cons_zero, List.set_cons_succ, List.getD_cons_zero]
        exact (perm_cons_set t i hi' a x)
      | succ j =>
        have hi' : i < t.length := by simpa using hi
        have hj' : j < t.length := by simpa using hj
        simp only [List.set_cons_succ, List.getD_cons_succ]
        exact (ih i j (by omega) hi' hj').cons a

theorem pushHeapLoop_length (fuel : Nat) (v : List Event) (hole top : Nat) (value : Event) :
    (pushHeapLoop fuel v hole top value).length = v.length := by
  induction fuel generalizing v hole with
  | zero => simp [pushHeapLoop]
  | succ fuel ih =>
    unfold pushHeapLoop
    dsimp only
    split
    · rw [ih]; simp
    · simp

theorem pushHeapLoop_perm (fuel : Nat) (v : List Event) (hole top : Nat) (value : Event)
    (hh : hole < v.length) :
    (pushHeapLoop fuel v hole top value).Perm (v.set hole value) := by
  induction fuel generalizing v hole with
  | zero => simp [pushHeapLoop]
  | succ fuel ih =>
    unfold pushHeapLoop
    dsimp only
    split
    · rename_i hc
      have hp : (hole - 1) / 2 < hole := by omega
      refine (ih _ _ (by simp; omega)).trans ?_
      exact perm_set_transpose v hole ((hole - 1) / 2) value value (by omega) hh (by omega)
    · exact List.Perm.refl _

theorem adjustHeapLoop_spec (fuel : Nat) (v : List Event) (hole len : Nat) (value : Event)
    (hlen : len ≤ v.length) (hh : hole < len) :
    ((adjustHeapLoop fuel v hole len value).1.set (adjustHeapLoop fuel v hole len value).2 value).Perm
        (v.set hole value) ∧
      (adjustHeapLoop fuel v hole len value).2 < len ∧
      (adjustHeapLoop fuel v hole len value).1.length = v.length := by
  induction fuel generalizing v hole with
  | zero => simp [adjustHeapLoop, hh]
  | succ fuel ih =>
    unfold adjustHeapLoop
    dsimp only
    split
    · rename_i hc
      split
      · have h := ih (v.set hole (v.getD (2 * (hole + 1) - 1) value)) (2 * (hole + 1) - 1)
          (by simp; omega) (by omega)
        refine ⟨h.1.trans ?_, h.2.1, by rw [h.2.2]; simp⟩
        exact perm_set_transpose v hole _ value value (by omega) (by omega) (by omega)
      · have h := ih (v.set hole (v.getD (2 * (hole + 1)) value)) (2 * (hole + 1))
          (by simp; omega) (by omega)
        refine ⟨h.1.trans ?_, h.2.1, by rw [h.2.2]; simp⟩
        exact perm_set_transpose v hole _ value value (by omega) (by omega) (by omega)
    · exact ⟨List.Perm.refl _, hh, rfl⟩

theorem adjustHeap_perm (v : List Event) (len : Nat) (value : Event)
    (hlen : len ≤ v.length) (hpos : 0 < len) :
    (adjustHeap v len value).Perm (v.set 0 value) := by
  unfold adjustHeap
  have h := adjustHeapLoop_spec len v 0 len value hlen hpos
  generalize adjustHeapLoop len v 0 len value = r at h
  obtain ⟨v1, hole⟩ := r
  have hp : (v1.set hole value).Perm (v.set 0 value) := h.1
  have hlt : hole < len := h.2.1
  have hl : v1.length = v.length := h.2.2
  clear h
  simp only
  split
  · rename_i hc
    refine (pushHeapLoop_perm _ _ _ _ _ (by simp only [List.length_set]; omega)).trans ?_
    exact (perm_set_transpose v1 hole (2 * (hole + 1) - 1) value value (by omega) (by omega)
      (by omega)).trans hp
  · exact (pushHeapLoop_perm _ v1 hole _ _ (by omega)).trans hp

theorem EventQueue.push_perm (v : List Event) (e : Event) :
    (EventQueue.push v e).Perm (e :: v) := by
  unfold EventQueue.push pushHeap
  refine (pushHeapLoop_perm _ _ _ _ _ (by simp)).trans ?_
  have : (v ++ [e]).set v.length e = v ++ [e] := by
    rw [List.set_append_right _ _ (le_refl _)]; simp
  rw [this]
  exact List.perm_append_singleton e v

theorem EventQueue.pop_perm (first : Event) (rest : List Event) :
    (first :: EventQueue.pop (first :: rest)).Perm (first :: rest) := by
  cases rest with
  | nil => simp [EventQueue.pop]
  | cons b t =>
    unfold EventQueue.pop
    have hl : (first :: b :: t).length - 1 = (b :: t).length := by simp
    have hgt : (first :: b :: t).length > 1 := by simp
    simp only [hgt, if_true, hl]
    have htake : (first :: b :: t).take (b :: t).length = first :: (b :: t).take t.length := by
      simp
    rw [htake]
    have hp := adjustHeap_perm (first :: (b :: t).take t.length) (b :: t).length
      ((first :: b :: t).getD (b :: t).length first) (by simp) (by simp)
    refine (hp.cons first).trans ?_
    simp only [List.set_cons_zero, List.getD_cons_succ, List.length_cons]
    refine List.Perm.cons first ?_
    have hd : (b :: t).getD t.length first = (b :: t).getLast (by simp) := by
      rw [List.getLast_eq_getElem, List.getD_eq_getElem _ _ (by simp)]
      simp
    rw [hd]
    have hdrop : (b :: t).take t.length = (b :: t).dropLast := by
      rw [List.dropLast_eq_take]; simp
    rw [hdrop]
    refine (List.perm_append_singleton _ _).symm.trans ?_
    rw [List.dropLast_append_getLast]

/-! ## Heap order of the event queue -/

theorem getD_time_eq_keyAt (v : List Event) (i : Nat) (d : Event) (h : i < v.length) :
    (v.getD i d).time = keyAt v i := by
  unfold keyAt
  rw [List.getD_eq_getElem _ _ h, List.getD_eq_getElem _ _ h]

theorem keyAt_set_self (v : List Event) (i : Nat) (a : Event) (h : i < v.length) :
    keyAt (v.set i a) i = a.time := by
  unfold keyAt
  rw [List.getD_eq_getElem _ _ (by simpa using h)]
  simp

theorem keyAt_set_ne (v : List Event) (i j : Nat) (a : Event) (h : j ≠ i) :
    keyAt (v.set i a) j = keyAt v j := by
  unfold keyAt
  rw [List.getD_eq_getElem?_getD, List.getD_eq_getElem?_getD, List.getElem?_set_ne (Ne.symm h)]

theorem EventCompare_eq_true (a b : Event) : EventCompare a b = true ↔ b.time < a.time := by
  simp [EventCompare]

theorem pushHeapLoop_isHeap (fuel : Nat) (v : List Event) (hole : Nat) (value : Event)
    (hf : hole < fuel) (hh : hole < v.length) (hinv : UpInv v hole value.time) :
    IsHeap (pushHeapLoop fuel v hole 0 value) := by
  induction fuel generalizing v hole with
  | zero => omega
  | succ fuel ih =>
    obtain ⟨ha, hb⟩ := hinv
    unfold pushHeapLoop
    dsimp only
    split
    · rename_i hc
      obtain ⟨h0, hcmp⟩ := hc
      have hp : (hole - 1) / 2 < hole := by omega
      rw [EventCompare_eq_true, getD_time_eq_keyAt _ _ _ (by omega)] at hcmp
      have hkp : (v.getD ((hole - 1) / 2) value).time = keyAt v ((hole - 1) / 2) :=
        getD_time_eq_keyAt _ _ _ (by omega)
      apply ih _ _ (by omega) (by simp; omega)
      refine ⟨?_, ?_⟩
      · intro i hi0 hin hip
        simp only [List.length_set] at hin
        by_cases hih : i = hole
        · subst hih
          rw [if_pos rfl, keyAt_set_self _ _ _ hh, hkp]
          exact le_of_lt hcmp
        · rw [keyAt_set_ne _ _ _ _ hih]
          have A := ha i hi0 hin hih
          by_cases h1 : (i - 1) / 2 = (hole - 1) / 2
          · rw [if_pos h1]
            rw [if_neg (by omega), h1] at A
            linarith
          · rw [if_neg h1]
            by_cases h2 : (i - 1) / 2 = hole
            · rw [h2, keyAt_set_self _ _ _ hh, hkp]
              exact hb i hi0 hin h2 h0
            · rw [keyAt_set_ne _ _ _ _ h2]
              rw [if_neg h2] at A
              exact A
      · intro c hc0 hcn hcp hp0
        simp only [List.length_set] at hcn
        have Ap := ha ((hole - 1) / 2) hp0 (by omega) (by omega)
        rw [if_neg (by omega)] at Ap
        rw [keyAt_set_ne _ _ _ _ (by omega)]
        by_cases hch : c = hole
        · subst hch
          rw [keyAt_set_self _ _ _ hh, hkp]
          exact Ap
        · rw [keyAt_set_ne _ _ _ _ hch]
          have Ac := ha c hc0 hcn hch
          rw [if_neg (by omega), hcp] at Ac
          linarith
    · rename_i hc
      intro i hi0 hin
      simp only [List.length_set] at hin
      by_cases hih : i = hole
      · subst hih
        have hn : ¬ EventCompare (v.getD ((i - 1) / 2) value) value = true := fun h => hc ⟨hi0, h⟩
        rw [EventCompare_eq_true, getD_time_eq_keyAt _ _ _ (by omega)] at hn
        rw [keyAt_set_self _ _ _ hh, keyAt_set_ne _ _ _ _ (by omega)]
        exact not_lt.mp hn
      · have A := ha i hi0 hin hih
        rw [keyAt_set_ne _ _ _ _ hih]
        by_cases h2 : (i - 1) / 2 = hole
        · rw [h2, keyAt_set_self _ _ _ hh]
          rw [if_pos h2] at A
          exact A
        · rw [keyAt_set_ne _ _ _ _ h2]
          rw [if_neg h2] at A
          exact A

theorem downInv_move (w : List Event) (hole c o : Nat) (d : Event)
    (hc : c < w.length) (hcp : (c - 1) / 2 = hole) (hc0 : 0 < c)
    (ho : ∀ i, 0 < i → i < w.length → (i - 1) / 2 = hole → i ≠ c → i = o)
    (hle : o < w.length → keyAt w c ≤ keyAt w o)
    (hinv : DownInv w hole) :
    DownInv (w.set hole (w.getD c d)) c := by
  obtain ⟨ha, hb⟩ := hinv
  have hh : hole < w.length := by omega
  have hkc : (w.getD c d).time = keyAt w c := getD_time_eq_keyAt _ _ _ hc
  refine ⟨?_, ?_⟩
  · intro i hi0 hin hic hipc
    simp only [List.length_set] at hin
    by_cases hih : i = hole
    · subst hih
      rw [keyAt_set_self _ _ _ hh, keyAt_set_ne _ _ _ _ (by omega), hkc]
      exact hb c hc0 hc hcp hi0
    · rw [keyAt_set_ne _ _ _ _ hih]
      by_cases h2 : (i - 1) / 2 = hole
      · rw [h2, keyAt_set_self _ _ _ hh, hkc]
        have := ho i hi0 hin h2 hic
        subst this
        exact hle hin
      · rw [keyAt_set_ne _ _ _ _ h2]
        exact ha i hi0 hin hih h2
  · intro k hk0 hkn hkp _
    simp only [List.length_set] at hkn
    rw [hcp, keyAt_set_self _ _ _ hh, hkc, keyAt_set_ne _ _ _ _ (by omega)]
    have A := ha k hk0 hkn (by omega) (by omega)
    rw [hkp] at A
    exact A

theorem adjustHeapLoop_inv (fuel : Nat) (w : List Event) (hole : Nat) (value : Event)
    (hfuel : w.length ≤ fuel + hole) (hh : hole < w.length) (hinv : DownInv w hole) :
    DownInv (adjustHeapLoop fuel w hole w.length value).1
        (adjustHeapLoop fuel w hole w.length value).2 ∧
      (adjustHeapLoop fuel w hole w.length value).2 < w.length ∧
      (adjustHeapLoop fuel w hole w.length value).1.length = w.length ∧
      ¬ (adjustHeapLoop fuel w hole w.length value).2 < (w.length - 1) / 2 := by
  induction fuel generalizing w hole with
  | zero => omega
  | succ fuel ih =>
    unfold adjustHeapLoop
    dsimp only
    split
    · rename_i hc
      split
      · rename_i hcmp
        rw [EventCompare_eq_true, getD_time_eq_keyAt _ _ _ (by omega),
          getD_time_eq_keyAt _ _ _ (by omega)] at hcmp
        have hmv := downInv_move w hole (2 * (hole + 1) - 1) (2 * (hole + 1)) value
          (by omega) (by omega) (by omega) (by intros; omega) (fun _ => le_of_lt hcmp) hinv
        have h := ih (w.set hole (w.getD (2 * (hole + 1) - 1) value)) (2 * (hole + 1) - 1)
          (by simp; omega) (by simp; omega) hmv
        simp only [List.length_set] at h
        exact h
      · rename_i hcmp
        rw [EventCompare_eq_true, getD_time_eq_keyAt _ _ _ (by omega),
          getD_time_eq_keyAt _ _ _ (by omega)] at hcmp
        have hmv := downInv_move w hole (2 * (hole + 1)) (2 * (hole + 1) - 1) value
          (by omega) (by omega) (by omega) (by intros; omega) (fun _ => not_lt.mp hcmp) hinv
        have h := ih (w.set hole (w.getD (2 * (hole + 1)) value)) (2 * (hole + 1))
          (by simp; omega) (by simp; omega) hmv
        simp only [List.length_set] at h
        exact h
    · rename_i hc
      exact ⟨hinv, hh, rfl, hc⟩

theorem upInv_of_downInv_leaf (w : List Event) (hole : Nat) (x : ℚ)
    (hleaf : w.length ≤ 2 * hole + 1) (hinv : DownInv w hole) : UpInv w hole x := by
  obtain ⟨ha, _⟩ := hinv
  refine ⟨?_, ?_⟩
  · intro i hi0 hin hih
    rw [if_neg (by omega)]
    exact ha i hi0 hin hih (by omega)
  · intro c hc0 hcn hcp _
    omega

theorem adjustHeap_isHeap (w : List Event) (value : Event) (hpos : 0 < w.length)
    (hinv : DownInv w 0) : IsHeap (adjustHeap w w.length value) := by
  unfold adjustHeap
  have h := adjustHeapLoop_inv w.length w 0 value (by omega) hpos hinv
  generalize adjustHeapLoop w.length w 0 w.length value = r at h
  obtain ⟨v1, hole⟩ := r
  have h1 : DownInv v1 hole := h.1
  have h2 : hole < w.length := h.2.1
  have h3 : v1.length = w.length := h.2.2.1
  have h4 : ¬ hole < (w.length - 1) / 2 := h.2.2.2
  clear h
  simp only
  split
  · rename_i hc
    have hmv := downInv_move v1 hole (2 * (hole + 1) - 1) (2 * (hole + 1)) value
      (by omega) (by omega) (by omega) (by intros; omega) (fun h => by omega) h1
    unfold pushHeap
    exact pushHeapLoop_isHeap _ _ _ _ (by omega) (by simp; omega)
      (upInv_of_downInv_leaf _ _ _ (by simp; omega) hmv)
  · rename_i hc
    unfold pushHeap
    exact pushHeapLoop_isHeap _ v1 hole _ (by omega) (by omega)
      (upInv_of_downInv_leaf _ _ _ (by omega) h1)

theorem EventQueue.push_isHeap (v : List Event) (e : Event) (hv : IsHeap v) :
    IsHeap (EventQueue.push v e) := by
  unfold EventQueue.push pushHeap
  apply pushHeapLoop_isHeap _ _ _ _ (by omega) (by simp)
  refine ⟨?_, ?_⟩
  · intro i hi0 hin hih
    simp only [List.length_append, List.length_singleton] at hin
    rw [if_neg (by omega)]
    have := hv i hi0 (by omega)
    unfold keyAt at this ⊢
    rw [List.getD_append _ _ _ _ (by omega), List.getD_append _ _ _ _ (by omega)]
    exact this
  · intro c hc0 hcn hcp _
    simp only [List.length_append, List.length_singleton] at hcn
    omega

theorem EventQueue.pop_isHeap (v : List Event) (hv : IsHeap v) : IsHeap (EventQueue.pop v) := by
  unfold EventQueue.pop
  split
  · intro i _ hin
    simp at hin
  · rename_i first rest
    split
    · rename_i hlen
      have hl : ((first :: rest).take ((first :: rest).length - 1)).length
          = (first :: rest).length - 1 := by
        rw [List.length_take]; omega
      have := adjustHeap_isHeap ((first :: rest).take ((first :: rest).length - 1))
        ((first :: rest).getD ((first :: rest).length - 1) first) (by rw [hl]; omega) ?_
      · rw [hl] at this
        exact this
      · refine ⟨?_, ?_⟩
        · intro i hi0 hin _ _
          rw [hl] at hin
          have := hv i hi0 (by omega)
          unfold keyAt at this ⊢
          rw [List.getD_eq_getElem?_getD, List.getD_eq_getElem?_getD,
            List.getElem?_take_of_lt (by omega), List.getElem?_take_of_lt (by omega)]
          rw [List.getD_eq_getElem?_getD, List.getD_eq_getElem?_getD] at this
          exact this
        · intro c _ _ _ h0
          omega
    · intro i _ hin
      simp at hin

theorem isHeap_nil : IsHeap [] := by
  intro i _ h
  simp at h

theorem isHeap_top_le (v : List Event) (hv : IsHeap v) (i : Nat) (hi : i < v.length) :
    keyAt v 0 ≤ keyAt v i := by
  induction i using Nat.strong_induction_on with
  | _ i ih =>
    rcases Nat.eq_zero_or_pos i with h0 | h0
    · subst h0; exact le_refl _
    · exact le_trans (ih ((i - 1) / 2) (by omega) (by omega)) (hv i h0 hi)

theorem isHeap_head_le (first : Event) (rest : List Event) (hv : IsHeap (first :: rest))
    (x : Event) (hx : x ∈ first :: rest) : first.time ≤ x.time := by
  obtain ⟨i, hi, rfl⟩ := List.getElem_of_mem hx
  have := isHeap_top_le _ hv i hi
  unfold keyAt at this
  rw [List.getD_eq_getElem _ _ hi] at this
  simpa using this

theorem foldl_push_perm (es acc : List Event) :
    (es.foldl EventQueue.push acc).Perm (acc ++ es) := by
  induction es generalizing acc with
  | nil => simp
  | cons e es ih =>
    simp only [List.foldl_cons]
    refine (ih _).trans ?_
    refine ((EventQueue.push_perm acc e).append_right es).trans ?_
    simpa using (@List.perm_middle _ e acc es).symm

theorem foldl_push_isHeap (es acc : List Event) (h : IsHeap acc) :
    IsHeap (es.foldl EventQueue.push acc) := by
  induction es generalizing acc with
  | nil => simpa using h
  | cons e es ih => exact ih _ (EventQueue.push_isHeap acc e h)

theorem EventQueue.pop_length (v : List Event) : (EventQueue.pop v).length = v.length - 1 := by
  cases v with
  | nil => simp [EventQueue.pop]
  | cons first rest =>
    have := (EventQueue.pop_perm first rest).length_eq
    simp only [List.length_cons] at this ⊢
    omega

theorem popAll_perm (n : Nat) (v : List Event) (hn : v.length ≤ n) : (popAll n v).Perm v := by
  induction n generalizing v with
  | zero =>
    have : v = [] := List.length_eq_zero.mp (by omega)
    subst this
    simp [popAll]
  | succ n ih =>
    cases v with
    | nil => simp [popAll, EventQueue.top]
    | cons first rest =>
      simp only [popAll, EventQueue.top, List.head?_cons]
      have hl := EventQueue.pop_length (first :: rest)
      refine ((ih _ (by simp only [List.length_cons] at hn hl; omega)).cons first).trans ?_
      exact EventQueue.pop_perm first rest

theorem popAll_subset (n : Nat) (v : List Event) (x : Event) (hx : x ∈ popAll n v) : x ∈ v := by
  induction n generalizing v with
  | zero => simp [popAll] at hx
  | succ n ih =>
    cases v with
    | nil => simp [popAll, EventQueue.top] at hx
    | cons first rest =>
      simp only [popAll, EventQueue.top, List.head?_cons, List.mem_cons] at hx
      rcases hx with rfl | hx
      · simp
      · exact (EventQueue.pop_perm first rest).subset (List.mem_cons_of_mem _ (ih _ hx))

theorem popAll_sorted (n : Nat) (v : List Event) (hv : IsHeap v) :
    (popAll n v).Pairwise (fun a b => a.time ≤ b.time) := by
  induction n generalizing v with
  | zero => simp [popAll]
  | succ n ih =>
    cases v with
    | nil => simp [popAll, EventQueue.top]
    | cons first rest =>
      simp only [popAll, EventQueue.top, List.head?_cons, List.pairwise_cons]
      refine ⟨?_, ih _ (EventQueue.pop_isHeap _ hv)⟩
      intro x hx
      have hx' := popAll_subset _ _ _ hx
      exact isHeap_head_le first rest hv x
        ((EventQueue.pop_perm first rest).subset (List.mem_cons_of_mem _ hx'))

/-! ## Claims C1, C2, C3: evaluations of the source on scenarios -/

/-- C1, counterexample.  In `transferNet`, ten passengers bound for station 0 are
injected at station 0 (conservation holds there), board the train at t = 0 and
reach the transfer station 1 at t = 60, where routing sends them to station 2.
With a walk of 30 s they leave the train into a pending `TRANSFER` event: after
the event 0 arrived + 0 queued + 0 aboard, against 10 departed.  With a walk of
0 s they are re-enqueued by `addPassengers`, which counts them as departed a
second time: 0 arrived + 10 queued + 0 aboard, against 20 departed. -/
theorem C1_conservation_counterexample :
    balance (addPassengers (reset (transferNet 30)) 0 0 10) = 0 ∧
    ((runEvent 1 (addPassengers (reset (transferNet 30)) 0 0 10)).bind (runEvent 1)).map
        (fun s => (s.num_arrived, passengersQueued s, passengersAboard s, s.num_departed,
          decide (s.num_arrived + passengersQueued s + passengersAboard s = s.num_departed)))
      = Outcome.done (0, 0, 0, 10, false) ∧
    ((runEvent 1 (addPassengers (reset (transferNet 0)) 0 0 10)).bind (runEvent 1)).map
        (fun s => (s.num_arrived, passengersQueued s, passengersAboard s, s.num_departed,
          decide (s.num_arrived + passengersQueued s + passengersAboard s = s.num_departed)))
      = Outcome.done (0, 10, 0, 20, false) := by
  decide!

/-- C2, the source at the failing input (scenario S2).  Fifty passengers are
injected as one cohort at t = 0 and the train arrives at t = 60: the queue then
holds 50 passengers in 1 cohort with average entry time 0 and `totalDelay` is 0,
and processing the arrival raises `totalDelay` to 60 = (60 - 0) * 1, the number
of cohorts, where the claim asks for (60 - 0) * 50 = 3000.  The run goes on to
the terminal arrival at t = 120 and reaches the end of that branch with
`totalDelay` 60 and `totalTravelTime` 3060, not 3000 and 6000. -/
theorem C2_delay_counts_cohorts :
    queuePassengers (((addPassengers (reset (lineAB 300 60 120)) 0 1 50).stationAt 0).queue.get 0 [])
      = 50 ∧
    ((addPassengers (reset (lineAB 300 60 120)) 0 1 50).stationAt 0).getQueueNum 0 = 1 ∧
    ((addPassengers (reset (lineAB 300 60 120)) 0 1 50).stationAt 0).avg_inStationTime.get 0 0 = 0 ∧
    (addPassengers (reset (lineAB 300 60 120)) 0 1 50).totalDelay = 0 ∧
    (runEvent 1 (addPassengers (reset (lineAB 300 60 120)) 0 1 50)).map
        (fun s => (s.time, s.totalDelay, (s.stationAt 0).avg_inStationTime.get 0 0))
      = Outcome.done (60, 60, 60) ∧
    (run 3 (addPassengers (reset (lineAB 300 60 120)) 0 1 50)).atDelete
        (fun s => (s.time, s.totalDelay, s.totalTravelTime))
      = some (120, 60, 3060) := by
  decide!

/-- C3, the source at the failing input.  In `transferNet 30` the train reaches the
transfer station 1 carrying 10 passengers bound for station 0, its histogram
`[10, 0, 0]` summing to `passengerNum = 10`.  Routing returns a transfer, the
event is processed to the end, and the train goes on with `passengerNum = 0` and
the unchanged histogram `[10, 0, 0]`, whose sum is 10. -/
theorem C3_transfer_keeps_histogram :
    (runEvent 1 (addPassengers (reset (transferNet 30)) 0 0 10)).map trainLoads
      = Outcome.done [(10, [10, 0, 0])] ∧
    ((runEvent 1 (addPassengers (reset (transferNet 30)) 0 0 10)).bind (runEvent 1)).map trainLoads
      = Outcome.done [(0, [10, 0, 0])] := by
  decide!

/-! ## Frame lemmas: routing and injection -/

theorem SameStatic.refl (s : Simulation) : SameStatic s s := by
  simp [SameStatic]

theorem SameStatic.trans {a b c : Simulation} (h1 : SameStatic a b) (h2 : SameStatic b c) :
    SameStatic a c := by
  unfold SameStatic at *
  obtain ⟨a1, a2, a3, a4, a5, a6, a7, a8, a9, a10, a11, a12, a13⟩ := h1
  obtain ⟨b1, b2, b3, b4, b5, b6, b7, b8, b9, b10, b11, b12, b13⟩ := h2
  exact ⟨a1.trans b1, a2.trans b2, a3.trans b3, a4.trans b4, a5.trans b5, a6.trans b6,
    a7.trans b7, a8.trans b8, a9.trans b9, a10.trans b10, a11.trans b11, a12.trans b12,
    a13.trans b13⟩

theorem SameStatic.symm {a b : Simulation} (h : SameStatic a b) : SameStatic b a := by
  unfold SameStatic at *
  obtain ⟨a1, a2, a3, a4, a5, a6, a7, a8, a9, a10, a11, a12, a13⟩ := h
  exact ⟨a1.symm, a2.symm, a3.symm, a4.symm, a5.symm, a6.symm, a7.symm, a8.symm, a9.symm,
    a10.symm, a11.symm, a12.symm, a13.symm⟩

theorem map_set_of_eq {α β : Type} (f : α → β) (l : List α) (i : Nat) (x d : α)
    (h : f x = f (l.getD i d)) : (l.set i x).map f = l.map f := by
  induction l generalizing i with
  | nil => simp
  | cons a t ih =>
    cases i with
    | zero =>
      simp only [List.getD_cons_zero] at h
      simp [h]
    | succ i =>
      simp only [List.getD_cons_succ] at h
      simp only [List.set_cons_succ, List.map_cons, ih i h]

theorem map_static_set (s : Simulation) (i : Nat) (st : Station)
    (h : st.static = (s.stationAt i).static) :
    (s.stations.set i st).map Station.static = s.stations.map Station.static :=
  map_set_of_eq Station.static s.stations i st Station.dflt h

theorem getPolicyNext_snd (s : Simulation) (from_ to_ : Nat) (lineID : Int) :
    (getPolicyNext s from_ to_ lineID).2 =
      { s with randCalls := (getPolicyNext s from_ to_ lineID).2.randCalls } := by
  unfold getPolicyNext Simulation.rand
  simp only
  split
  · rfl
  · split <;> rfl

theorem getPolicy_snd (s : Simulation) (from_ to_ : Nat) (lineID : Int) :
    (getPolicy s from_ to_ lineID).2 =
      { s with randCalls := (getPolicy s from_ to_ lineID).2.randCalls } := by
  have h := getPolicyNext_snd s from_ to_ lineID
  unfold getPolicy
  simp only
  split <;> exact h

theorem getPolicy_sameStatic (s : Simulation) (from_ to_ : Nat) (lineID : Int) :
    SameStatic s (getPolicy s from_ to_ lineID).2 := by
  rw [getPolicy_snd]
  simp [SameStatic]

theorem addPassengers_sameStatic (s : Simulation) (from_ to_ : Nat) (num : Int) :
    SameStatic s (addPassengers s from_ to_ num) := by
  refine (getPolicy_sameStatic s from_ to_ (-1)).trans ?_
  unfold addPassengers
  generalize (getPolicy s from_ to_ (-1)).2 = s1
  generalize (getPolicy s from_ to_ (-1)).1 = p
  dsimp only
  split_ifs
  · refine ⟨rfl, rfl, rfl, rfl, rfl, rfl, rfl, rfl, rfl, rfl, ?_, rfl, rfl⟩
    refine (map_set_of_eq Station.static _ _ _ Station.dflt ?_).symm
    rfl
  · refine ⟨rfl, rfl, rfl, rfl, rfl, rfl, rfl, rfl, rfl, rfl, ?_, rfl, rfl⟩
    refine (map_set_of_eq Station.static _ _ _ Station.dflt ?_).symm
    rfl

theorem getPolicy_EventQueue (s : Simulation) (from_ to_ : Nat) (lineID : Int) :
    (getPolicy s from_ to_ lineID).2.EventQueue = s.EventQueue := by
  rw [getPolicy_snd]

theorem addPassengers_EventQueue (s : Simulation) (from_ to_ : Nat) (num : Int) :
    (addPassengers s from_ to_ num).EventQueue = s.EventQueue := by
  unfold addPassengers
  dsimp only
  split_ifs <;> exact getPolicy_EventQueue _ _ _ _

theorem Arr2.get_set_self {α : Type} (a : Arr2 α) (i : Int) (v d : α) (h : i = 0 ∨ i = 1) :
    (a.set i v).get i d = v := by
  rcases h with rfl | rfl <;> simp [Arr2.get, Arr2.set]

theorem Arr2.get_set_ne {α : Type} (a : Arr2 α) (i j : Int) (v d : α) (h : j ≠ i) :
    (a.set i v).get j d = a.get j d := by
  unfold Arr2.get Arr2.set
  by_cases h0 : i = 0
  · subst h0
    simp [h]
  · by_cases h1 : i = 1
    · subst h1
      simp [h]
    · simp [h0, h1]

theorem getD_set_self {α : Type} (l : List α) (i : Nat) (x d : α) (h : i < l.length) :
    (l.set i x).getD i d = x := by
  rw [List.getD_eq_getElem _ _ (by simpa using h)]
  simp

theorem getD_set_ne {α : Type} (l : List α) (i j : Nat) (x d : α) (h : j ≠ i) :
    (l.set i x).getD j d = l.getD j d := by
  rw [List.getD_eq_getElem?_getD, List.getD_eq_getElem?_getD, List.getElem?_set_ne (Ne.symm h)]

theorem getPolicy_stations (s : Simulation) (from_ to_ : Nat) (lineID : Int) :
    (getPolicy s from_ to_ lineID).2.stations = s.stations := by
  rw [getPolicy_snd]

theorem getPolicy_time (s : Simulation) (from_ to_ : Nat) (lineID : Int) :
    (getPolicy s from_ to_ lineID).2.time = s.time := by
  rw [getPolicy_snd]

theorem getPolicy_counters (s : Simulation) (from_ to_ : Nat) (lineID : Int) :
    (getPolicy s from_ to_ lineID).2.totalTravelTime = s.totalTravelTime ∧
    (getPolicy s from_ to_ lineID).2.totalDelay = s.totalDelay ∧
    (getPolicy s from_ to_ lineID).2.num_departed = s.num_departed ∧
    (getPolicy s from_ to_ lineID).2.num_arrived = s.num_arrived ∧
    (getPolicy s from_ to_ lineID).2.transferTime = s.transferTime ∧
    (getPolicy s from_ to_ lineID).2.time_iter = s.time_iter ∧
    (getPolicy s from_ to_ lineID).2.stationID_iter = s.stationID_iter := by
  rw [getPolicy_snd]
  exact ⟨rfl, rfl, rfl, rfl, rfl, rfl, rfl⟩

theorem addPassengers_stations (s : Simulation) (from_ to_ : Nat) (num : Int) :
    (addPassengers s from_ to_ num).stations =
      s.stations.set (routedStation s from_ to_)
        { s.stationAt (routedStation s from_ to_) with
          avg_inStationTime :=
            (s.stationAt (routedStation s from_ to_)).avg_inStationTime.set
              (routedDirection s from_ to_)
              (((((s.stationAt (routedStation s from_ to_)).queue.get
                    (routedDirection s from_ to_) []).length : ℚ) *
                  (s.stationAt (routedStation s from_ to_)).avg_inStationTime.get
                    (routedDirection s from_ to_) 0 + num * s.time) /
                ((((s.stationAt (routedStation s from_ to_)).queue.get
                    (routedDirection s from_ to_) []).length : ℚ) + num)),
          queue :=
            (s.stationAt (routedStation s from_ to_)).queue.set (routedDirection s from_ to_)
              ((s.stationAt (routedStation s from_ to_)).queue.get (routedDirection s from_ to_) []
                ++ [{ numPassengers := num, destination := to_ }]) } := by
  unfold addPassengers routedStation routedDirection Simulation.stationAt
  dsimp only
  split_ifs <;> simp_all [getPolicy_stations, getPolicy_time]

theorem addPassengers_counters (s : Simulation) (from_ to_ : Nat) (num : Int) :
    (addPassengers s from_ to_ num).totalTravelTime =
      s.totalTravelTime +
        (if (getPolicy s from_ to_ (-1)).1.direction = -1 then
          s.transferTimeAt from_ (getPolicy s from_ to_ (-1)).1.transferStation.toNat * num
        else 0) ∧
    (addPassengers s from_ to_ num).totalDelay = s.totalDelay ∧
    (addPassengers s from_ to_ num).num_departed = s.num_departed + num ∧
    (addPassengers s from_ to_ num).num_arrived = s.num_arrived ∧
    (addPassengers s from_ to_ num).time = s.time := by
  obtain ⟨h1, h2, h3, h4, h5, _, _⟩ := getPolicy_counters s from_ to_ (-1)
  have h6 := getPolicy_time s from_ to_ (-1)
  unfold addPassengers Simulation.transferTimeAt
  dsimp only
  split_ifs <;> simp_all

/-! ## Claim C8: the effect of addPassengers -/

theorem addPassengers_queue_self (s : Simulation) (from_ to_ : Nat) (num : Int)
    (hst : routedStation s from_ to_ < s.stations.length)
    (hdir : routedDirection s from_ to_ = 0 ∨ routedDirection s from_ to_ = 1) :
    ((addPassengers s from_ to_ num).stationAt (routedStation s from_ to_)).queue.get
        (routedDirection s from_ to_) [] =
      (s.stationAt (routedStation s from_ to_)).queue.get (routedDirection s from_ to_) []
        ++ [{ numPassengers := num, destination := to_ }] := by
  unfold Simulation.stationAt
  rw [addPassengers_stations, getD_set_self _ _ _ _ hst]
  exact Arr2.get_set_self _ _ _ _ hdir

theorem addPassengers_queue_other (s : Simulation) (from_ to_ : Nat) (num : Int) (i : Nat)
    (d : Int) (h : i ≠ routedStation s from_ to_ ∨ d ≠ routedDirection s from_ to_) :
    ((addPassengers s from_ to_ num).stationAt i).queue.get d [] =
      (s.stationAt i).queue.get d [] := by
  unfold Simulation.stationAt
  rw [addPassengers_stations]
  by_cases hi : i = routedStation s from_ to_
  · subst hi
    have hd : d ≠ routedDirection s from_ to_ := by
      rcases h with h | h
      · exact absurd rfl h
      · exact h
    by_cases hlt : routedStation s from_ to_ < s.stations.length
    · rw [getD_set_self _ _ _ _ hlt]
      exact Arr2.get_set_ne _ _ _ _ _ hd
    · rw [List.set_eq_of_length_le (by omega)]
  · rw [getD_set_ne _ _ _ _ _ hi]

/-- C8.  `addPassengers(origin, destination, count)`: when routing with
`currentLine = -1` yields `SameLine{d}`, one cohort `{destination, count}` is
appended at the back of `stations[origin].queue[d]`, `totalTravelTime` and
`totalDelay` are unchanged and `num_departed` grows by `count`; when it yields
`Transfer{via, dir}`, the cohort is appended at the back of
`stations[via].queue[dir]`, `totalTravelTime` grows by
`transferTime[origin][via] * count`, `totalDelay` is unchanged and
`num_departed` grows by `count`.  In both cases every other queue and the event
queue, which holds every train, are unchanged.  The written queue is assumed to
exist: its station lies in the station array and its direction is 0 or 1. -/
theorem C8_addPassengers_effect (s : Simulation) (origin destination : Nat) (count : Int) :
    (∀ d : Int, (getPolicy s origin destination (-1)).1 = ⟨d, -1, -1⟩ → d ≠ -1 →
      origin < s.stations.length → (d = 0 ∨ d = 1) →
        ((addPassengers s origin destination count).stationAt origin).queue.get d [] =
            (s.stationAt origin).queue.get d [] ++ [⟨count, destination⟩] ∧
        (addPassengers s origin destination count).totalTravelTime = s.totalTravelTime ∧
        (addPassengers s origin destination count).totalDelay = s.totalDelay ∧
        (addPassengers s origin destination count).num_departed = s.num_departed + count ∧
        (∀ (i : Nat) (e : Int), (i ≠ origin ∨ e ≠ d) →
          ((addPassengers s origin destination count).stationAt i).queue.get e [] =
            (s.stationAt i).queue.get e []) ∧
        (addPassengers s origin destination count).EventQueue = s.EventQueue) ∧
    (∀ (via : Nat) (dir : Int), (getPolicy s origin destination (-1)).1 = ⟨-1, via, dir⟩ →
      via < s.stations.length → (dir = 0 ∨ dir = 1) →
        ((addPassengers s origin destination count).stationAt via).queue.get dir [] =
            (s.stationAt via).queue.get dir [] ++ [⟨count, destination⟩] ∧
        (addPassengers s origin destination count).totalTravelTime =
            s.totalTravelTime + s.transferTimeAt origin via * count ∧
        (addPassengers s origin destination count).totalDelay = s.totalDelay ∧
        (addPassengers s origin destination count).num_departed = s.num_departed + count ∧
        (∀ (i : Nat) (e : Int), (i ≠ via ∨ e ≠ dir) →
          ((addPassengers s origin destination count).stationAt i).queue.get e [] =
            (s.stationAt i).queue.get e []) ∧
        (addPassengers s origin destination count).EventQueue = s.EventQueue) := by
  obtain ⟨c1, c2, c3, _, _⟩ := addPassengers_counters s origin destination count
  refine ⟨?_, ?_⟩
  · intro d hp hd hst hdir
    have hrs : routedStation s origin destination = origin := by
      unfold routedStation; rw [hp]; exact if_neg hd
    have hrd : routedDirection s origin destination = d := by
      unfold routedDirection; rw [hp]; exact if_neg hd
    have hq := addPassengers_queue_self s origin destination count (by rw [hrs]; exact hst)
      (by rw [hrd]; exact hdir)
    rw [hrs, hrd] at hq
    refine ⟨hq, ?_, c2, c3, ?_, addPassengers_EventQueue _ _ _ _⟩
    · rw [c1, hp]; simp [hd]
    · intro i e h
      exact addPassengers_queue_other s origin destination count i e (by rw [hrs, hrd]; exact h)
  · intro via dir hp hst hdir
    have hrs : routedStation s origin destination = via := by
      unfold routedStation; rw [hp]; simp
    have hrd : routedDirection s origin destination = dir := by
      unfold routedDirection; rw [hp]; simp
    have hq := addPassengers_queue_self s origin destination count (by rw [hrs]; exact hst)
      (by rw [hrd]; exact hdir)
    rw [hrs, hrd] at hq
    refine ⟨hq, ?_, c2, c3, ?_, addPassengers_EventQueue _ _ _ _⟩
    · rw [c1, hp]; simp
    · intro i e h
      exact addPassengers_queue_other s origin destination count i e (by rw [hrs, hrd]; exact h)

/-- C8, witness: on the two-station line routing from 0 to 1 is `SameLine{0}`, and
in `transferNet 30` routing from 1 to 0 is `Transfer{via = 2, dir = 0}`. -/
theorem C8_addPassengers_effect_witness :
    ((getPolicy (reset (lineAB 300 0 60)) 0 1 (-1)).1 = ⟨0, -1, -1⟩ ∧
      ((addPassengers (reset (lineAB 300 0 60)) 0 1 50).stationAt 0).queue.get 0 [] =
        ((reset (lineAB 300 0 60)).stationAt 0).queue.get 0 [] ++ [⟨50, 1⟩]) ∧
    ((getPolicy (reset (transferNet 30)) 1 0 (-1)).1 = ⟨-1, 2, 0⟩ ∧
      (addPassengers (reset (transferNet 30)) 1 0 7).totalTravelTime =
        (reset (transferNet 30)).totalTravelTime + (reset (transferNet 30)).transferTimeAt 1 2 * (7 : Int)) :=
  ⟨⟨by decide!, ((C8_addPassengers_effect (reset (lineAB 300 0 60)) 0 1 50).1 0 (by decide!)
      (by decide) (by decide!) (by decide)).1⟩,
   ⟨by decide!, ((C8_addPassengers_effect (reset (transferNet 30)) 1 0 7).2 2 0 (by decide!)
      (by decide!) (by decide)).2.1⟩⟩

/-! ## Static data is never written; claim C9 -/

theorem stationAt_static_of_sameStatic {a b : Simulation} (h : SameStatic a b) (i : Nat) :
    (b.stationAt i).static = (a.stationAt i).static := by
  have hm : a.stations.map Station.static = b.stations.map Station.static := h.2.2.2.2.2.2.2.2.2.2.1
  have e : ∀ (l : List Station), (l.getD i Station.dflt).static
      = (l.map Station.static).getD i Station.dflt.static := by
    intro l
    induction l generalizing i with
    | nil => rfl
    | cons x t ih =>
      cases i with
      | zero => rfl
      | succ i => simpa only [List.getD_cons_succ, List.map_cons] using ih i
  unfold Simulation.stationAt
  rw [e, e, hm]

theorem isTerminal_of_sameStatic {a b : Simulation} (h : SameStatic a b) (i : Nat) :
    (b.stationAt i).isTerminal = (a.stationAt i).isTerminal :=
  congrArg (fun x => x.2.2.1) (stationAt_static_of_sameStatic h i)

theorem isTransfer_of_sameStatic {a b : Simulation} (h : SameStatic a b) (i : Nat) :
    (b.stationAt i).isTransfer = (a.stationAt i).isTransfer :=
  congrArg (fun x => x.2.2.2) (stationAt_static_of_sameStatic h i)

theorem alightDirect_sameStatic (s : Simulation) (train : Train) :
    SameStatic s (alightDirect s train).1 := by
  unfold alightDirect
  exact ⟨rfl, rfl, rfl, rfl, rfl, rfl, rfl, rfl, rfl, rfl, rfl, rfl, rfl⟩

theorem transferBody_sameStatic (station : Nat) (lineID : Int) (st : Simulation × Train)
    (dest_station : Nat) : SameStatic st.1 (transferBody station lineID st dest_station).1 := by
  unfold transferBody
  dsimp only
  split_ifs
  · exact ⟨rfl, rfl, rfl, rfl, rfl, rfl, rfl, rfl, rfl, rfl, rfl, rfl, rfl⟩
  · exact (getPolicy_sameStatic _ _ _ _).trans (addPassengers_sameStatic _ _ _ _)
  · exact (getPolicy_sameStatic _ _ _ _).trans
      ⟨rfl, rfl, rfl, rfl, rfl, rfl, rfl, rfl, rfl, rfl, rfl, rfl, rfl⟩
  · exact getPolicy_sameStatic _ _ _ _
  · exact SameStatic.refl _

theorem foldl_sameStatic {β : Type} (f : Simulation × Train → β → Simulation × Train)
    (hf : ∀ st b, SameStatic st.1 (f st b).1) (l : List β) (st : Simulation × Train) :
    SameStatic st.1 (l.foldl f st).1 := by
  induction l generalizing st with
  | nil => exact SameStatic.refl _
  | cons b t ih => exact (hf st b).trans (ih _)

theorem transferLoop_sameStatic (station : Nat) (lineID : Int) (s : Simulation) (train : Train) :
    SameStatic s (transferLoop station lineID s train).1 :=
  foldl_sameStatic _ (transferBody_sameStatic station lineID) _ (s, train)

theorem alightAndTransfer_sameStatic (s : Simulation) (train : Train) :
    SameStatic s (alightAndTransfer s train).1 := by
  unfold alightAndTransfer
  dsimp only
  split_ifs
  · exact (alightDirect_sameStatic s train).trans (transferLoop_sameStatic _ _ _ _)
  · exact alightDirect_sameStatic s train

theorem drainOnArrival_sameStatic (s : Simulation) (station : Nat) (direction : Int) :
    SameStatic s (drainOnArrival s station direction) := by
  unfold drainOnArrival
  refine ⟨rfl, rfl, rfl, rfl, rfl, rfl, rfl, rfl, rfl, rfl, ?_, rfl, rfl⟩
  refine (map_set_of_eq Station.static _ _ _ Station.dflt ?_).symm
  rfl

theorem boardAndDepart_sameStatic (fuel : Nat) (s : Simulation) (nextevent : Event)
    (train : Train) (trainID station : Nat) (direction : Int) (r : Simulation × Train)
    (h : boardAndDepart fuel s nextevent train trainID station direction = Outcome.done r) :
    SameStatic s r.1 := by
  unfold boardAndDepart at h
  dsimp only at h
  split at h
  · exact absurd h (by simp)
  · rename_i b hb
    simp only [Outcome.done.injEq] at h
    subst h
    refine (drainOnArrival_sameStatic s station direction).trans ?_
    unfold getNextArrivalStationID getNextArrivalTime
    refine ⟨rfl, rfl, rfl, rfl, rfl, rfl, rfl, rfl, rfl, rfl, ?_, ?_, ?_⟩
    · refine (map_set_of_eq Station.static _ _ _ Station.dflt ?_).symm
      rfl
    · simp
    · simp

theorem boardAndDepart_ne_badDelete (fuel : Nat) (s : Simulation) (nextevent : Event)
    (train : Train) (trainID station : Nat) (direction : Int) (b : Simulation) :
    boardAndDepart fuel s nextevent train trainID station direction ≠ Outcome.badDelete b := by
  unfold boardAndDepart
  dsimp only
  split <;> simp

theorem processArrival_sameStatic (fuel : Nat) (s : Simulation) (nextevent : Event)
    (s' : Simulation) (h : StopsIn (processArrival fuel s nextevent) s') :
    SameStatic s s' := by
  unfold processArrival at h
  split at h
  · exact absurd h (by simp)
  · rename_i train htrain
    dsimp only at h
    split at h
    · rename_i b hb
      have hs : SameStatic s b.1 := by
        split at hb
        · exact (alightAndTransfer_sameStatic s train).trans
            (boardAndDepart_sameStatic _ _ _ _ _ _ _ _ hb)
        · simp only [Outcome.done.injEq] at hb
          subst hb
          exact alightAndTransfer_sameStatic s train
      split at h
      · unfold terminalCheck at h
        split at h
        · exact absurd h (by simp)
        · simp only [stopsIn_badDelete] at h
          subst h
          exact hs
      · simp only [stopsIn_done] at h
        subst h
        exact hs
    · exact absurd h (by simp)
    · exact absurd h (by simp)
    · exact absurd h (by simp)
    · rename_i b hb
      split at hb
      · exact absurd hb (boardAndDepart_ne_badDelete _ _ _ _ _ _ _ _)
      · exact absurd hb (by simp)

theorem foldl_sameStatic_sim {β : Type} (f : Simulation → β → Simulation)
    (hf : ∀ s b, SameStatic s (f s b)) (l : List β) (s : Simulation) :
    SameStatic s (l.foldl f s) := by
  induction l generalizing s with
  | nil => exact SameStatic.refl _
  | cons b t ih => exact (hf s b).trans (ih _)

theorem processNewOD_sameStatic (s : Simulation) (OD : List (List Int)) :
    SameStatic s (processNewOD s OD) := by
  unfold processNewOD
  refine foldl_sameStatic_sim _ ?_ _ _
  intro s1 from_
  refine foldl_sameStatic_sim _ ?_ _ _
  intro s2 to_
  dsimp only
  split_ifs
  · exact addPassengers_sameStatic _ _ _ _
  · exact SameStatic.refl _

theorem processTransfer_sameStatic (s : Simulation) (OD : List (List Int)) :
    SameStatic s (processTransfer s OD) :=
  addPassengers_sameStatic _ _ _ _

theorem dispatch_sameStatic (fuel : Nat) (s : Simulation) (nextevent : Event)
    (s' : Simulation) (h : StopsIn (dispatch fuel s nextevent) s') : SameStatic s s' := by
  unfold dispatch at h
  split at h
  · exact processArrival_sameStatic _ _ _ _ h
  · simp only [stopsIn_badDelete] at h
    subst h
    exact SameStatic.refl _
  · simp only [stopsIn_badDelete] at h
    subst h
    exact processNewOD_sameStatic _ _
  · simp only [stopsIn_badDelete] at h
    subst h
    exact processTransfer_sameStatic _ _

theorem popEvent_sameStatic (s : Simulation) (e : Event) (s1 : Simulation)
    (h : popEvent s = some (e, s1)) : SameStatic s s1 := by
  unfold popEvent at h
  split at h
  · exact absurd h (by simp)
  · simp only [Option.some.injEq, Prod.mk.injEq] at h
    obtain ⟨_, h⟩ := h
    subst h
    exact ⟨rfl, rfl, rfl, rfl, rfl, rfl, rfl, rfl, rfl, rfl, rfl, rfl, rfl⟩

theorem runEvent_sameStatic (fuel : Nat) (s s' : Simulation)
    (h : StopsIn (runEvent fuel s) s') : SameStatic s s' := by
  unfold runEvent at h
  split at h
  · simp only [stopsIn_done] at h
    subst h
    exact SameStatic.refl _
  · rename_i e s1 hp
    exact (popEvent_sameStatic _ _ _ hp).trans (dispatch_sameStatic _ _ _ _ h)

theorem addEvent_sameStatic (s : Simulation) (e : Event) : SameStatic s (addEvent s e) :=
  ⟨rfl, rfl, rfl, rfl, rfl, rfl, rfl, rfl, rfl, rfl, rfl, rfl, rfl⟩

/-- Whatever every processed event preserves, a call of `run` preserves, up to its
return or to the `delete& nextevent;` at which it stops. -/
theorem run_preserves (P : Simulation → Prop)
    (hstep : ∀ fuel s s', P s → StopsIn (runEvent fuel s) s' → P s')
    (fuel : Nat) (s : Simulation) (s' : Simulation) (hs : P s)
    (h : RunStopsIn (run fuel s) s') : P s' := by
  induction fuel generalizing s with
  | zero => exact absurd h (by simp [run, RunStopsIn])
  | succ fuel ih =>
    unfold run at h
    split at h
    · simp only [RunStopsIn, Outcome.done.injEq, Prod.mk.injEq, or_false, reduceCtorEq] at h
      obtain ⟨_, _, h⟩ := h
      subst h
      exact hs
    · rename_i e s1 hp
      split at h
      · rename_i s2 hd
        have h2 : P s2 := by
          apply hstep (fuel + 1) s s2 hs
          unfold runEvent
          rw [hp]
          exact Or.inl hd
        split_ifs at h
        · simp only [RunStopsIn, Outcome.done.injEq, Prod.mk.injEq, or_false, reduceCtorEq] at h
          obtain ⟨_, _, h⟩ := h
          subst h
          exact h2
        · exact ih _ h2 h
        · simp only [RunStopsIn, Outcome.done.injEq, Prod.mk.injEq, or_false, reduceCtorEq] at h
          obtain ⟨_, _, h⟩ := h
          subst h
          exact h2
      · exact absurd h (by simp [RunStopsIn])
      · exact absurd h (by simp [RunStopsIn])
      · exact absurd h (by simp [RunStopsIn])
      · rename_i s2 hd
        simp only [RunStopsIn, reduceCtorEq, exists_false, false_or,
          Outcome.badDelete.injEq] at h
        subst h
        apply hstep (fuel + 1) s s2 hs
        unfold runEvent
        rw [hp]
        exact Or.inr hd

/-! ## Claims C6 and C7: reset -/

theorem foldl_set_range {α : Type} (g : α → α) (d : α) (l : List α) (k : Nat)
    (hk : k ≤ l.length) :
    (List.range k).foldl (fun l i => l.set i (g (l.getD i d))) l =
      (l.take k).map g ++ l.drop k := by
  induction k with
  | zero => simp
  | succ k ih =>
    rw [List.range_succ, List.foldl_append, ih (by omega)]
    simp only [List.foldl_cons, List.foldl_nil]
    have hlen : ((l.take k).map g).length = k := by simp; omega
    have hget : ((l.take k).map g ++ l.drop k).getD k d = l.getD k d := by
      rw [List.getD_append_right _ _ _ _ (by omega), hlen]
      simp only [Nat.sub_self]
      rw [List.getD_eq_getElem?_getD, List.getD_eq_getElem?_getD, List.getElem?_drop]
      simp
    rw [hget, List.set_append_right _ _ (by omega), hlen, Nat.sub_self]
    have hd : l.drop k = l.getD k d :: l.drop (k + 1) := by
      rw [List.getD_eq_getElem _ _ (by omega)]
      exact List.drop_eq_getElem_cons (by omega)
    rw [hd, List.set_cons_zero, List.take_succ]
    rw [List.getElem?_eq_getElem (by omega), List.getD_eq_getElem _ _ (by omega)]
    simp only [Option.toList_some, List.map_append, List.map_cons, List.map_nil,
      List.append_assoc, List.singleton_append]

theorem foldl_set_zero_range (l : List Nat) (k : Nat) (hk : l.length = k) :
    (List.range k).foldl (fun l i => l.set i 0) l = List.replicate k 0 := by
  have h := foldl_set_range (fun _ => (0 : Nat)) 0 l k (by omega)
  simp only at h
  rw [h, List.take_of_length_le (by omega), List.drop_of_length_le (by omega), List.append_nil,
    List.map_const', hk]

theorem foldl_cleared_range (l : List Station) (k : Nat) (hk : l.length = k) :
    (List.range k).foldl (fun l i => l.set i (Station.cleared (l.getD i Station.dflt))) l =
      l.map Station.cleared := by
  rw [foldl_set_range Station.cleared Station.dflt l k (by omega),
    List.take_of_length_le (by omega), List.drop_of_length_le (by omega), List.append_nil]

theorem map_getD_range {α β : Type} (f : α → β) (d : α) (l : List α) :
    (List.range l.length).map (fun i => f (l.getD i d)) = l.map f := by
  apply List.ext_getElem
  · simp
  · intro i h1 h2
    simp only [List.getElem_map, List.getElem_range]
    rw [List.getD_eq_getElem _ _ (by simpa using h2)]

theorem resetTrain_eq (s : Simulation) (i : Nat) :
    resetTrain s i =
      { s with EventQueue := EventQueue.push s.EventQueue (startEvent (s.startTrainInfo.getD i [])) } :=
  rfl

theorem foldl_resetTrain (L : List Nat) (s : Simulation) :
    L.foldl resetTrain s =
      { s with EventQueue := (List.foldl EventQueue.push s.EventQueue
          (L.map (fun i => startEvent (s.startTrainInfo.getD i [])))) } := by
  induction L generalizing s with
  | nil => rfl
  | cons i L ih => rw [List.foldl_cons, ih, resetTrain_eq]; rfl

theorem foldl_resetStation (L : List Nat) (s : Simulation) :
    L.foldl resetStation s =
      { s with stations :=
          L.foldl (fun l i => l.set i (Station.cleared (l.getD i Station.dflt))) s.stations } := by
  induction L generalizing s with
  | nil => rfl
  | cons i L ih => rw [List.foldl_cons, ih]; rfl

theorem foldl_resetCursors (L : List Nat) (s : Simulation) :
    L.foldl (fun s i => { s with time_iter := s.time_iter.set i 0,
                                 stationID_iter := s.stationID_iter.set i 0 }) s =
      { s with time_iter := L.foldl (fun l i => l.set i 0) s.time_iter,
               stationID_iter := L.foldl (fun l i => l.set i 0) s.stationID_iter } := by
  induction L generalizing s with
  | nil => rfl
  | cons i L ih => rw [List.foldl_cons, ih]; rfl

/-- The state that `reset` produces from loaded data, field by field. -/
theorem reset_eq (s : Simulation) (h : Loaded s) :
    reset s =
      { s with time := 0, totalTravelTime := 0, totalDelay := 0, num_departed := 0,
               num_arrived := 0,
               EventQueue := (s.startTrainInfo.map startEvent).foldl EventQueue.push [],
               time_iter := List.replicate s.totalTrainNum 0,
               stationID_iter := List.replicate s.totalTrainNum 0,
               stations := s.stations.map Station.cleared } := by
  obtain ⟨h1, h2, h3, h4⟩ := h
  unfold reset
  simp only
  rw [foldl_resetCursors, foldl_resetTrain, foldl_resetStation]
  simp only
  rw [foldl_set_zero_range _ _ h2, foldl_set_zero_range _ _ h3, foldl_cleared_range _ _ h4,
    h1, map_getD_range]

theorem loaded_of_sameStatic {a b : Simulation} (h : SameStatic a b) (ha : Loaded a) :
    Loaded b := by
  obtain ⟨_, _, _, _, _, h6, _, _, h9, _, h11, h12, h13⟩ := h
  obtain ⟨a1, a2, a3, a4⟩ := ha
  have hl : a.stations.length = b.stations.length := by
    have := congrArg List.length h11
    simpa using this
  exact ⟨by rw [← h9, ← h6]; exact a1, by rw [← h12, ← h9]; exact a2,
    by rw [← h13, ← h9]; exact a3, by rw [← hl]; exact a4⟩

theorem reset_sameStatic (s : Simulation) (h : Loaded s) : SameStatic s (reset s) := by
  rw [reset_eq s h]
  refine ⟨rfl, rfl, rfl, rfl, rfl, rfl, rfl, rfl, rfl, rfl, ?_, ?_, ?_⟩
  · simp only [List.map_map]
    rfl
  · simp [h.2.1]
  · simp [h.2.2.1]

theorem map_cleared_of_sameStatic {a b : Simulation} (h : SameStatic a b) :
    b.stations.map Station.cleared = a.stations.map Station.cleared := by
  have hm : a.stations.map Station.static = b.stations.map Station.static :=
    h.2.2.2.2.2.2.2.2.2.2.1
  have e : ∀ l : List Station, l.map Station.cleared =
      (l.map Station.static).map (fun x =>
        ({ ID := x.1, lineID := x.2.1, isTerminal := x.2.2.1, isTransfer := x.2.2.2,
           queue := ⟨[], []⟩, avg_inStationTime := ⟨0, 0⟩ } : Station)) := by
    intro l
    rw [List.map_map]
    rfl
  rw [e, e, hm]

theorem reset_eq_of_sameStatic {a b : Simulation} (h : SameStatic a b) (ha : Loaded a) :
    reset b = { reset a with randCalls := b.randCalls } := by
  rw [reset_eq a ha, reset_eq b (loaded_of_sameStatic h ha), map_cleared_of_sameStatic h]
  obtain ⟨h1, h2, h3, h4, h5, h6, h7, h8, h9, h10, _, _, _⟩ := h
  simp only [h1, h2, h3, h4, h5, h6, h7, h8, h9, h10]

theorem reachable_sameStatic (allow : Event → Prop) (s0 s : Simulation) (h0 : Loaded s0)
    (hr : Reachable allow s0 s) : SameStatic s0 s := by
  induction hr with
  | init => exact reset_sameStatic s0 h0
  | addPassengers from_ to_ num _ ih => exact ih.trans (addPassengers_sameStatic _ _ _ _)
  | addEvent e _ _ ih => exact ih.trans (addEvent_sameStatic _ _)
  | runEvent fuel _ hrun ih => exact ih.trans (runEvent_sameStatic _ _ _ hrun)
  | @run s s' fuel _ hrun ih =>
    exact run_preserves (fun x => SameStatic s0 x)
      (fun fuel a b ha hab => ha.trans (runEvent_sameStatic _ _ _ hab)) fuel s s' ih hrun
  | reset _ ih => exact ih.trans (reset_sameStatic _ (loaded_of_sameStatic ih h0))

/-- C6.  After `reset()` on loaded data the clock and the four counters are 0,
every station has both queues empty and both averages 0, every per-train cursor
is 0, and the event queue holds, up to the order inside the heap, exactly the
events `startEvent row` for the rows of `startTrainInfo`: one `ARRIVAL` per row
at `startTime`, carrying a fresh train with the row's `trainID`, `lineID`,
`direction` and `capacity`, `arrivingStation = startingStationID`,
`lastTime = startTime`, `passengerNum = 0` and an all-zero histogram. -/
theorem C6_reset_postcondition (s : Simulation) (h : Loaded s) :
    (reset s).time = 0 ∧ (reset s).totalTravelTime = 0 ∧ (reset s).totalDelay = 0 ∧
    (reset s).num_departed = 0 ∧ (reset s).num_arrived = 0 ∧
    (reset s).stations.length = TOTAL_STATIONS ∧
    (∀ st ∈ (reset s).stations,
      st.queue.d0 = [] ∧ st.queue.d1 = [] ∧
      st.avg_inStationTime.d0 = 0 ∧ st.avg_inStationTime.d1 = 0) ∧
    (reset s).time_iter = List.replicate s.totalTrainNum 0 ∧
    (reset s).stationID_iter = List.replicate s.totalTrainNum 0 ∧
    (reset s).EventQueue.Perm (s.startTrainInfo.map startEvent) := by
  rw [reset_eq s h]
  refine ⟨rfl, rfl, rfl, rfl, rfl, ?_, ?_, rfl, rfl, ?_⟩
  · simpa using h.2.2.2
  · intro st hst
    simp only [List.mem_map] at hst
    obtain ⟨x, _, rfl⟩ := hst
    exact ⟨rfl, rfl, rfl, rfl⟩
  · simpa using foldl_push_perm (s.startTrainInfo.map startEvent) []

/-- C6, witness: the two-station line is loaded data. -/
theorem C6_reset_postcondition_witness :
    Loaded (lineAB 300 0 60) ∧
    (reset (lineAB 300 0 60)).time = 0 ∧
    (reset (lineAB 300 0 60)).EventQueue.Perm ((lineAB 300 0 60).startTrainInfo.map startEvent) :=
  ⟨⟨rfl, rfl, rfl, rfl⟩, (C6_reset_postcondition (lineAB 300 0 60) ⟨rfl, rfl, rfl, rfl⟩).1,
    (C6_reset_postcondition (lineAB 300 0 60) ⟨rfl, rfl, rfl, rfl⟩).2.2.2.2.2.2.2.2.2⟩

/-- C7.  Whatever the caller did since `init` — injections, added events, events
processed by `run`, earlier resets — `reset` yields the state that `reset` yields
right after `init`, the position in the random sequence apart; and resetting
twice is resetting once. -/
theorem C7_reset_idempotent (s0 s : Simulation) (h0 : Loaded s0)
    (hr : Reachable (fun _ => True) s0 s) :
    reset s = { reset (reset s0) with randCalls := s.randCalls } ∧
    reset (reset s) = reset s := by
  have hs : SameStatic s0 s := reachable_sameStatic _ s0 s h0 hr
  have hL : Loaded s := loaded_of_sameStatic hs h0
  have h1 := reset_eq_of_sameStatic hs h0
  have h2 := reset_eq_of_sameStatic (reset_sameStatic s0 h0) h0
  have h3 := reset_eq_of_sameStatic (reset_sameStatic s hL) hL
  refine ⟨?_, ?_⟩
  · rw [h1, h2]
  · rw [h3]

/-- C7, witness: on the two-station line, after an injection, `reset` gives the
state that `reset` gives right after `init`; so it does after a run that
returns, here the run of the line whose train starts at the horizon, t = 7200. -/
theorem C7_reset_idempotent_witness :
    Loaded (lineAB 300 0 60) ∧
    (run 1 (addPassengers (reset (lineAB 300 7200 7260)) 0 1 50)).map
        (fun r => decide (reset r.2 = reset (reset (lineAB 300 7200 7260)))) = Outcome.done true ∧
    reset (addPassengers (reset (lineAB 300 0 60)) 0 1 50) =
      { reset (reset (lineAB 300 0 60)) with
        randCalls := (addPassengers (reset (lineAB 300 0 60)) 0 1 50).randCalls } :=
  ⟨⟨rfl, rfl, rfl, rfl⟩, by decide!,
    (C7_reset_idempotent (lineAB 300 0 60) (addPassengers (reset (lineAB 300 0 60)) 0 1 50)
      ⟨rfl, rfl, rfl, rfl⟩ (Reachable.addPassengers 0 1 50 Reachable.init)).1⟩

/-! ## Claim C5: the order of pops -/

/-- C5, counterexample.  Four events sharing the timestamp 5 are pushed in the
order 1, 2, 3, 4 and popped in the order 1, 3, 2, 4.  So it is in a state of the
simulation: the four events are added with `addEvent` in that order to a reset
state whose only other pending event is the train's `ARRIVAL` at time 60, and
the `top` and `pop` of lines 216-217 return them in the order 1, 2, 4, 3. -/
theorem C5_fifo_counterexample :
    popOrder [transferOf 5 0 1 1, transferOf 5 0 1 2, transferOf 5 0 1 3, transferOf 5 0 1 4] =
      [transferOf 5 0 1 1, transferOf 5 0 1 3, transferOf 5 0 1 2, transferOf 5 0 1 4] ∧
    popOrder [transferOf 5 0 1 1, transferOf 5 0 1 2, transferOf 5 0 1 3, transferOf 5 0 1 4] ≠
      [transferOf 5 0 1 1, transferOf 5 0 1 2, transferOf 5 0 1 3, transferOf 5 0 1 4] ∧
    popAll 4 (addEvent (addEvent (addEvent (addEvent (reset (lineAB 300 60 120))
        (transferOf 5 0 1 1)) (transferOf 5 0 1 2)) (transferOf 5 0 1 3))
        (transferOf 5 0 1 4)).EventQueue =
      [transferOf 5 0 1 1, transferOf 5 0 1 2, transferOf 5 0 1 4, transferOf 5 0 1 3] := by
  decide!

theorem pending_isHeap (v : List Event) (h : Pending v) : IsHeap v := by
  induction h with
  | empty => exact isHeap_nil
  | push e _ ih => exact EventQueue.push_isHeap _ e ih
  | pop _ ih => exact EventQueue.pop_isHeap _ ih

/-- C5, amended.  Whatever events are pushed, successive pops return them in
nondecreasing time, each pushed event exactly once; and however pushes and pops
are interleaved, the event returned by `top` has the least time of all pending
events.  Nothing is said about the order among events of equal time. -/
theorem C5_pop_order_by_time (es : List Event) :
    (popOrder es).Pairwise (fun a b => a.time ≤ b.time) ∧ (popOrder es).Perm es ∧
    (∀ v : List Event, Pending v → ∀ e : Event, EventQueue.top v = some e →
      ∀ x ∈ v, e.time ≤ x.time) := by
  have hp : (pushAll es).Perm es := by simpa [pushAll] using foldl_push_perm es []
  refine ⟨popAll_sorted _ _ (foldl_push_isHeap es [] isHeap_nil),
    (popAll_perm _ _ (by rw [hp.length_eq])).trans hp, ?_⟩
  intro v hv e he x hx
  cases v with
  | nil => simp at hx
  | cons first rest =>
    simp only [EventQueue.top, List.head?_cons, Option.some.injEq] at he
    subst he
    exact isHeap_head_le first rest (pending_isHeap _ hv) x hx

/-- C5, witness of the amended claim on the four events of the counterexample. -/
theorem C5_pop_order_by_time_witness :
    (popOrder [transferOf 5 0 1 1, transferOf 5 0 1 2, transferOf 5 0 1 3,
      transferOf 5 0 1 4]).Pairwise (fun a b => a.time ≤ b.time) :=
  (C5_pop_order_by_time [transferOf 5 0 1 1, transferOf 5 0 1 2, transferOf 5 0 1 3,
    transferOf 5 0 1 4]).1

/-! ## Claim C4: the no-transfer ride -/

theorem lineAB_first_event (C : Int) (T : ℚ) (n : Int) (fuel : Nat) (hn : 0 < n) (hnC : n ≤ C) :
    runEvent (fuel + 1) (addPassengers (reset (lineAB C 0 T)) 0 1 n) =
      Outcome.done
        { lineAB C 0 T with
          num_departed := n,
          EventQueue := [arrivalOf (Train.mk 0 0 1 0 (C - n) 0 [0, n, 0] n) T],
          time_iter := [1], stationID_iter := [1] } := by
  have hq : (n : ℚ) ≠ 0 := by exact_mod_cast (ne_of_gt hn)
  simp [runEvent, popEvent, EventQueue.top, EventQueue.pop, dispatch, processArrival,
    alightAndTransfer, alightDirect, Simulation.stationAt, boardAndDepart, drainOnArrival,
    boardLoop, getNextArrivalTime, getNextArrivalStationID, terminalCheck, EventQueue.push,
    pushHeap, pushHeapLoop, Arr2.get, Arr2.set, addPassengers, getPolicy, getPolicyNext,
    Simulation.policyNumAt, Simulation.policyAt, Simulation.directionsAt,
    Simulation.transferTimeAt, reset, resetTrain, resetStation, lineAB, TOTAL_STATIONS,
    List.range, List.range.loop, Train.new, Event.new, arrivalOf, hnC, hq]

theorem lineAB_second_event (C : Int) (T : ℚ) (n : Int) (fuel : Nat) :
    runEvent fuel
        { lineAB C 0 T with
          num_departed := n,
          EventQueue := [arrivalOf (Train.mk 0 0 1 0 (C - n) 0 [0, n, 0] n) T],
          time_iter := [1], stationID_iter := [1] } =
      Outcome.badDelete
        { lineAB C 0 T with
          time := T, totalTravelTime := n * T,
          num_departed := n, num_arrived := n,
          EventQueue := [],
          time_iter := [1], stationID_iter := [1] } := by
  simp [runEvent, popEvent, EventQueue.top, EventQueue.pop, dispatch, processArrival,
    alightAndTransfer, alightDirect, Simulation.stationAt, terminalCheck,
    Arr2.get, lineAB, arrivalOf]

theorem run_succ_of_runEvent (fuel : Nat) (s s2 : Simulation) (e : Event) (rest : List Event)
    (hq : s.EventQueue = e :: rest) (hty : e.type ≠ EventType.SUSPEND)
    (hr : runEvent (fuel + 1) s = Outcome.done s2) :
    run (fuel + 1) s =
      if s2.time < TOTAL_SIMULATION_TIME then run fuel s2 else Outcome.done (report s2, s2) := by
  unfold runEvent at hr
  rw [run]
  have hp : popEvent s =
      some (e, { s with EventQueue := EventQueue.pop s.EventQueue, time := e.time }) := by
    unfold popEvent EventQueue.top
    rw [hq]
    rfl
  rw [hp] at hr ⊢
  simp only at hr ⊢
  rw [hr]
  simp only [hty, if_false]

theorem run_badDelete_of_runEvent (fuel : Nat) (s s2 : Simulation) (e : Event)
    (rest : List Event) (hq : s.EventQueue = e :: rest)
    (hr : runEvent (fuel + 1) s = Outcome.badDelete s2) :
    run (fuel + 1) s = Outcome.badDelete s2 := by
  unfold runEvent at hr
  rw [run]
  have hp : popEvent s =
      some (e, { s with EventQueue := EventQueue.pop s.EventQueue, time := e.time }) := by
    unfold popEvent EventQueue.top
    rw [hq]
    rfl
  rw [hp] at hr ⊢
  simp only at hr ⊢
  rw [hr]

theorem run_of_empty (fuel : Nat) (s : Simulation) (hq : s.EventQueue = []) :
    run (fuel + 1) s = Outcome.done (report s, s) := by
  rw [run]
  unfold popEvent EventQueue.top
  rw [hq]
  rfl

/-- C4, the source on scenario S1.  On the two-station line with one train of
capacity `C` that starts at A at time 0 and is due at the terminal B at time
`T > 0`, for every `n` with `0 < n ≤ C`: after `reset()` and
`addPassengers(A, B, n)` at time 0, `run` processes the arrival at A and the
arrival at B, and at the end of the terminal branch `num_departed = n`,
`num_arrived = n`, `totalTravelTime = n * T`, `totalDelay = 0` and the event
queue is exhausted, as the claim says.  The branch then executes
`delete& nextevent;` on the local copy of the event: `run` returns no report. -/
theorem C4_ride_ends_at_delete (C : Int) (T : ℚ) (n : Int) (fuel : Nat)
    (_hT : 0 < T) (hn : 0 < n) (hnC : n ≤ C) (hfuel : 2 ≤ fuel) :
    run fuel (addPassengers (reset (lineAB C 0 T)) 0 1 n) =
      Outcome.badDelete
        { lineAB C 0 T with
          time := T, totalTravelTime := n * T,
          num_departed := n, num_arrived := n,
          EventQueue := [],
          time_iter := [1], stationID_iter := [1] } := by
  obtain ⟨k, rfl⟩ : ∃ k, fuel = k + 2 := ⟨fuel - 2, by omega⟩
  have h1 := lineAB_first_event C T n (k + 1) hn hnC
  have hq1 : (addPassengers (reset (lineAB C 0 T)) 0 1 n).EventQueue =
      startEvent [0, 0, 0, 0, C, 0] :: [] := by
    rw [addPassengers_EventQueue]
    rfl
  rw [run_succ_of_runEvent (k + 1) _ _ _ _ hq1 (by simp [startEvent]) h1]
  have ht0 : (0 : ℚ) < TOTAL_SIMULATION_TIME := by norm_num [TOTAL_SIMULATION_TIME]
  have h2 := lineAB_second_event C T n (k + 1)
  rw [if_pos (by simpa [lineAB] using ht0)]
  exact run_badDelete_of_runEvent k _ _ _ _ rfl h2

/-- C4, witness: scenario S1, `n = 50`, `C = 300`, `T = 60`: the run reaches the
end of the terminal branch with `totalTravelTime = 3000` and stops at the
invalid `delete`. -/
theorem C4_ride_ends_at_delete_witness :
    (0 : ℚ) < 60 ∧ (0 : Int) < 50 ∧ (50 : Int) ≤ 300 ∧ 2 ≤ 3 ∧
    run 3 (addPassengers (reset (lineAB 300 0 60)) 0 1 50) =
      Outcome.badDelete
        { lineAB 300 0 60 with
          time := 60, totalTravelTime := ((50 : Int) : ℚ) * 60,
          num_departed := 50, num_arrived := 50,
          EventQueue := [],
          time_iter := [1], stationID_iter := [1] } ∧
    ((50 : Int) : ℚ) * 60 = 3000 :=
  ⟨by norm_num, by decide, by decide, by decide,
    C4_ride_ends_at_delete 300 60 50 3 (by norm_num) (by decide) (by decide) (by decide),
    by norm_num⟩

/-! ## Claim C10: capacity plus passengers is constant -/

theorem EventQueue.mem_push (v : List Event) (e x : Event) :
    x ∈ EventQueue.push v e ↔ x = e ∨ x ∈ v := by
  rw [(EventQueue.push_perm v e).mem_iff]
  simp

theorem EventQueue.mem_of_mem_pop (v : List Event) (x : Event) (h : x ∈ EventQueue.pop v) :
    x ∈ v := by
  cases v with
  | nil => simp [EventQueue.pop] at h
  | cons first rest =>
    exact (EventQueue.pop_perm first rest).subset (List.mem_cons_of_mem _ h)

theorem transferBody_events (station : Nat) (lineID : Int) (st : Simulation × Train)
    (dest_station : Nat) (x : Event)
    (hx : x ∈ (transferBody station lineID st dest_station).1.EventQueue) :
    x ∈ st.1.EventQueue ∨ x.train = none := by
  unfold transferBody at hx
  dsimp only at hx
  split_ifs at hx
  · exact Or.inl hx
  · rw [addPassengers_EventQueue, getPolicy_EventQueue] at hx
    exact Or.inl hx
  · dsimp only at hx
    rw [EventQueue.mem_push, getPolicy_EventQueue] at hx
    rcases hx with rfl | hx
    · exact Or.inr rfl
    · exact Or.inl hx
  · rw [getPolicy_EventQueue] at hx
    exact Or.inl hx
  · exact Or.inl hx

theorem transferLoop_events (station : Nat) (lineID : Int) (s : Simulation) (train : Train)
    (x : Event) (hx : x ∈ (transferLoop station lineID s train).1.EventQueue) :
    x ∈ s.EventQueue ∨ x.train = none := by
  have key : ∀ (l : List Nat) (st : Simulation × Train),
      x ∈ (l.foldl (transferBody station lineID) st).1.EventQueue →
      x ∈ st.1.EventQueue ∨ x.train = none := by
    intro l
    induction l with
    | nil => intro st h; exact Or.inl h
    | cons d l ih =>
      intro st h
      rw [List.foldl_cons] at h
      rcases ih _ h with h1 | h1
      · exact transferBody_events station lineID st d x h1
      · exact Or.inr h1
  exact key _ (s, train) hx

theorem alightAndTransfer_events (s : Simulation) (train : Train) (x : Event)
    (hx : x ∈ (alightAndTransfer s train).1.EventQueue) :
    x ∈ s.EventQueue ∨ x.train = none := by
  unfold alightAndTransfer at hx
  dsimp only at hx
  split_ifs at hx
  · exact transferLoop_events train.arrivingStation train.lineID (alightDirect s train).1
      (alightDirect s train).2 x hx
  · exact Or.inl hx

theorem popEvent_events (s : Simulation) (e : Event) (s1 : Simulation)
    (h : popEvent s = some (e, s1)) :
    e ∈ s.EventQueue ∧ s1.EventQueue = EventQueue.pop s.EventQueue := by
  unfold popEvent at h
  split at h
  · exact absurd h (by simp)
  · rename_i e' he
    simp only [Option.some.injEq, Prod.mk.injEq] at h
    obtain ⟨h1, h2⟩ := h
    subst h1 h2
    refine ⟨?_, rfl⟩
    unfold EventQueue.top at he
    exact List.mem_of_mem_head? he

/-- C9.  An `ARRIVAL` at a station that is terminal in the train's direction throws
"passenger not cleared at terminal!" exactly when `passengerNum` is positive
after direct alighting and transfer handling; otherwise the train is retired
(`delete train;`) and the branch reaches its last statement,
`delete& nextevent;`, in the state left by direct alighting and transfer
handling: no boarding has taken place and no follow-on `ARRIVAL` has been
pushed, every pending event being a former one or an event without train (at a
station that is not a transfer station the queues and the pending events are
those before the event). -/
theorem C9_terminal_check (fuel : Nat) (s : Simulation) (nextevent : Event) (train : Train)
    (htrain : nextevent.train = some train)
    (hterm : (s.stationAt train.arrivingStation).isTerminal.get train.direction false = true) :
    (processArrival fuel s nextevent = Outcome.thrown "passenger not cleared at terminal!" ↔
      (alightAndTransfer s train).2.passengerNum > 0) ∧
    (¬ (alightAndTransfer s train).2.passengerNum > 0 →
      processArrival fuel s nextevent = Outcome.badDelete (alightAndTransfer s train).1) ∧
    (∀ x ∈ (alightAndTransfer s train).1.EventQueue, x ∈ s.EventQueue ∨ x.train = none) ∧
    ((s.stationAt train.arrivingStation).isTransfer = false →
      (alightAndTransfer s train).1.stations = s.stations ∧
      (alightAndTransfer s train).1.EventQueue = s.EventQueue) := by
  have hT : ((alightAndTransfer s train).1.stationAt train.arrivingStation).isTerminal.get
      train.direction false = true := by
    rw [isTerminal_of_sameStatic (alightAndTransfer_sameStatic s train)]
    exact hterm
  have hmain : processArrival fuel s nextevent =
      terminalCheck (alightAndTransfer s train).1 (alightAndTransfer s train).2 := by
    unfold processArrival
    rw [htrain]
    simp only [hT, Bool.true_eq_false, if_false, if_true]
  refine ⟨?_, ?_, fun x hx => alightAndTransfer_events s train x hx, ?_⟩
  · rw [hmain]
    unfold terminalCheck
    split_ifs with h
    · simp [h]
    · simp [h]
  · intro h
    rw [hmain]
    unfold terminalCheck
    rw [if_neg h]
  · intro h
    unfold alightAndTransfer
    dsimp only
    have h2 : ((alightDirect s train).1.stationAt train.arrivingStation).isTransfer = false := by
      rw [isTransfer_of_sameStatic (alightDirect_sameStatic s train)]
      exact h
    rw [h2]
    simp only [Bool.false_eq_true, if_false]
    exact ⟨rfl, rfl⟩

/-- C9, witness: at the terminal B of the two-station line a train whose 5
passengers are bound for B is retired, and a train whose 5 passengers are bound
for station 0 makes the run fail with the error. -/
theorem C9_terminal_check_witness :
    ((arrivalOf (trainAtB [0, 5, 0] 5) 60).train = some (trainAtB [0, 5, 0] 5) ∧
      ((reset (lineAB 300 0 60)).stationAt 1).isTerminal.get 0 false = true ∧
      processArrival 1 (reset (lineAB 300 0 60)) (arrivalOf (trainAtB [0, 5, 0] 5) 60) =
        Outcome.badDelete (alightAndTransfer (reset (lineAB 300 0 60)) (trainAtB [0, 5, 0] 5)).1) ∧
    processArrival 1 (reset (lineAB 300 0 60)) (arrivalOf (trainAtB [5, 0, 0] 5) 60) =
      Outcome.thrown "passenger not cleared at terminal!" :=
  ⟨⟨rfl, by decide,
    (C9_terminal_check 1 (reset (lineAB 300 0 60)) (arrivalOf (trainAtB [0, 5, 0] 5) 60)
      (trainAtB [0, 5, 0] 5) rfl (by decide)).2.1 (by decide!)⟩,
   (C9_terminal_check 1 (reset (lineAB 300 0 60)) (arrivalOf (trainAtB [5, 0, 0] 5) 60)
      (trainAtB [5, 0, 0] 5) rfl (by decide)).1.2 (by decide!)⟩

/-! ## Claim C1: passenger conservation -/

theorem sum_map_set {α : Type} (f : α → Int) (l : List α) (i : Nat) (x d : α)
    (h : i < l.length) :
    ((l.set i x).map f).sum = (l.map f).sum - f (l.getD i d) + f x := by
  induction l generalizing i with
  | nil => simp at h
  | cons a t ih =>
    cases i with
    | zero =>
      simp only [List.set_cons_zero, List.map_cons, List.sum_cons, List.getD_cons_zero]
      omega
    | succ i =>
      simp only [List.set_cons_succ, List.map_cons, List.sum_cons, List.getD_cons_succ]
      rw [ih i (by simpa using h)]
      omega

theorem passengersQueued_set (s : Simulation) (i : Nat) (st : Station) (stations : List Station)
    (hs : stations = s.stations.set i st)
    (h : i < s.stations.length ∨ stationPassengers st = 0) :
    (stations.map stationPassengers).sum =
      passengersQueued s - stationPassengers (s.stationAt i) + stationPassengers st := by
  subst hs
  unfold passengersQueued Simulation.stationAt
  by_cases hi : i < s.stations.length
  · exact sum_map_set stationPassengers s.stations i st Station.dflt hi
  · rcases h with h | h
    · exact absurd h hi
    · rw [List.set_eq_of_length_le (by omega), List.getD_eq_default _ _ (by omega), h]
      have : stationPassengers Station.dflt = 0 := rfl
      omega

theorem stationPassengers_queue_set (st : Station) (dir : Int) (q : Q)
    (h : (dir = 0 ∨ dir = 1) ∨ q = []) (avg : Arr2 ℚ) :
    stationPassengers { st with queue := st.queue.set dir q, avg_inStationTime := avg } =
      stationPassengers st - queuePassengers (st.queue.get dir []) + queuePassengers q := by
  unfold stationPassengers Arr2.set Arr2.get
  by_cases h0 : dir = 0
  · subst h0
    simp only [if_true]
    omega
  · by_cases h1 : dir = 1
    · subst h1
      simp only [if_neg h0, if_true]
      omega
    · rcases h with (h | h) | h
      · exact absurd h h0
      · exact absurd h h1
      · subst h
        simp only [if_neg h0, if_neg h1, queuePassengers, List.map_nil, List.sum_nil]
        omega

theorem queuePassengers_append (q : Q) (p : WaitingPassengers) :
    queuePassengers (q ++ [p]) = queuePassengers q + p.numPassengers := by
  simp [queuePassengers]

theorem addPassengers_balance_raw (s : Simulation) (from_ to_ : Nat) (num : Int)
    (hst : routedStation s from_ to_ < s.stations.length)
    (hdir : routedDirection s from_ to_ = 0 ∨ routedDirection s from_ to_ = 1) :
    balance (addPassengers s from_ to_ num) = balance s := by
  obtain ⟨_, _, c3, c4, _⟩ := addPassengers_counters s from_ to_ num
  unfold balance passengersAboard
  rw [c3, c4, addPassengers_EventQueue]
  have hq : passengersQueued (addPassengers s from_ to_ num) = passengersQueued s + num := by
    show ((addPassengers s from_ to_ num).stations.map stationPassengers).sum = _
    rw [passengersQueued_set s _ _ _ (addPassengers_stations s from_ to_ num) (Or.inl hst)]
    rw [stationPassengers_queue_set _ _ _ (Or.inl hdir), queuePassengers_append]
    dsimp only
    omega
  rw [hq]
  omega

theorem getPolicyNext_congr (a b : Simulation) (from_ to_ : Nat) (lineID : Int)
    (h1 : a.policy_num = b.policy_num) (h2 : a.policy = b.policy)
    (h4 : a.lineIDOfStation = b.lineIDOfStation)
    (h5 : a.randSeq = b.randSeq) (h6 : a.randCalls = b.randCalls) :
    (getPolicyNext a from_ to_ lineID).1 = (getPolicyNext b from_ to_ lineID).1 := by
  unfold getPolicyNext getPolicyScan Simulation.rand Simulation.policyNumAt Simulation.policyAt
  simp only [h1, h2, h4, h5, h6]
  split_ifs
  · rfl
  · split <;> rfl

theorem getPolicy_congr (a b : Simulation) (from_ to_ : Nat) (lineID : Int)
    (h1 : a.policy_num = b.policy_num) (h2 : a.policy = b.policy)
    (h3 : a.directions = b.directions) (h4 : a.lineIDOfStation = b.lineIDOfStation)
    (h5 : a.randSeq = b.randSeq) (h6 : a.randCalls = b.randCalls) :
    (getPolicy a from_ to_ lineID).1 = (getPolicy b from_ to_ lineID).1 := by
  have e := getPolicyNext_congr a b from_ to_ lineID h1 h2 h4 h5 h6
  unfold getPolicy Simulation.directionsAt
  simp only [e, h3]
  split_ifs <;> rfl

theorem routed_of_sameStatic {s0 s : Simulation} (h : SameStatic s0 s) (from_ to_ : Nat) :
    routedStation s from_ to_ = routedStation { s0 with randCalls := s.randCalls } from_ to_ ∧
    routedDirection s from_ to_ =
      routedDirection { s0 with randCalls := s.randCalls } from_ to_ := by
  obtain ⟨h1, h2, h3, _, h5, _, _, _, _, h10, _, _, _⟩ := h
  have e := getPolicy_congr s { s0 with randCalls := s.randCalls } from_ to_ (-1)
    h1.symm h2.symm h3.symm h5.symm h10.symm rfl
  unfold routedStation routedDirection
  rw [e]
  exact ⟨rfl, rfl⟩

theorem length_of_sameStatic {s0 s : Simulation} (h : SameStatic s0 s) :
    s.stations.length = s0.stations.length := by
  have := congrArg List.length h.2.2.2.2.2.2.2.2.2.2.1
  simpa using this.symm

theorem addPassengers_balance {s0 s : Simulation} (h : SameStatic s0 s) (from_ to_ : Nat)
    (num : Int) (hv : RouteValid s0 from_ to_) :
    balance (addPassengers s from_ to_ num) = balance s := by
  obtain ⟨e1, e2⟩ := routed_of_sameStatic h from_ to_
  obtain ⟨v1, v2⟩ := hv s.randCalls
  apply addPassengers_balance_raw
  · rw [e1, length_of_sameStatic h]; exact v1
  · rw [e2]; exact v2

theorem aboard_push (v : List Event) (e : Event) :
    ((EventQueue.push v e).map eventPassengers).sum =
      eventPassengers e + (v.map eventPassengers).sum := by
  rw [((EventQueue.push_perm v e).map eventPassengers).sum_eq]
  simp

theorem aboard_pop (first : Event) (rest : List Event) :
    ((first :: rest).map eventPassengers).sum =
      eventPassengers first + ((EventQueue.pop (first :: rest)).map eventPassengers).sum := by
  rw [← ((EventQueue.pop_perm first rest).map eventPassengers).sum_eq]
  simp

theorem boardLoop_nil (fuel : Nat) (train : Train) : boardLoop fuel train [] = some (train, []) := by
  cases fuel <;> rfl

theorem boardLoop_passengers (fuel : Nat) (train : Train) (q : Q) (r : Train × Q)
    (h : boardLoop fuel train q = some r) :
    r.1.passengerNum + queuePassengers r.2 = train.passengerNum + queuePassengers q := by
  induction fuel generalizing train q with
  | zero =>
    cases q with
    | nil =>
      simp only [boardLoop, Option.some.injEq] at h
      subst h
      rfl
    | cons p rest => simp [boardLoop] at h
  | succ fuel ih =>
    cases q with
    | nil =>
      simp only [boardLoop, Option.some.injEq] at h
      subst h
      rfl
    | cons p rest =>
      simp only [boardLoop] at h
      split_ifs at h
      · rw [ih _ _ h]
        simp only [queuePassengers, List.map_cons, List.sum_cons]
        omega
      · rw [ih _ _ h]
        simp only [queuePassengers, List.map_cons, List.sum_cons]
        omega

theorem stationAt_of_length_le (s : Simulation) (i : Nat) (h : s.stations.length ≤ i) :
    s.stationAt i = Station.dflt := by
  unfold Simulation.stationAt
  exact List.getD_eq_default _ _ h

theorem passengersQueued_drain (s : Simulation) (station : Nat) (direction : Int) :
    passengersQueued (drainOnArrival s station direction) = passengersQueued s := by
  have hsame : stationPassengers
      { s.stationAt station with
        avg_inStationTime := (s.stationAt station).avg_inStationTime.set direction s.time } =
      stationPassengers (s.stationAt station) := rfl
  have h := passengersQueued_set s station
    { s.stationAt station with
      avg_inStationTime := (s.stationAt station).avg_inStationTime.set direction s.time }
    (drainOnArrival s station direction).stations rfl ?_
  · rw [show passengersQueued (drainOnArrival s station direction) =
        ((drainOnArrival s station direction).stations.map stationPassengers).sum from rfl, h,
      hsame]
    omega
  · by_cases hi : station < s.stations.length
    · exact Or.inl hi
    · right
      rw [hsame, stationAt_of_length_le s station (by omega)]
      rfl

theorem drainOnArrival_frame (s : Simulation) (station : Nat) (direction : Int) :
    (drainOnArrival s station direction).num_arrived = s.num_arrived ∧
    (drainOnArrival s station direction).num_departed = s.num_departed ∧
    (drainOnArrival s station direction).EventQueue = s.EventQueue ∧
    ((drainOnArrival s station direction).stationAt station).queue.get direction [] =
      (s.stationAt station).queue.get direction [] := by
  refine ⟨rfl, rfl, rfl, ?_⟩
  unfold drainOnArrival Simulation.stationAt
  dsimp only
  by_cases hi : station < s.stations.length
  · rw [getD_set_self _ _ _ _ hi]
  · rw [List.set_eq_of_length_le (by omega)]

theorem queue_get_dflt (dir : Int) : Station.dflt.queue.get dir [] = [] := by
  unfold Arr2.get Station.dflt
  split_ifs <;> rfl

theorem queued_after_board (s : Simulation) (station : Nat) (dir : Int) (q : Q)
    (h : (station < s.stations.length ∧ (dir = 0 ∨ dir = 1)) ∨
      (q = [] ∧ (s.stationAt station).queue.get dir [] = [])) :
    ((s.stations.set station
        { s.stationAt station with queue := (s.stationAt station).queue.set dir q }).map
          stationPassengers).sum =
      passengersQueued s - queuePassengers ((s.stationAt station).queue.get dir []) +
        queuePassengers q := by
  have hsp := stationPassengers_queue_set (s.stationAt station) dir q
    (by rcases h with h | h
        · exact Or.inl h.2
        · exact Or.inr h.1) (s.stationAt station).avg_inStationTime
  have hset := passengersQueued_set s station
    { s.stationAt station with queue := (s.stationAt station).queue.set dir q } _ rfl
    (by
      rcases h with h | h
      · exact Or.inl h.1
      · by_cases hi : station < s.stations.length
        · exact Or.inl hi
        · right
          have e : stationPassengers
              { s.stationAt station with queue := (s.stationAt station).queue.set dir q } =
              stationPassengers (s.stationAt station) -
                queuePassengers ((s.stationAt station).queue.get dir []) + queuePassengers q :=
            hsp
          rw [e, h.2, h.1, stationAt_of_length_le s station (by omega)]
          rfl)
  rw [hset]
  have e : stationPassengers
      { s.stationAt station with queue := (s.stationAt station).queue.set dir q } =
      stationPassengers (s.stationAt station) -
        queuePassengers ((s.stationAt station).queue.get dir []) + queuePassengers q := hsp
  rw [e]
  omega

theorem queue_get_of_invalid (s : Simulation) (station : Nat) (dir : Int)
    (h : ¬ (station < s.stations.length ∧ (dir = 0 ∨ dir = 1))) :
    (s.stationAt station).queue.get dir [] = [] := by
  by_cases hi : station < s.stations.length
  · have hd : ¬ (dir = 0 ∨ dir = 1) := fun hd => h ⟨hi, hd⟩
    unfold Arr2.get
    rw [if_neg (fun h0 => hd (Or.inl h0)), if_neg (fun h1 => hd (Or.inr h1))]
  · rw [stationAt_of_length_le s station (by omega)]
    exact queue_get_dflt dir

theorem boardAndDepart_balance (fuel : Nat) (s : Simulation) (nextevent : Event) (train : Train)
    (trainID station : Nat) (direction : Int) (r : Simulation × Train)
    (hty : nextevent.type = EventType.ARRIVAL)
    (h : boardAndDepart fuel s nextevent train trainID station direction = Outcome.done r) :
    balance r.1 = balance s + train.passengerNum := by
  obtain ⟨d1, d2, d3, d4⟩ := drainOnArrival_frame s station direction
  have d5 := passengersQueued_drain s station direction
  have dlen : (drainOnArrival s station direction).stations.length = s.stations.length := by
    unfold drainOnArrival
    simp
  unfold boardAndDepart at h
  dsimp only at h
  split at h
  · exact absurd h (by simp)
  · rename_i b hb
    have hpass := boardLoop_passengers _ _ _ _ hb
    have hvalid : (station < (drainOnArrival s station direction).stations.length ∧
        (direction = 0 ∨ direction = 1)) ∨
        (b.2 = [] ∧ ((drainOnArrival s station direction).stationAt station).queue.get
          direction [] = []) := by
      by_cases hv : station < (drainOnArrival s station direction).stations.length ∧
          (direction = 0 ∨ direction = 1)
      · exact Or.inl hv
      · right
        have hnil := queue_get_of_invalid _ station direction hv
        rw [hnil, boardLoop_nil] at hb
        simp only [Option.some.injEq] at hb
        subst hb
        exact ⟨rfl, hnil⟩
    have hq := queued_after_board (drainOnArrival s station direction) station direction b.2 hvalid
    simp only [Outcome.done.injEq] at h
    subst h
    unfold balance passengersAboard
    dsimp only [getNextArrivalStationID, getNextArrivalTime]
    rw [aboard_push, d1, d2, d3]
    have hev : eventPassengers
        { nextevent with
          time := ((drainOnArrival s station direction).arrivalTime.getD trainID []).getD
            ((drainOnArrival s station direction).time_iter.getD trainID 0) 0,
          train := some
            { b.1 with
              arrivingStation :=
                ((drainOnArrival s station direction).arrivalStationID.getD trainID []).getD
                  ((drainOnArrival s station direction).stationID_iter.getD trainID 0) 0 } } =
        b.1.passengerNum := by
      unfold eventPassengers
      simp only [hty]
    rw [hev]
    unfold passengersQueued at hq d5 ⊢
    dsimp only
    rw [hq, d5]
    omega

theorem foldl_invariant_mem {β : Type} (I : Simulation → Prop)
    (f : Simulation → β → Simulation) (l : List β)
    (hf : ∀ s b, b ∈ l → I s → I (f s b)) (s : Simulation) (hs : I s) :
    I (l.foldl f s) := by
  induction l generalizing s with
  | nil => exact hs
  | cons b t ih =>
    exact ih (fun s c hc => hf s c (List.mem_cons_of_mem _ hc)) _
      (hf s b (List.mem_cons_self _ _) hs)

theorem stationOK_dflt : StationOK Station.dflt := by
  refine ⟨?_, ?_⟩ <;> intro p hp <;> simp [Station.dflt] at hp

theorem stationAt_ok (s : Simulation) (h : ∀ st ∈ s.stations, StationOK st) (i : Nat) :
    StationOK (s.stationAt i) := by
  unfold Simulation.stationAt
  by_cases hi : i < s.stations.length
  · rw [List.getD_eq_getElem _ _ hi]
    exact h _ (List.getElem_mem hi)
  · rw [List.getD_eq_default _ _ (by omega)]
    exact stationOK_dflt

theorem stationsOK_set (l : List Station) (i : Nat) (st : Station)
    (h : ∀ x ∈ l, StationOK x) (hst : StationOK st) : ∀ x ∈ l.set i st, StationOK x := by
  intro x hx
  rcases List.mem_or_eq_of_mem_set hx with h1 | h1
  · exact h x h1
  · rw [h1]; exact hst

theorem queue_get_ok (st : Station) (dir : Int) (h : StationOK st) :
    ∀ p ∈ st.queue.get dir [], CohortOK p := by
  unfold Arr2.get
  split_ifs
  · exact h.1
  · exact h.2
  · intro p hp; simp at hp

theorem stationOK_queue_set (st : Station) (dir : Int) (q : Q) (avg : Arr2 ℚ)
    (h : StationOK st) (hq : ∀ p ∈ q, CohortOK p) :
    StationOK { st with queue := st.queue.set dir q, avg_inStationTime := avg } := by
  unfold StationOK Arr2.set
  dsimp only
  split_ifs
  · exact ⟨hq, h.2⟩
  · exact ⟨h.1, hq⟩
  · exact h

theorem addPassengers_stateOK (s : Simulation) (from_ to_ : Nat) (num : Int) (hs : StateOK s)
    (hnum : 0 ≤ num) (hto : to_ < TOTAL_STATIONS) : StateOK (addPassengers s from_ to_ num) := by
  refine ⟨?_, ?_⟩
  · rw [addPassengers_stations]
    apply stationsOK_set _ _ _ hs.1
    apply stationOK_queue_set _ _ _ _ (stationAt_ok s hs.1 _)
    intro p hp
    rw [List.mem_append] at hp
    rcases hp with hp | hp
    · exact queue_get_ok _ _ (stationAt_ok s hs.1 _) p hp
    · rw [List.mem_singleton] at hp
      rw [hp]
      exact ⟨hnum, hto⟩
  · rw [addPassengers_EventQueue]
    exact hs.2

theorem sum_set (l : List Int) (i : Nat) (x : Int) :
    (l.set i x).sum = l.sum - l.getD i 0 + (if i < l.length then x else 0) := by
  induction l generalizing i with
  | nil => simp
  | cons a t ih =>
    cases i with
    | zero =>
      simp only [List.set_cons_zero, List.sum_cons, List.getD_cons_zero, List.length_cons,
        Nat.zero_lt_succ, if_true]
      omega
    | succ i =>
      simp only [List.set_cons_succ, List.sum_cons, List.getD_cons_succ, List.length_cons,
        Nat.succ_lt_succ_iff]
      rw [ih i]
      omega

theorem nonneg_set (l : List Int) (i : Nat) (x : Int) (h : ∀ y ∈ l, 0 ≤ y) (hx : 0 ≤ x) :
    ∀ y ∈ l.set i x, 0 ≤ y := by
  intro y hy
  rcases List.mem_or_eq_of_mem_set hy with h1 | h1
  · exact h y h1
  · rw [h1]; exact hx

theorem getD_nonneg (l : List Int) (i : Nat) (h : ∀ y ∈ l, 0 ≤ y) : 0 ≤ l.getD i 0 := by
  by_cases hi : i < l.length
  · rw [List.getD_eq_getElem _ _ hi]
    exact h _ (List.getElem_mem hi)
  · rw [List.getD_eq_default _ _ (by omega)]

theorem alightDirect_trainOK (s : Simulation) (train : Train) (h : TrainOK train) :
    TrainOK (alightDirect s train).2 := by
  obtain ⟨⟨h1, h2⟩, h3⟩ := h
  unfold alightDirect
  refine ⟨⟨nonneg_set _ _ _ h1 (le_refl 0), ?_⟩, ?_⟩
  · dsimp only
    rw [sum_set, h2]
    split_ifs <;> omega
  · dsimp only
    rw [List.length_set]
    exact h3

/-- Once the train is full, a cohort that is still waiting keeps the boarding
loop turning for ever. -/
theorem boardLoop_stuck (fuel : Nat) (train : Train) (p : WaitingPassengers) (rest : Q)
    (hc : train.capacity = 0) (hp : 0 < p.numPassengers) :
    boardLoop fuel train (p :: rest) = none := by
  induction fuel generalizing train p with
  | zero => rfl
  | succ fuel ih =>
    rw [boardLoop, if_neg (by omega)]
    exact ih _ _ rfl (by dsimp only; omega)

theorem boardLoop_ok (fuel : Nat) (train : Train) (q : Q) (r : Train × Q)
    (ht : TrainOK train) (hq : ∀ p ∈ q, CohortOK p) (h : boardLoop fuel train q = some r) :
    TrainOK r.1 ∧ ∀ p ∈ r.2, CohortOK p := by
  induction fuel generalizing train q with
  | zero =>
    cases q with
    | nil =>
      simp only [boardLoop, Option.some.injEq] at h
      subst h
      exact ⟨ht, hq⟩
    | cons p rest => simp [boardLoop] at h
  | succ fuel ih =>
    cases q with
    | nil =>
      simp only [boardLoop, Option.some.injEq] at h
      subst h
      exact ⟨ht, hq⟩
    | cons p rest =>
      have hp : CohortOK p := hq p (List.mem_cons_self _ _)
      have hrest : ∀ x ∈ rest, CohortOK x := fun x hx => hq x (List.mem_cons_of_mem _ hx)
      rw [boardLoop] at h
      split_ifs at h with hle
      · refine ih _ _ ?_ hrest h
        obtain ⟨⟨h1, h2⟩, h3⟩ := ht
        refine ⟨⟨nonneg_set _ _ _ h1 ?_, ?_⟩, ?_⟩
        · have := getD_nonneg train.destination p.destination h1
          have := hp.1
          omega
        · dsimp only
          rw [sum_set, h2, if_pos (by rw [h3]; exact hp.2)]
          omega
        · dsimp only
          rw [List.length_set]
          exact h3
      · rw [boardLoop_stuck fuel _ _ rest rfl (by dsimp only; omega)] at h
        exact absurd h (by simp)

theorem getD_set_zero (l : List Int) (i : Nat) : (l.set i 0).getD i 0 = 0 := by
  by_cases h : i < l.length
  · exact getD_set_self l i 0 0 h
  · rw [List.getD_eq_default _ _ (by rw [List.length_set]; omega)]

theorem trainOK_clear (train : Train) (i : Nat) (cap : Int) (h : TrainOK train) :
    TrainOK { train with passengerNum := train.passengerNum - train.destination.getD i 0,
                         capacity := cap,
                         destination := train.destination.set i 0 } := by
  obtain ⟨⟨h1, h2⟩, h3⟩ := h
  refine ⟨⟨nonneg_set _ _ _ h1 (le_refl 0), ?_⟩, ?_⟩
  · dsimp only
    rw [sum_set, h2]
    split_ifs <;> omega
  · dsimp only
    rw [List.length_set]
    exact h3

theorem transferBody_keep {s0 : Simulation} (s : Simulation) (c : Int) (T : List Int)
    (station : Nat) (lineID : Int) (st : Simulation × Train) (dest : Nat)
    (hs : SameStatic s0 st.1) (hk : Keeps s c T st)
    (hN : 0 < T.getD dest 0 → 0 ≤ s0.transferTimeAt station dest ∨
      ∀ calls, (getPolicy { s0 with randCalls := calls } station dest lineID).1.direction ≠ -1) :
    Keeps s c T (transferBody station lineID st dest) := by
  obtain ⟨k1, k2, k3, k4, k5, k6⟩ := hk
  have e := getPolicy_snd st.1 station dest lineID
  unfold transferBody
  dsimp only
  by_cases h1 : st.2.destination.getD dest 0 > 0
  · rw [if_pos h1]
    by_cases h2 : st.1.transferTimeAt station dest ≥ 0
    · rw [if_pos h2]
      refine ⟨k1, k2, k3, ?_, trainOK_clear _ _ _ k5, ?_⟩
      · dsimp only
        omega
      · intro d
        dsimp only
        by_cases hd : d = dest
        · right
          rw [hd]
          exact getD_set_zero _ _
        · rw [getD_set_ne _ _ _ _ _ hd]
          exact k6 d
    · rw [if_neg h2]
      have hT : 0 < T.getD dest 0 := by
        rcases k6 dest with h | h
        · rw [← h]; exact h1
        · omega
      have hdir : (getPolicy st.1 station dest lineID).1.direction ≠ -1 := by
        rcases hN hT with h | h
        · exfalso
          apply h2
          unfold Simulation.transferTimeAt at h ⊢
          rw [← hs.2.2.2.1]
          exact h
        · obtain ⟨a1, a2, a3, _, a5, _, _, _, _, a10, _, _, _⟩ := hs
          rw [getPolicy_congr st.1 { s0 with randCalls := st.1.randCalls } station dest lineID
            a1.symm a2.symm a3.symm a5.symm a10.symm rfl]
          exact h _
      rw [if_neg hdir]
      refine ⟨?_, ?_, ?_, ?_, k5, k6⟩
      · rw [e]; exact k1
      · rw [e]; exact k2
      · rw [e]; exact k3
      · rw [e]; exact k4
  · rw [if_neg h1]
    exact ⟨k1, k2, k3, k4, k5, k6⟩

theorem transferLoop_keep {s0 : Simulation} (s : Simulation) (c : Int) (T : List Int)
    (station : Nat) (lineID : Int)
    (hN : ∀ dest, dest < TOTAL_STATIONS → 0 < T.getD dest 0 →
      0 ≤ s0.transferTimeAt station dest ∨
      ∀ calls, (getPolicy { s0 with randCalls := calls } station dest lineID).1.direction ≠ -1)
    (a : Simulation) (train : Train) (hs : SameStatic s0 a) (hk : Keeps s c T (a, train)) :
    Keeps s c T (transferLoop station lineID a train) := by
  unfold transferLoop
  have key : ∀ (l : List Nat), (∀ d ∈ l, d < TOTAL_STATIONS) → ∀ st : Simulation × Train,
      SameStatic s0 st.1 → Keeps s c T st →
      Keeps s c T (l.foldl (transferBody station lineID) st) := by
    intro l
    induction l with
    | nil => intro _ st _ h; exact h
    | cons d l ih =>
      intro hl st h1 h2
      rw [List.foldl_cons]
      exact ih (fun x hx => hl x (List.mem_cons_of_mem _ hx)) _
        (h1.trans (transferBody_sameStatic station lineID st d))
        (transferBody_keep s c T station lineID st d h1 h2
          (hN d (hl d (List.mem_cons_self _ _))))
  exact key _ (fun d hd => List.mem_range.mp hd) (a, train) hs hk

theorem alightAndTransfer_keep {s0 : Simulation} (s : Simulation) (train : Train)
    (hs : SameStatic s0 s) (ht : TrainOK train) (hN : NoTransferOff s0 train) :
    Keeps s (s.num_arrived + train.passengerNum) (train.destination.set train.arrivingStation 0)
      (alightAndTransfer s train) := by
  have hd : Keeps s (s.num_arrived + train.passengerNum)
      (train.destination.set train.arrivingStation 0) (alightDirect s train) := by
    refine ⟨rfl, rfl, rfl, ?_, alightDirect_trainOK s train ht, fun d => Or.inl rfl⟩
    unfold alightDirect
    dsimp only
    omega
  unfold alightAndTransfer
  dsimp only
  by_cases htr : ((alightDirect s train).1.stationAt train.arrivingStation).isTransfer = true
  · rw [if_pos htr]
    have htr0 : (s0.stationAt train.arrivingStation).isTransfer = true := by
      rw [← isTransfer_of_sameStatic (hs.trans (alightDirect_sameStatic s train))]
      exact htr
    refine transferLoop_keep s _ _ train.arrivingStation train.lineID ?_ _ _
      (hs.trans (alightDirect_sameStatic s train)) hd
    intro dest hdest hpos
    have hne : dest ≠ train.arrivingStation := by
      intro heq
      rw [heq, getD_set_zero] at hpos
      exact absurd hpos (by decide)
    rw [getD_set_ne _ _ _ _ _ hne] at hpos
    exact hN htr0 dest hdest hne hpos
  · rw [if_neg htr]
    exact hd

theorem processArrival_balance {s0 : Simulation} (fuel : Nat) (s s' : Simulation)
    (nextevent : Event) (train : Train) (hty : nextevent.type = EventType.ARRIVAL)
    (htrain : nextevent.train = some train) (hs : SameStatic s0 s)
    (hN : NoTransferOff s0 train) (hok : TrainOK train)
    (h : StopsIn (processArrival fuel s nextevent) s') :
    balance s' = balance s + train.passengerNum := by
  obtain ⟨k1, k2, k3, k4, k5, _⟩ := alightAndTransfer_keep s train hs hok hN
  have hbal : balance (alightAndTransfer s train).1 + (alightAndTransfer s train).2.passengerNum =
      balance s + train.passengerNum := by
    unfold balance passengersQueued passengersAboard
    rw [k1, k2, k3]
    omega
  have hpn : 0 ≤ (alightAndTransfer s train).2.passengerNum := by
    rw [← k5.1.2]
    exact List.sum_nonneg k5.1.1
  unfold processArrival at h
  rw [htrain] at h
  dsimp only at h
  split at h
  · rename_i b hb
    split at hb
    · rename_i hterm
      have hbd := boardAndDepart_balance _ _ _ _ _ _ _ _ hty hb
      have hTb := isTerminal_of_sameStatic (boardAndDepart_sameStatic _ _ _ _ _ _ _ _ hb)
        train.arrivingStation
      rw [hTb, hterm] at h
      simp only [Bool.false_eq_true, if_false, stopsIn_done, stopsIn_badDelete] at h
      subst h
      omega
    · rename_i hterm
      simp only [Outcome.done.injEq] at hb
      subst hb
      have hterm' : ((alightAndTransfer s train).1.stationAt train.arrivingStation).isTerminal.get
          train.direction false = true := by
        simpa using hterm
      rw [if_pos hterm'] at h
      unfold terminalCheck at h
      split at h
      · exact absurd h (by simp)
      · rename_i hle
        simp only [stopsIn_done, stopsIn_badDelete] at h
        subst h
        omega
  · exact absurd h (by simp)
  · exact absurd h (by simp)
  · exact absurd h (by simp)
  · rename_i b hb
    split at hb
    · exact absurd hb (boardAndDepart_ne_badDelete _ _ _ _ _ _ _ _)
    · exact absurd hb (by simp)

theorem processArrival_stateOK {s0 : Simulation} (fuel : Nat) (s s' : Simulation)
    (nextevent : Event)
    (train : Train) (htrain : nextevent.train = some train)
    (hss : SameStatic s0 s) (hN : NoTransferOff s0 train)
    (hs : StateOK s) (ht : TrainOK train)
    (h : StopsIn (processArrival fuel s nextevent) s') : StateOK s' := by
  obtain ⟨k1, k2, _, _, hta, _⟩ := alightAndTransfer_keep s train hss ht hN
  have hsa : StateOK (alightAndTransfer s train).1 :=
    ⟨by rw [k1]; exact hs.1, by rw [k2]; exact hs.2⟩
  unfold processArrival at h
  rw [htrain] at h
  dsimp only at h
  split at h
  · rename_i b hb
    split at hb
    · rename_i hterm
      have hTb := isTerminal_of_sameStatic (boardAndDepart_sameStatic _ _ _ _ _ _ _ _ hb)
        train.arrivingStation
      rw [hTb, hterm] at h
      simp only [Bool.false_eq_true, if_false, stopsIn_done, stopsIn_badDelete] at h
      subst h
      unfold boardAndDepart at hb
      dsimp only at hb
      split at hb
      · exact absurd hb (by simp)
      · rename_i c hc
        have hsd : ∀ st ∈ (drainOnArrival (alightAndTransfer s train).1 train.arrivingStation
            train.direction).stations, StationOK st := by
          unfold drainOnArrival
          dsimp only
          apply stationsOK_set _ _ _ hsa.1
          have := stationAt_ok _ hsa.1 train.arrivingStation
          exact ⟨this.1, this.2⟩
        have hok := boardLoop_ok _ _ _ _ hta (queue_get_ok _ _ (stationAt_ok _ hsd _)) hc
        simp only [Outcome.done.injEq] at hb
        subst hb
        refine ⟨?_, ?_⟩
        · dsimp only [getNextArrivalStationID, getNextArrivalTime]
          apply stationsOK_set _ _ _ hsd
          exact stationOK_queue_set _ _ _ _ (stationAt_ok _ hsd _) hok.2
        · dsimp only [getNextArrivalStationID, getNextArrivalTime]
          intro e he tr htr
          rw [EventQueue.mem_push] at he
          rcases he with rfl | he
          · simp only [Option.some.injEq] at htr
            subst htr
            exact ⟨hok.1.1, hok.1.2⟩
          · exact hsa.2 e he tr htr
    · rename_i hterm
      simp only [Outcome.done.injEq] at hb
      subst hb
      have hterm' : ((alightAndTransfer s train).1.stationAt train.arrivingStation).isTerminal.get
          train.direction false = true := by
        simpa using hterm
      rw [if_pos hterm'] at h
      unfold terminalCheck at h
      split at h
      · exact absurd h (by simp)
      · simp only [stopsIn_done, stopsIn_badDelete] at h
        subst h
        exact hsa
  · exact absurd h (by simp)
  · exact absurd h (by simp)
  · exact absurd h (by simp)
  · rename_i b hb
    split at hb
    · exact absurd hb (boardAndDepart_ne_badDelete _ _ _ _ _ _ _ _)
    · exact absurd hb (by simp)

theorem processNewOD_inv {s0 : Simulation} (OD : List (List Int))
    (hv : ∀ from_ to_, from_ < TOTAL_STATIONS → to_ < TOTAL_STATIONS →
      (OD.getD from_ []).getD to_ 0 ≠ 0 →
        RouteValid s0 from_ to_ ∧ 0 ≤ (OD.getD from_ []).getD to_ 0)
    (s : Simulation) (hs : SameStatic s0 s) (hok : StateOK s) :
    balance (processNewOD s OD) = balance s ∧ StateOK (processNewOD s OD) := by
  unfold processNewOD
  have key := foldl_invariant_mem
    (fun x => SameStatic s0 x ∧ balance x = balance s ∧ StateOK x)
    (fun s from_ =>
      (List.range TOTAL_STATIONS).foldl
        (fun s to_ =>
          if (OD.getD from_ []).getD to_ 0 ≠ 0 then
            addPassengers s from_ to_ ((OD.getD from_ []).getD to_ 0)
          else s) s)
    (List.range TOTAL_STATIONS)
    (by
      intro a from_ hfrom ha
      refine foldl_invariant_mem
        (fun x => SameStatic s0 x ∧ balance x = balance s ∧ StateOK x) _ _ ?_ a ha
      intro b to_ hto hb
      dsimp only
      split_ifs with hz
      · have hr := hv from_ to_ (List.mem_range.mp hfrom) (List.mem_range.mp hto) hz
        exact ⟨hb.1.trans (addPassengers_sameStatic _ _ _ _),
          (addPassengers_balance hb.1 from_ to_ _ hr.1).trans hb.2.1,
          addPassengers_stateOK _ _ _ _ hb.2.2 hr.2 (List.mem_range.mp hto)⟩
      · exact hb)
    s ⟨hs, rfl, hok⟩
  exact key.2

theorem popEvent_balance (s : Simulation) (e : Event) (s1 : Simulation)
    (h : popEvent s = some (e, s1)) :
    balance s = balance s1 + eventPassengers e ∧ EventQueue.top s.EventQueue = some e := by
  unfold popEvent at h
  split at h
  · exact absurd h (by simp)
  · rename_i e' he
    simp only [Option.some.injEq, Prod.mk.injEq] at h
    obtain ⟨h1, h2⟩ := h
    subst h1 h2
    refine ⟨?_, he⟩
    unfold EventQueue.top at he
    cases hq : s.EventQueue with
    | nil => rw [hq] at he; simp at he
    | cons first rest =>
      rw [hq] at he
      simp only [List.head?_cons, Option.some.injEq] at he
      subst he
      unfold balance passengersAboard passengersQueued
      dsimp only
      rw [hq, aboard_pop]
      omega

theorem popEvent_stateOK (s : Simulation) (e : Event) (s1 : Simulation)
    (h : popEvent s = some (e, s1)) (hs : StateOK s) :
    StateOK s1 ∧ ∀ train, e.train = some train → TrainOK train := by
  obtain ⟨hmem, hq⟩ := popEvent_events s e s1 h
  refine ⟨⟨?_, ?_⟩, fun train htr => hs.2 e hmem train htr⟩
  · unfold popEvent at h
    split at h
    · exact absurd h (by simp)
    · simp only [Option.some.injEq, Prod.mk.injEq] at h
      rw [← h.2]
      exact hs.1
  · intro x hx
    rw [hq] at hx
    exact hs.2 x (EventQueue.mem_of_mem_pop _ _ hx)

theorem runEvent_inv {s0 : Simulation} (fuel : Nat) (s s' : Simulation)
    (hs : SameStatic s0 s) (hst : StateOK s) (hok : EventOK s0 s)
    (h : StopsIn (runEvent fuel s) s') :
    balance s' = balance s ∧ StateOK s' := by
  unfold runEvent at h
  split at h
  · simp only [stopsIn_done, stopsIn_badDelete] at h
    subst h
    exact ⟨rfl, hst⟩
  · rename_i e s1 hp
    obtain ⟨hb, htop⟩ := popEvent_balance s e s1 hp
    obtain ⟨hst1, htrain⟩ := popEvent_stateOK s e s1 hp hst
    obtain ⟨ok1, ok2, ok3⟩ := hok e htop
    have hs1 : SameStatic s0 s1 := hs.trans (popEvent_sameStatic _ _ _ hp)
    unfold dispatch at h
    split at h
    · rename_i hty
      cases htr : e.train with
      | none =>
        unfold processArrival at h
        rw [htr] at h
        exact absurd h (by simp)
      | some train =>
        have hN : NoTransferOff s0 train := ok1 hty train htr
        have hto := htrain train htr
        have := processArrival_balance fuel s1 s' e train hty htr hs1 hN hto h
        have hev : eventPassengers e = train.passengerNum := by
          unfold eventPassengers
          rw [hty, htr]
        exact ⟨by omega, processArrival_stateOK fuel s1 s' e train htr hs1 hN hst1 hto h⟩
    · rename_i hty
      simp only [stopsIn_done, stopsIn_badDelete] at h
      subst h
      have hev : eventPassengers e = 0 := by
        unfold eventPassengers
        rw [hty]
      exact ⟨by omega, hst1⟩
    · rename_i hty
      simp only [stopsIn_done, stopsIn_badDelete] at h
      subst h
      have hev : eventPassengers e = 0 := by
        unfold eventPassengers
        rw [hty]
      have := processNewOD_inv e.OD (ok2 hty) s1 hs1 hst1
      exact ⟨by omega, this.2⟩
    · rename_i hty
      simp only [stopsIn_done, stopsIn_badDelete] at h
      subst h
      have hev : eventPassengers e = 0 := by
        unfold eventPassengers
        rw [hty]
      obtain ⟨hr, hn, ht⟩ := ok3 hty
      refine ⟨?_, addPassengers_stateOK _ _ _ _ hst1 hn ht⟩
      unfold processTransfer
      rw [addPassengers_balance hs1 _ _ _ hr]
      omega

theorem reset_balance (s : Simulation) (h : Loaded s) : balance (reset s) = 0 := by
  rw [reset_eq s h]
  unfold balance passengersQueued passengersAboard
  dsimp only
  have h1 : ((s.stations.map Station.cleared).map stationPassengers).sum = 0 := by
    rw [List.map_map]
    apply List.sum_eq_zero
    intro x hx
    simp only [List.mem_map] at hx
    obtain ⟨st, _, rfl⟩ := hx
    rfl
  have h2 : ((List.foldl EventQueue.push [] (s.startTrainInfo.map startEvent)).map
      eventPassengers).sum = 0 := by
    rw [((foldl_push_perm (s.startTrainInfo.map startEvent) []).map eventPassengers).sum_eq]
    apply List.sum_eq_zero
    intro x hx
    simp only [List.nil_append, List.map_map, List.mem_map] at hx
    obtain ⟨row, _, rfl⟩ := hx
    rfl
  rw [h1, h2]
  rfl

theorem reset_stateOK (s : Simulation) (h : Loaded s) : StateOK (reset s) := by
  rw [reset_eq s h]
  refine ⟨?_, ?_⟩
  · intro st hst
    dsimp only at hst
    rw [List.mem_map] at hst
    obtain ⟨x, _, rfl⟩ := hst
    refine ⟨?_, ?_⟩ <;> intro p hp <;> simp [Station.cleared] at hp
  · intro e he train htr
    dsimp only at he
    have hp : e ∈ List.foldl EventQueue.push [] (s.startTrainInfo.map startEvent) ↔
        e ∈ [] ++ s.startTrainInfo.map startEvent :=
      (foldl_push_perm (s.startTrainInfo.map startEvent) []).mem_iff
    rw [hp] at he
    simp only [List.nil_append, List.mem_map] at he
    obtain ⟨row, _, rfl⟩ := he
    simp only [startEvent, Option.some.injEq] at htr
    subst htr
    refine ⟨⟨?_, ?_⟩, ?_⟩
    · intro x hx
      rw [List.eq_of_mem_replicate hx]
    · simp
    · simp

theorem conservingRun_sameStatic (s0 s : Simulation) (h0 : Loaded s0)
    (hr : ConservingRun s0 s) : SameStatic s0 s := by
  induction hr with
  | init => exact reset_sameStatic s0 h0
  | addPassengers from_ to_ num _ _ _ _ ih => exact ih.trans (addPassengers_sameStatic _ _ _ _)
  | addEvent e _ _ ih => exact ih.trans (addEvent_sameStatic _ _)
  | runEvent fuel _ _ hrun ih => exact ih.trans (runEvent_sameStatic _ _ _ hrun)

/-- C1, amended.  Along every execution from `init` in which the injected counts
are non-negative, bound for stations of the network and routed to queues that
exist, added events carry no train, and no processed `ARRIVAL` sends a
passenger of its train to a transfer (at a transfer station every destination
the train carries is an exit of the station or is routed without transfer),
after each `addPassengers` call and after each processed event
`num_arrived + queued + aboard = num_departed`. -/
theorem C1_conservation_without_transfer (s0 s : Simulation) (h0 : Loaded s0)
    (hr : ConservingRun s0 s) :
    s.num_arrived + passengersQueued s + passengersAboard s = s.num_departed := by
  have key : balance s = 0 ∧ StateOK s := by
    induction hr with
    | init => exact ⟨reset_balance s0 h0, reset_stateOK s0 h0⟩
    | addPassengers from_ to_ num hprev hv hnum hto ih =>
      refine ⟨?_, addPassengers_stateOK _ _ _ _ ih.2 hnum hto⟩
      rw [addPassengers_balance (conservingRun_sameStatic s0 _ h0 hprev) from_ to_ num hv]
      exact ih.1
    | @addEvent a e hprev hnone ih =>
      have hev : eventPassengers e = 0 := by
        unfold eventPassengers
        rw [hnone]
        split <;> first | rfl | simp_all
      have : balance (addEvent a e) = balance a := by
        unfold balance passengersAboard passengersQueued addEvent
        dsimp only
        rw [aboard_push]
        omega
      rw [this]
      refine ⟨ih.1, ih.2.1, ?_⟩
      intro x hx train htr
      unfold addEvent at hx
      dsimp only at hx
      rw [EventQueue.mem_push] at hx
      rcases hx with rfl | hx
      · rw [hnone] at htr
        exact absurd htr (by simp)
      · exact ih.2.2 x hx train htr
    | runEvent fuel hprev hok hrun ih =>
      have := runEvent_inv fuel _ _ (conservingRun_sameStatic s0 _ h0 hprev) ih.2 hok hrun
      exact ⟨this.1.trans ih.1, this.2⟩
  have hb := key.1
  unfold balance at hb
  omega

theorem eventOK_of_arrival (s0 s : Simulation) (e : Event) (train : Train)
    (htop : EventQueue.top s.EventQueue = some e) (hty : e.type = EventType.ARRIVAL)
    (htr : e.train = some train)
    (hnt : (s0.stationAt train.arrivingStation).isTransfer = false) :
    EventOK s0 s := by
  have hN : NoTransferOff s0 train := fun h => absurd (hnt.symm.trans h) (by decide)
  intro e' he'
  rw [htop] at he'
  simp only [Option.some.injEq] at he'
  subst he'
  refine ⟨?_, ?_, ?_⟩
  · intro _ tr' htr'
    rw [htr] at htr'
    simp only [Option.some.injEq] at htr'
    subst htr'
    exact hN
  · intro h
    rw [hty] at h
    exact absurd h (by decide)
  · intro h
    rw [hty] at h
    exact absurd h (by decide)

theorem routeValid_lineAB (C : Int) (start : Int) (T : ℚ) : RouteValid (lineAB C start T) 0 1 := by
  intro calls
  simp [routedStation, routedDirection, getPolicy, getPolicyNext, Simulation.policyNumAt,
    Simulation.directionsAt, Simulation.policyAt, lineAB]

/-- C1, witness: scenario S1.  On the two-station line 50 passengers are injected,
board at time 0 and arrive at the terminal at time 60; the execution is a
conserving one and at the end of the terminal branch
50 arrived + 0 queued + 0 aboard = 50 departed. -/
theorem C1_conservation_without_transfer_witness :
    Loaded (lineAB 300 0 60) ∧
    ConservingRun (lineAB 300 0 60)
      { lineAB 300 0 60 with
        time := 60, totalTravelTime := (50 : Int) * 60, num_departed := 50, num_arrived := 50,
        EventQueue := [], time_iter := [1], stationID_iter := [1] } ∧
    (50 : Int) + passengersQueued
      { lineAB 300 0 60 with
        time := 60, totalTravelTime := (50 : Int) * 60, num_departed := 50, num_arrived := 50,
        EventQueue := [], time_iter := [1], stationID_iter := [1] } +
      passengersAboard
      { lineAB 300 0 60 with
        time := 60, totalTravelTime := (50 : Int) * 60, num_departed := 50, num_arrived := 50,
        EventQueue := [], time_iter := [1], stationID_iter := [1] } = 50 :=
  have hrun : ConservingRun (lineAB 300 0 60)
      { lineAB 300 0 60 with
        time := 60, totalTravelTime := (50 : Int) * 60, num_departed := 50, num_arrived := 50,
        EventQueue := [], time_iter := [1], stationID_iter := [1] } :=
    ConservingRun.runEvent 1
      (ConservingRun.runEvent 1
        (ConservingRun.addPassengers 0 1 50 ConservingRun.init (routeValid_lineAB 300 0 60)
          (by decide) (by decide))
        (eventOK_of_arrival _ _ (startEvent [0, 0, 0, 0, 300, 0]) _ (by
            rw [addPassengers_EventQueue]; rfl) rfl rfl rfl)
        (Or.inl (lineAB_first_event 300 60 50 0 (by decide) (by decide))))
      (eventOK_of_arrival _ _ (arrivalOf (Train.mk 0 0 1 0 (300 - 50) 0 [0, 50, 0] 50) 60) _
        rfl rfl rfl rfl)
      (Or.inr (lineAB_second_event 300 60 50 1))
  ⟨⟨rfl, rfl, rfl, rfl⟩, hrun,
    C1_conservation_without_transfer (lineAB 300 0 60) _ ⟨rfl, rfl, rfl, rfl⟩ hrun⟩

/-! ## Claims C15 and C16: suspend and the empty queue -/

/-- C16.  Called with an empty event queue, `run` raises no error and returns at
once: the state is unchanged, the report carries the current `totalTravelTime`
and `totalDelay`, and `isFinished` is true exactly when
`time ≥ TOTAL_SIMULATION_TIME`. -/
theorem C16_empty_queue_report (fuel : Nat) (s : Simulation) (hq : s.EventQueue = []) :
    run (fuel + 1) s = Outcome.done (report s, s) ∧
    (report s).totalTravelTime = s.totalTravelTime ∧
    (report s).totalDelay = s.totalDelay ∧
    ((report s).isFinished = true ↔ TOTAL_SIMULATION_TIME ≤ s.time) := by
  refine ⟨?_, rfl, rfl, ?_⟩
  · rw [run]
    unfold popEvent EventQueue.top
    rw [hq]
    rfl
  · unfold report
    dsimp only
    by_cases h : s.time < TOTAL_SIMULATION_TIME
    · rw [if_pos h]
      constructor
      · intro h1; exact absurd h1 (by decide)
      · intro h1; exact absurd h (not_lt.mpr h1)
    · rw [if_neg h]
      exact ⟨fun _ => not_lt.mp h, fun _ => rfl⟩

/-- C16, witness: a state of the two-station line with no pending event (time 60,
`totalTravelTime` 3000); `run` returns the report `(false, 3000, 0)` and leaves
the state as it is. -/
theorem C16_empty_queue_report_witness :
    run 1 { lineAB 300 0 60 with
        time := 60, totalTravelTime := 3000, num_departed := 50, num_arrived := 50,
        time_iter := [1], stationID_iter := [1] } =
      Outcome.done (report { lineAB 300 0 60 with
        time := 60, totalTravelTime := 3000, num_departed := 50, num_arrived := 50,
        time_iter := [1], stationID_iter := [1] },
        { lineAB 300 0 60 with
        time := 60, totalTravelTime := 3000, num_departed := 50, num_arrived := 50,
        time_iter := [1], stationID_iter := [1] }) ∧
    (report { lineAB 300 0 60 with
        time := 60, totalTravelTime := 3000, num_departed := 50, num_arrived := 50,
        time_iter := [1], stationID_iter := [1] }).totalTravelTime = 3000 :=
  ⟨(C16_empty_queue_report 0 { lineAB 300 0 60 with
        time := 60, totalTravelTime := 3000, num_departed := 50, num_arrived := 50,
        time_iter := [1], stationID_iter := [1] } rfl).1,
   (C16_empty_queue_report 0 { lineAB 300 0 60 with
        time := 60, totalTravelTime := 3000, num_departed := 50, num_arrived := 50,
        time_iter := [1], stationID_iter := [1] } rfl).2.1⟩

/-- C15, the source at a `SUSPEND`.  When the event on top of the queue is a
`SUSPEND` at time `t`, `run` pops it and sets `time = t`, and nothing else has
changed when the branch is entered: counters, stations and cursors are those
before the call and the pending events are the former ones without the popped
event.  The branch then executes `delete& nextevent;` (line 357) on the local
copy of the event, before `return report();`: whatever the fuel, `run` returns
no report. -/
theorem C15_suspend_stops_at_delete (fuel : Nat) (s : Simulation) (e : Event)
    (htop : EventQueue.top s.EventQueue = some e) (hty : e.type = EventType.SUSPEND) :
    run (fuel + 1) s =
      Outcome.badDelete { s with EventQueue := EventQueue.pop s.EventQueue, time := e.time } ∧
    (∀ (k : Nat) (r : Report) (s' : Simulation), run k s ≠ Outcome.done (r, s')) ∧
    (e :: EventQueue.pop s.EventQueue).Perm s.EventQueue := by
  have hrun : ∀ k, run (k + 1) s =
      Outcome.badDelete { s with EventQueue := EventQueue.pop s.EventQueue, time := e.time } := by
    intro k
    rw [run]
    unfold popEvent
    rw [htop]
    dsimp only
    unfold dispatch
    rw [hty]
  refine ⟨hrun fuel, ?_, ?_⟩
  · intro k r s' h
    cases k with
    | zero => simp [run] at h
    | succ k =>
      rw [hrun k] at h
      simp at h
  · unfold EventQueue.top at htop
    cases hq : s.EventQueue with
    | nil => rw [hq] at htop; simp at htop
    | cons first rest =>
      rw [hq] at htop
      simp only [List.head?_cons, Option.some.injEq] at htop
      subst htop
      exact EventQueue.pop_perm first rest

/-- C15, witness: `suspendAt30`.  The `SUSPEND` at t = 30 is on top; `run` pops it,
sets the clock to 30, with the 50 queued passengers, the counters and the
train's pending `ARRIVAL` as they were, and stops at `delete& nextevent;`. -/
theorem C15_suspend_stops_at_delete_witness :
    EventQueue.top suspendAt30.EventQueue = some (Event.new 30 EventType.SUSPEND) ∧
    run 1 suspendAt30 =
      Outcome.badDelete
        { suspendAt30 with EventQueue := EventQueue.pop suspendAt30.EventQueue,
                           time := (Event.new 30 EventType.SUSPEND).time } ∧
    (run 1 suspendAt30).atDelete (fun s => (s.time, s.totalTravelTime, s.totalDelay))
      = some (30, 0, 0) ∧
    (run 1 suspendAt30).atDelete
        (fun s => (s.num_departed, queuePassengers ((s.stationAt 0).queue.get 0 []),
          s.EventQueue.map (fun x => x.time)))
      = some (50, 50, [60]) :=
  ⟨by decide!, (C15_suspend_stops_at_delete 0 suspendAt30 (Event.new 30 EventType.SUSPEND)
    (by decide!) rfl).1, by decide!, by decide!⟩

/-! ## Claims C17, C18, C19: evaluations of the source on scenarios -/

/-- A cohort larger than the remaining capacity keeps the boarding loop turning
for ever: after the turn that fills the train, the rest of the cohort is still
at the head of the queue and the train is full. -/
theorem boardLoop_partial (fuel : Nat) (train : Train) (p : WaitingPassengers) (rest : Q)
    (h : train.capacity < p.numPassengers) :
    boardLoop fuel train (p :: rest) = none := by
  cases fuel with
  | zero => rfl
  | succ fuel =>
    rw [boardLoop, if_neg (by omega)]
    exact boardLoop_stuck fuel _ _ rest rfl (by dsimp only; omega)

/-- C17, the source at the failing input (scenario S3: capacity 30, one cohort of
50).  The first turn of the boarding loop does what the claim says: capacity 0,
30 on board, 20 left at the head of the queue.  But the loop tests only whether
the queue is empty, so it goes on from that state and never ends: whatever the
fuel, the boarding loop does not return, and neither does the event nor `run`. -/
theorem C17_partial_boarding_never_ends (fuel : Nat) :
    boardLoop (fuel + 1) (Train.mk 0 0 0 0 30 0 [0, 0, 0] 0) [⟨50, 1⟩] =
      boardLoop fuel (Train.mk 0 0 0 0 0 0 [0, 30, 0] 30) [⟨20, 1⟩] ∧
    boardLoop fuel (Train.mk 0 0 0 0 0 0 [0, 30, 0] 30) [⟨20, 1⟩] = none ∧
    runEvent fuel (addPassengers (reset (lineAB 30 0 60)) 0 1 50) = Outcome.diverged ∧
    run fuel (addPassengers (reset (lineAB 30 0 60)) 0 1 50) = Outcome.diverged := by
  have hev : ∀ k : Nat,
      runEvent k (addPassengers (reset (lineAB 30 0 60)) 0 1 50) = Outcome.diverged := by
    intro k
    have hb : boardLoop k (Train.mk 0 0 0 0 30 0 [0, 0, 0] 0) [⟨50, 1⟩] = none :=
      boardLoop_partial k _ _ _ (by decide)
    simp [runEvent, popEvent, EventQueue.top, EventQueue.pop, dispatch, processArrival,
      alightAndTransfer, alightDirect, Simulation.stationAt, boardAndDepart, drainOnArrival,
      getNextArrivalTime, getNextArrivalStationID, terminalCheck, EventQueue.push,
      pushHeap, pushHeapLoop, Arr2.get, Arr2.set, addPassengers, getPolicy, getPolicyNext,
      Simulation.policyNumAt, Simulation.policyAt, Simulation.directionsAt,
      Simulation.transferTimeAt, reset, resetTrain, resetStation, lineAB, TOTAL_STATIONS,
      List.range, List.range.loop, Train.new, Event.new, hb]
  refine ⟨?_, boardLoop_partial fuel _ _ _ (by decide), hev fuel, ?_⟩
  · rw [boardLoop, if_neg (by decide)]
    rfl
  · cases fuel with
    | zero => rfl
    | succ k =>
      have h := hev (k + 1)
      unfold runEvent at h
      rw [run]
      have hp : popEvent (addPassengers (reset (lineAB 30 0 60)) 0 1 50) =
          some (startEvent [0, 0, 0, 0, 30, 0],
            { addPassengers (reset (lineAB 30 0 60)) 0 1 50 with
              EventQueue := EventQueue.pop (addPassengers (reset (lineAB 30 0 60)) 0 1 50).EventQueue,
              time := (startEvent [0, 0, 0, 0, 30, 0]).time }) := by
        unfold popEvent EventQueue.top
        rw [addPassengers_EventQueue]
        rfl
      rw [hp] at h ⊢
      simp only at h ⊢
      rw [h]

/-- C18, the source at the failing input.  On the three-station line 50 passengers
bound for station 2 board at station 0 at t = 0.  After the `ARRIVAL` at the
intermediate station 1 at t = 60 has been processed the train's `lastTime` is
still its start time 0, not 60; so the arrival at station 2 at t = 120 adds
50 * (120 - 0) on top of the 50 * (60 - 0) added at station 1, and at the end of
the terminal branch the ride has contributed 9000 to `totalTravelTime`, not
50 * (120 - 0) = 6000. -/
theorem C18_lastTime_never_updated :
    (runEvent 1 (addPassengers (reset lineABC) 0 2 50)).map
        (fun s => (s.time, trainClocks s, s.totalTravelTime))
      = Outcome.done (0, [(0, 50, 1)], 0) ∧
    ((runEvent 1 (addPassengers (reset lineABC) 0 2 50)).bind (runEvent 1)).map
        (fun s => (s.time, trainClocks s, s.totalTravelTime))
      = Outcome.done (60, [(0, 50, 2)], 3000) ∧
    (run 4 (addPassengers (reset lineABC) 0 2 50)).atDelete
        (fun s => (s.time, s.num_arrived, s.totalDelay, s.totalTravelTime))
      = some (120, 50, 0, 9000) := by
  refine ⟨?_, ?_, ?_⟩ <;> decide!

/-- C19, the source at the failing input.  On the two-station line whose train
starts at the horizon, t = 7200, 50 passengers are injected at station 1 for
station 0 at t = 0, one cohort with average entry time 0.  `run` processes the
call of the train at station 0 at t = 7200 and returns, the queue of station 1
untouched.  `addPassengers(1, 0, 10)` then sets the average to
(1 * 0 + 10 * 7200) / (1 + 10) = 72000 / 11, weighing the old average by the
number of cohorts, where the claim gives
(50 * 0 + 10 * 7200) / (50 + 10) = 1200. -/
theorem C19_mean_weighs_cohorts :
    (run 1 (addPassengers (reset (lineAB 300 7200 7260)) 1 0 50)).map
        (fun r => (r.2.time, queuePassengers ((r.2.stationAt 1).queue.get 1 []),
          (r.2.stationAt 1).getQueueNum 1, (r.2.stationAt 1).avg_inStationTime.get 1 0))
      = Outcome.done (7200, 50, 1, 0) ∧
    (run 1 (addPassengers (reset (lineAB 300 7200 7260)) 1 0 50)).map
        (fun r => ((addPassengers r.2 1 0 10).stationAt 1).avg_inStationTime.get 1 0)
      = Outcome.done (72000 / 11) ∧
    ((50 : ℚ) * 0 + 10 * 7200) / (50 + 10) = 1200 := by
  refine ⟨?_, ?_, ?_⟩ <;> decide!

/-! ## Claim C20: full boarding in queue order -/

theorem boundFor_cons (p : WaitingPassengers) (rest : Q) (d : Nat) :
    boundFor (p :: rest) d =
      (if p.destination = d then p.numPassengers else 0) + boundFor rest d := by
  unfold boundFor
  by_cases h : p.destination = d
  · simp [List.filter_cons, h]
  · simp [List.filter_cons, h]

theorem queuePassengers_cons (p : WaitingPassengers) (rest : Q) :
    queuePassengers (p :: rest) = p.numPassengers + queuePassengers rest := by
  unfold queuePassengers
  simp

theorem queuePassengers_nonneg (q : Q) (h : ∀ p ∈ q, 0 < p.numPassengers) :
    0 ≤ queuePassengers q := by
  unfold queuePassengers
  apply List.sum_nonneg
  intro x hx
  rw [List.mem_map] at hx
  obtain ⟨p, hp, rfl⟩ := hx
  exact le_of_lt (h p hp)

/-- The boarding loop on a queue that fits: every cohort is absorbed whole, in
queue order. -/
theorem boardLoop_full (q : Q) :
    ∀ (fuel : Nat) (train : Train),
      (∀ p ∈ q, 0 < p.numPassengers) → (∀ p ∈ q, p.destination < train.destination.length) →
      queuePassengers q ≤ train.capacity → q.length ≤ fuel →
        ∃ train', boardLoop fuel train q = some (train', []) ∧
          train'.capacity = train.capacity - queuePassengers q ∧
          train'.passengerNum = train.passengerNum + queuePassengers q ∧
          (∀ d, train'.destination.getD d 0 = train.destination.getD d 0 + boundFor q d) ∧
          train'.destination.length = train.destination.length ∧
          train'.trainID = train.trainID ∧ train'.lineID = train.lineID ∧
          train'.arrivingStation = train.arrivingStation ∧
          train'.direction = train.direction ∧ train'.lastTime = train.lastTime := by
  induction q with
  | nil =>
    intro fuel train _ _ _ _
    refine ⟨train, ?_, ?_, ?_, ?_, rfl, rfl, rfl, rfl, rfl, rfl⟩
    · cases fuel <;> rfl
    · simp [queuePassengers]
    · simp [queuePassengers]
    · intro d; simp [boundFor]
  | cons p rest ih =>
    intro fuel train hpos hdest hcap hfuel
    have hp : 0 < p.numPassengers := hpos p (List.mem_cons_self _ _)
    have hrest : ∀ x ∈ rest, 0 < x.numPassengers :=
      fun x hx => hpos x (List.mem_cons_of_mem _ hx)
    have hnn := queuePassengers_nonneg rest hrest
    rw [queuePassengers_cons] at hcap
    cases fuel with
    | zero => simp at hfuel
    | succ fuel =>
      rw [boardLoop, if_pos (by omega)]
      have hlen : (train.destination.set p.destination
          (train.destination.getD p.destination 0 + p.numPassengers)).length =
          train.destination.length := List.length_set _ _ _
      obtain ⟨t', h1, h2, h3, h4, h5, h6, h7, h8, h9, h10⟩ := ih fuel
        { train with
          capacity := train.capacity - p.numPassengers,
          passengerNum := train.passengerNum + p.numPassengers,
          destination := train.destination.set p.destination
            (train.destination.getD p.destination 0 + p.numPassengers) }
        hrest
        (fun x hx => by
          dsimp only
          rw [hlen]
          exact hdest x (List.mem_cons_of_mem _ hx))
        (by dsimp only; omega)
        (by simpa using hfuel)
      refine ⟨t', h1, ?_, ?_, ?_, ?_, h6, h7, h8, h9, h10⟩
      · rw [h2, queuePassengers_cons]
        dsimp only
        omega
      · rw [h3, queuePassengers_cons]
        dsimp only
        omega
      · intro d
        rw [h4 d, boundFor_cons]
        dsimp only
        by_cases hd : p.destination = d
        · rw [if_pos hd, ← hd,
            getD_set_self _ _ _ _ (hdest p (List.mem_cons_self _ _))]
          omega
        · rw [if_neg hd, getD_set_ne _ _ _ _ _ (Ne.symm hd)]
          omega
      · rw [h5]
        exact hlen

/-! ## Closed forms of the arrival branch -/

theorem exec_sameStatic {s0 : Simulation} {inj : Simulation → Nat → Nat → Int → Prop}
    {ext : Simulation → Event → Prop} {step : Simulation → Prop} {s : Simulation}
    (h0 : Loaded s0) (hr : Exec s0 inj ext step s) : SameStatic s0 s := by
  induction hr with
  | init => exact reset_sameStatic s0 h0
  | addPassengers from_ to_ num _ _ ih => exact ih.trans (addPassengers_sameStatic _ _ _ _)
  | addEvent e _ _ ih => exact ih.trans (addEvent_sameStatic _ _)
  | runEvent fuel _ _ hrun ih => exact ih.trans (runEvent_sameStatic _ _ _ hrun)

theorem set_set_getD_station (l : List Station) (i : Nat) (f g : Station → Station) :
    (l.set i (f (l.getD i Station.dflt))).set i
        (g ((l.set i (f (l.getD i Station.dflt))).getD i Station.dflt)) =
      l.set i (g (f (l.getD i Station.dflt))) := by
  by_cases h : i < l.length
  · rw [getD_set_self _ _ _ _ h, List.set_set]
  · have hle : l.length ≤ i := by omega
    rw [List.set_eq_of_length_le (l := l) hle, List.set_eq_of_length_le (l := l) hle,
      List.set_eq_of_length_le (l := l) hle]

/-- The block of `run` executed at a station that is not terminal, in closed
form: if the boarding loop returns `b`, the delay integral is added to both
totals, the average of the queue is the clock, the queue is what the loop left,
both cursors of the train advance, and the follow-on `ARRIVAL` is pushed. -/
theorem boardAndDepart_eq (fuel : Nat) (s : Simulation) (nextevent : Event) (train : Train)
    (trainID station : Nat) (direction : Int) :
    boardAndDepart fuel s nextevent train trainID station direction =
      match boardLoop fuel train ((s.stationAt station).queue.get direction []) with
      | none => Outcome.diverged
      | some b =>
        Outcome.done
          ({ s with
              totalDelay := s.totalDelay +
                (s.time - (s.stationAt station).avg_inStationTime.get direction 0) *
                  (((s.stationAt station).queue.get direction []).length : ℚ),
              totalTravelTime := s.totalTravelTime +
                (s.time - (s.stationAt station).avg_inStationTime.get direction 0) *
                  (((s.stationAt station).queue.get direction []).length : ℚ),
              stations := s.stations.set station
                { s.stationAt station with
                  avg_inStationTime := (s.stationAt station).avg_inStationTime.set direction s.time,
                  queue := (s.stationAt station).queue.set direction b.2 },
              time_iter := s.time_iter.set trainID (s.time_iter.getD trainID 0 + 1),
              stationID_iter := s.stationID_iter.set trainID (s.stationID_iter.getD trainID 0 + 1),
              EventQueue := EventQueue.push s.EventQueue
                { nextevent with
                  time := (s.arrivalTime.getD trainID []).getD (s.time_iter.getD trainID 0) 0,
                  train := some
                    { b.1 with
                      arrivingStation :=
                        (s.arrivalStationID.getD trainID []).getD
                          (s.stationID_iter.getD trainID 0) 0 } } },
            { b.1 with
              arrivingStation :=
                (s.arrivalStationID.getD trainID []).getD (s.stationID_iter.getD trainID 0) 0 }) := by
  have hq := (drainOnArrival_frame s station direction).2.2.2
  unfold boardAndDepart
  dsimp only
  rw [hq]
  cases boardLoop fuel train ((s.stationAt station).queue.get direction []) with
  | none => rfl
  | some b =>
    dsimp only [getNextArrivalTime, getNextArrivalStationID, drainOnArrival, Simulation.stationAt]
    have hst := set_set_getD_station s.stations station
      (fun st => { st with avg_inStationTime := st.avg_inStationTime.set direction s.time })
      (fun st => { st with queue := st.queue.set direction b.2 })
    dsimp only at hst
    rw [hst]

/-- The `ARRIVAL` branch in closed form: alighting and transfer handling, then
the boarding block at a station that is not terminal in the train's direction,
the terminal check otherwise. -/
theorem processArrival_eq (fuel : Nat) (s : Simulation) (nextevent : Event) (train : Train)
    (htrain : nextevent.train = some train) :
    processArrival fuel s nextevent =
      if (s.stationAt train.arrivingStation).isTerminal.get train.direction false = false then
        (boardAndDepart fuel (alightAndTransfer s train).1 nextevent (alightAndTransfer s train).2
          train.trainID train.arrivingStation train.direction).map (fun r => r.1)
      else terminalCheck (alightAndTransfer s train).1 (alightAndTransfer s train).2 := by
  have hT := isTerminal_of_sameStatic (alightAndTransfer_sameStatic s train) train.arrivingStation
  unfold processArrival
  rw [htrain]
  dsimp only
  rw [hT]
  by_cases hterm : (s.stationAt train.arrivingStation).isTerminal.get train.direction false = false
  · rw [if_pos hterm, if_pos hterm]
    cases hb : boardAndDepart fuel (alightAndTransfer s train).1 nextevent
        (alightAndTransfer s train).2 train.trainID train.arrivingStation train.direction with
    | done b =>
      have hTb := isTerminal_of_sameStatic
        ((alightAndTransfer_sameStatic s train).trans
          (boardAndDepart_sameStatic _ _ _ _ _ _ _ _ hb)) train.arrivingStation
      dsimp only [Outcome.map]
      rw [hTb, hterm]
      simp
    | thrown msg => rfl
    | diverged => rfl
    | fault => rfl
    | badDelete b => exact absurd hb (boardAndDepart_ne_badDelete _ _ _ _ _ _ _ _)
  · rw [if_neg hterm, if_neg hterm]
    have hterm' : (s.stationAt train.arrivingStation).isTerminal.get train.direction false
        = true := by simpa using hterm
    dsimp only
    rw [hT, if_pos hterm']

/-- Induction over the transfer handling: what direct alighting establishes and
every turn of the loop over `dest_station` preserves holds after
`alightAndTransfer`. -/
theorem alightAndTransfer_induct (I : Simulation × Train → Prop) (s : Simulation)
    (train : Train) (h0 : I (alightDirect s train))
    (hstep : ∀ (st : Simulation × Train) (d : Nat), d < TOTAL_STATIONS → I st →
      I (transferBody train.arrivingStation train.lineID st d)) :
    I (alightAndTransfer s train) := by
  unfold alightAndTransfer
  dsimp only
  split_ifs
  · unfold transferLoop
    have key : ∀ (l : List Nat), (∀ d ∈ l, d < TOTAL_STATIONS) → ∀ st : Simulation × Train,
        I st → I (l.foldl (transferBody train.arrivingStation train.lineID) st) := by
      intro l
      induction l with
      | nil => intro _ st h; exact h
      | cons d l ih =>
        intro hl st h
        rw [List.foldl_cons]
        exact ih (fun x hx => hl x (List.mem_cons_of_mem _ hx)) _
          (hstep st d (hl d (List.mem_cons_self _ _)) h)
    exact key _ (fun d hd => List.mem_range.mp hd) _ h0
  · exact h0

/-! ## Claim C13: the run of an empty network -/

theorem stationAt_queue_empty (s : Simulation) (h : ∀ st ∈ s.stations, st.queue = ⟨[], []⟩)
    (i : Nat) : (s.stationAt i).queue = ⟨[], []⟩ := by
  unfold Simulation.stationAt
  by_cases hi : i < s.stations.length
  · rw [List.getD_eq_getElem _ _ hi]
    exact h _ (List.getElem_mem hi)
  · rw [List.getD_eq_default _ _ (by omega)]
    rfl

theorem arr2_empty_get (dir : Int) : (⟨[], []⟩ : Arr2 Q).get dir [] = [] := by
  unfold Arr2.get
  split_ifs <;> rfl

theorem arr2_empty_set (dir : Int) : (⟨[], []⟩ : Arr2 Q).set dir [] = ⟨[], []⟩ := by
  unfold Arr2.set
  split_ifs <;> rfl

theorem alightAndTransfer_empty (s : Simulation) (train : Train) (hs : EmptyNetwork s)
    (ht : EmptyTrain train) :
    EmptyNetwork (alightAndTransfer s train).1 ∧ EmptyTrain (alightAndTransfer s train).2 := by
  apply alightAndTransfer_induct (fun st => EmptyNetwork st.1 ∧ EmptyTrain st.2)
  · obtain ⟨h1, h2, h3, h4, h5, h6⟩ := hs
    obtain ⟨t1, t2⟩ := ht
    unfold alightDirect
    refine ⟨⟨h1, ?_, h3, ?_, h5, h6⟩, ?_, ?_⟩
    · dsimp only
      rw [h2, t1]
      simp
    · dsimp only
      rw [h4, t2]
      rfl
    · dsimp only
      rw [t1, t2]
      rfl
    · intro d
      dsimp only
      by_cases hd : d = train.arrivingStation
      · rw [hd]
        exact getD_set_zero _ _
      · rw [getD_set_ne _ _ _ _ _ hd]
        exact t2 d
  · intro st d _ h
    unfold transferBody
    dsimp only
    rw [if_neg (by rw [h.2.2 d]; decide)]
    exact h

/-- In an empty network the processing of every event stops, at its return or at
its `delete& nextevent;`, and the network is empty there. -/
theorem runEvent_empty (fuel : Nat) (s : Simulation) (hs : EmptyNetwork s) :
    ∃ s', StopsIn (runEvent fuel s) s' ∧ EmptyNetwork s' := by
  unfold runEvent
  cases hp : popEvent s with
  | none => exact ⟨s, Or.inl rfl, hs⟩
  | some p =>
    obtain ⟨e, s1⟩ := p
    dsimp only
    obtain ⟨hmem, hq⟩ := popEvent_events s e s1 hp
    have hs1 : EmptyNetwork s1 := by
      obtain ⟨h1, h2, h3, h4, h5, h6⟩ := hs
      unfold popEvent at hp
      split at hp
      · exact absurd hp (by simp)
      · simp only [Option.some.injEq, Prod.mk.injEq] at hp
        rw [← hp.2]
        exact ⟨h1, h2, h3, h4, h5, fun x hx => h6 x (EventQueue.mem_of_mem_pop _ _ hx)⟩
    rcases hs.2.2.2.2.2 e hmem with hty | ⟨hty, train, htr, hempty⟩
    · unfold dispatch
      rw [hty]
      exact ⟨s1, Or.inr rfl, hs1⟩
    · unfold dispatch
      rw [hty]
      dsimp only
      rw [processArrival_eq fuel s1 e train htr]
      obtain ⟨ha, hta⟩ := alightAndTransfer_empty s1 train hs1 hempty
      by_cases hterm : (s1.stationAt train.arrivingStation).isTerminal.get train.direction
          false = false
      · rw [if_pos hterm, boardAndDepart_eq]
        have hqe := stationAt_queue_empty _ ha.2.2.2.2.1 train.arrivingStation
        rw [hqe, arr2_empty_get, boardLoop_nil]
        dsimp only [Outcome.map]
        refine ⟨_, Or.inl rfl, ?_⟩
        obtain ⟨h1, h2, h3, h4, h5, h6⟩ := ha
        refine ⟨?_, ?_, h3, h4, ?_, ?_⟩
        · dsimp only
          rw [h1]
          simp
        · dsimp only
          rw [h2]
          simp
        · intro st hst
          dsimp only at hst
          rcases List.mem_or_eq_of_mem_set hst with hm | hm
          · exact h5 st hm
          · rw [hm]
            dsimp only
            rw [arr2_empty_set]
        · intro x hx
          dsimp only at hx
          rw [EventQueue.mem_push] at hx
          rcases hx with hx | hx
          · right
            rw [hx]
            exact ⟨hty, _, rfl, hta.1, hta.2⟩
          · exact h6 x hx
      · rw [if_neg hterm]
        unfold terminalCheck
        rw [if_neg (by rw [hta.1]; decide)]
        exact ⟨_, Or.inr rfl, ha⟩

theorem reset_empty (s0 : Simulation) (h0 : Loaded s0) : EmptyNetwork (reset s0) := by
  rw [reset_eq s0 h0]
  refine ⟨rfl, rfl, rfl, rfl, ?_, ?_⟩
  · intro st hst
    dsimp only at hst
    rw [List.mem_map] at hst
    obtain ⟨x, _, rfl⟩ := hst
    rfl
  · intro e he
    dsimp only at he
    have hp : e ∈ List.foldl EventQueue.push [] (s0.startTrainInfo.map startEvent) ↔
        e ∈ [] ++ s0.startTrainInfo.map startEvent :=
      (foldl_push_perm (s0.startTrainInfo.map startEvent) []).mem_iff
    rw [hp] at he
    simp only [List.nil_append, List.mem_map] at he
    obtain ⟨row, _, rfl⟩ := he
    right
    refine ⟨rfl, _, rfl, rfl, ?_⟩
    intro d
    dsimp only
    by_cases hd : d < TOTAL_STATIONS
    · rw [List.getD_eq_getElem _ _ (by simpa using hd)]
      simp
    · rw [List.getD_eq_default _ _ (by simpa using hd)]

/-- The report that `run` returns is the report of the state it leaves. -/
theorem run_report (fuel : Nat) (s : Simulation) (r : Report) (s' : Simulation)
    (h : run fuel s = Outcome.done (r, s')) : r = report s' := by
  induction fuel generalizing s with
  | zero => simp [run] at h
  | succ fuel ih =>
    rw [run] at h
    split at h
    · simp only [Outcome.done.injEq, Prod.mk.injEq] at h
      rw [← h.1, ← h.2]
    · split at h
      · split_ifs at h
        · simp only [Outcome.done.injEq, Prod.mk.injEq] at h
          rw [← h.1, ← h.2]
        · exact ih _ h
        · simp only [Outcome.done.injEq, Prod.mk.injEq] at h
          rw [← h.1, ← h.2]
      · exact absurd h (by simp)
      · exact absurd h (by simp)
      · exact absurd h (by simp)
      · exact absurd h (by simp)

/-- When the processing of every event stops in states that satisfy `P`, in a
state that satisfies `P`, `run` neither throws nor faults: out of fuel apart, it
returns a report or stops at a `delete& nextevent;`. -/
theorem run_no_error (P : Simulation → Prop)
    (hstep : ∀ fuel s, P s → ∃ s', StopsIn (runEvent fuel s) s' ∧ P s')
    (fuel : Nat) (s : Simulation) (hs : P s) :
    run fuel s = Outcome.diverged ∨ ∃ s', RunStopsIn (run fuel s) s' := by
  induction fuel generalizing s with
  | zero => left; rfl
  | succ fuel ih =>
    obtain ⟨s2, h2, hP2⟩ := hstep (fuel + 1) s hs
    unfold runEvent at h2
    rw [run]
    cases hp : popEvent s with
    | none => right; exact ⟨_, Or.inl ⟨_, rfl⟩⟩
    | some p =>
      obtain ⟨e, s1⟩ := p
      rw [hp] at h2
      dsimp only at h2 ⊢
      rcases h2 with h2 | h2
      · rw [h2]
        dsimp only
        split_ifs
        · right; exact ⟨_, Or.inl ⟨_, rfl⟩⟩
        · exact ih s2 hP2
        · right; exact ⟨_, Or.inl ⟨_, rfl⟩⟩
      · rw [h2]
        right
        exact ⟨_, Or.inr rfl⟩

/-- C13.  For every loaded static configuration, in every state reached from
`reset()` without any injection (no `addPassengers` call; the caller may add
`SUSPEND` events; `run` processes events one after the other, each up to its
return or to its `delete& nextevent;`) the four counters are 0 and the train of
every pending `ARRIVAL` has `passengerNum = 0`.  The processing of the next
event does not throw: it returns or reaches its `delete& nextevent;`, a
terminal arrival included.  A call of `run` does not throw either; where it
stops the counters are 0, and a report it returns has `totalDelay = 0` and
`totalTravelTime = 0`. -/
theorem C13_empty_network_run (s0 s : Simulation) (h0 : Loaded s0)
    (hr : Exec s0 (fun _ _ _ _ => False) (fun _ e => e.type = EventType.SUSPEND)
      (fun _ => True) s) :
    s.totalDelay = 0 ∧ s.totalTravelTime = 0 ∧ s.num_departed = 0 ∧ s.num_arrived = 0 ∧
    (∀ e ∈ s.EventQueue, e.type = EventType.ARRIVAL →
      ∃ train, e.train = some train ∧ train.passengerNum = 0) ∧
    (∀ fuel, ∃ s', StopsIn (runEvent fuel s) s') ∧
    (∀ fuel msg, runEvent fuel s ≠ Outcome.thrown msg) ∧
    (∀ fuel, run fuel s = Outcome.diverged ∨ ∃ s', RunStopsIn (run fuel s) s') ∧
    (∀ fuel msg, run fuel s ≠ Outcome.thrown msg) ∧
    (∀ fuel s', RunStopsIn (run fuel s) s' →
      s'.totalDelay = 0 ∧ s'.totalTravelTime = 0 ∧ s'.num_departed = 0 ∧ s'.num_arrived = 0) ∧
    (∀ fuel r s', run fuel s = Outcome.done (r, s') →
      r.totalDelay = 0 ∧ r.totalTravelTime = 0) := by
  have key : EmptyNetwork s := by
    induction hr with
    | init => exact reset_empty s0 h0
    | addPassengers from_ to_ num _ hinj _ => exact absurd hinj (fun h => h)
    | @addEvent a e _ hty ih =>
      obtain ⟨h1, h2, h3, h4, h5, h6⟩ := ih
      refine ⟨h1, h2, h3, h4, h5, ?_⟩
      intro x hx
      unfold addEvent at hx
      dsimp only at hx
      rw [EventQueue.mem_push] at hx
      rcases hx with hx | hx
      · left; rw [hx]; exact hty
      · exact h6 x hx
    | runEvent fuel _ _ hrun ih =>
      obtain ⟨s2, h2, hP⟩ := runEvent_empty fuel _ ih
      have e2 : s2 = _ := stopsIn_unique h2 hrun
      rw [← e2]
      exact hP
  have hstops : ∀ fuel s', RunStopsIn (run fuel s) s' → EmptyNetwork s' := by
    intro fuel s' hrun
    exact run_preserves EmptyNetwork
      (fun fuel a b ha hab => by
        obtain ⟨s2, h2, hP⟩ := runEvent_empty fuel a ha
        rw [← stopsIn_unique h2 hab]
        exact hP) fuel s s' key hrun
  refine ⟨key.1, key.2.1, key.2.2.1, key.2.2.2.1, ?_, ?_, ?_, ?_, ?_, ?_, ?_⟩
  · intro e he hty
    rcases key.2.2.2.2.2 e he with h | ⟨_, train, htr, hem⟩
    · rw [hty] at h
      exact absurd h (by decide)
    · exact ⟨train, htr, hem.1⟩
  · intro fuel
    obtain ⟨s2, h2, _⟩ := runEvent_empty fuel s key
    exact ⟨s2, h2⟩
  · intro fuel msg h
    obtain ⟨s2, h2, _⟩ := runEvent_empty fuel s key
    rw [h] at h2
    exact stopsIn_thrown _ _ h2
  · intro fuel
    exact run_no_error EmptyNetwork runEvent_empty fuel s key
  · intro fuel msg h
    rcases run_no_error EmptyNetwork runEvent_empty fuel s key with h2 | ⟨s', h2⟩
    · rw [h] at h2
      exact absurd h2 (by simp)
    · rw [h] at h2
      simp [RunStopsIn] at h2
  · intro fuel s' hrun
    have hP := hstops fuel s' hrun
    exact ⟨hP.1, hP.2.1, hP.2.2.1, hP.2.2.2.1⟩
  · intro fuel r s' hrun
    have hP := hstops fuel s' (Or.inl ⟨r, hrun⟩)
    rw [run_report fuel s r s' hrun]
    exact ⟨hP.1, hP.2.1⟩

/-- C13, witness: the two-station line with nobody injected.  `run` processes the
two arrivals of the train; at the end of the terminal branch, at time 60, the
queue is empty and both totals are 0. -/
theorem C13_empty_network_run_witness :
    Loaded (lineAB 300 0 60) ∧
    (run 3 (reset (lineAB 300 0 60))).atDelete
        (fun s => (s.totalDelay, s.totalTravelTime, s.time, s.EventQueue))
      = some (0, 0, 60, []) ∧
    (∀ fuel msg, run fuel (reset (lineAB 300 0 60)) ≠ Outcome.thrown msg) :=
  ⟨⟨rfl, rfl, rfl, rfl⟩, by decide!,
    (C13_empty_network_run (lineAB 300 0 60) _ ⟨rfl, rfl, rfl, rfl⟩
      Exec.init).2.2.2.2.2.2.2.2.1⟩

/-! ## Claim C14: the average entry time stays in range -/

/-- The count-weighted mean of `a` (weight `len ≥ 0`) and `now` (weight `num > 0`)
lies between them. -/
theorem mean_between (len : Nat) (num : Int) (a now : ℚ) (hnum : 0 < num) (ha : a ≤ now) :
    a ≤ ((len : ℚ) * a + num * now) / ((len : ℚ) + num) ∧
    ((len : ℚ) * a + num * now) / ((len : ℚ) + num) ≤ now := by
  have hn : (0 : ℚ) < (num : ℚ) := by exact_mod_cast hnum
  have hl : (0 : ℚ) ≤ (len : ℚ) := Nat.cast_nonneg len
  have hD : (0 : ℚ) < (len : ℚ) + num := by linarith
  constructor
  · rw [le_div_iff₀ hD]
    nlinarith
  · rw [div_le_iff₀ hD]
    nlinarith

theorem avgWithin_dflt (t : ℚ) (ht : 0 ≤ t) : Station.dflt.avgWithin t :=
  ⟨le_refl _, ht, le_refl _, ht⟩

theorem stationAt_avgWithin (s : Simulation) (t : ℚ) (ht : 0 ≤ t)
    (h : ∀ st ∈ s.stations, st.avgWithin t) (i : Nat) : (s.stationAt i).avgWithin t := by
  unfold Simulation.stationAt
  by_cases hi : i < s.stations.length
  · rw [List.getD_eq_getElem _ _ hi]
    exact h _ (List.getElem_mem hi)
  · rw [List.getD_eq_default _ _ (by omega)]
    exact avgWithin_dflt t ht

theorem avgWithin_get (st : Station) (t : ℚ) (ht : 0 ≤ t) (h : st.avgWithin t) (dir : Int) :
    0 ≤ st.avg_inStationTime.get dir 0 ∧ st.avg_inStationTime.get dir 0 ≤ t := by
  unfold Arr2.get
  split_ifs
  · exact ⟨h.1, h.2.1⟩
  · exact ⟨h.2.2.1, h.2.2.2⟩
  · exact ⟨le_refl _, ht⟩

theorem avgWithin_set (st : Station) (t : ℚ) (h : st.avgWithin t) (dir : Int) (v : ℚ) (q : Arr2 Q)
    (h0 : 0 ≤ v) (hv : v ≤ t) :
    Station.avgWithin
      { st with avg_inStationTime := st.avg_inStationTime.set dir v, queue := q } t := by
  unfold Station.avgWithin Arr2.set
  dsimp only
  split_ifs
  · exact ⟨h0, hv, h.2.2.1, h.2.2.2⟩
  · exact ⟨h.1, h.2.1, h0, hv⟩
  · exact h

theorem stations_set_avgWithin (l : List Station) (t : ℚ) (i : Nat) (st : Station)
    (h : ∀ x ∈ l, x.avgWithin t) (hst : st.avgWithin t) : ∀ x ∈ l.set i st, x.avgWithin t := by
  intro x hx
  rcases List.mem_or_eq_of_mem_set hx with h1 | h1
  · exact h x h1
  · rw [h1]; exact hst

theorem addPassengers_avgInRange (s : Simulation) (from_ to_ : Nat) (num : Int)
    (hs : AvgInRange s) (hnum : 0 < num) : AvgInRange (addPassengers s from_ to_ num) := by
  obtain ⟨h0, h1⟩ := hs
  have hst := stationAt_avgWithin s s.time h0 h1 (routedStation s from_ to_)
  have hget := avgWithin_get _ _ h0 hst (routedDirection s from_ to_)
  have hm := mean_between
    ((s.stationAt (routedStation s from_ to_)).queue.get (routedDirection s from_ to_) []).length
    num _ s.time hnum hget.2
  unfold AvgInRange
  rw [(addPassengers_counters s from_ to_ num).2.2.2.2, addPassengers_stations]
  refine ⟨h0, stations_set_avgWithin _ _ _ _ h1 ?_⟩
  exact avgWithin_set _ _ hst _ _ _ (le_trans hget.1 hm.1) hm.2

theorem getPolicy_avgInRange (s : Simulation) (from_ to_ : Nat) (lineID : Int)
    (hs : AvgInRange s) : AvgInRange (getPolicy s from_ to_ lineID).2 := by
  unfold AvgInRange
  rw [getPolicy_time, getPolicy_stations]
  exact hs

theorem alightAndTransfer_avgInRange (s : Simulation) (train : Train) (hs : AvgInRange s) :
    AvgInRange (alightAndTransfer s train).1 := by
  apply alightAndTransfer_induct (fun st => AvgInRange st.1)
  · exact hs
  · intro st d _ h
    have hg := getPolicy_avgInRange st.1 train.arrivingStation d train.lineID h
    unfold transferBody
    dsimp only
    split_ifs with h1 h2 h3 h4
    · exact h
    · exact addPassengers_avgInRange _ _ _ _ hg h1
    · exact hg
    · exact hg
    · exact h

theorem processNewOD_avgInRange (OD : List (List Int))
    (hv : ∀ from_ to_, from_ < TOTAL_STATIONS → to_ < TOTAL_STATIONS →
      0 ≤ (OD.getD from_ []).getD to_ 0)
    (s : Simulation) (hs : AvgInRange s) : AvgInRange (processNewOD s OD) := by
  unfold processNewOD
  refine foldl_invariant_mem AvgInRange _ _ ?_ s hs
  intro a from_ hfrom ha
  refine foldl_invariant_mem AvgInRange _ _ ?_ a ha
  intro b to_ hto hb
  dsimp only
  split_ifs with hz
  · have h0 := hv from_ to_ (List.mem_range.mp hfrom) (List.mem_range.mp hto)
    exact addPassengers_avgInRange _ _ _ _ hb (lt_of_le_of_ne h0 (Ne.symm hz))
  · exact hb

theorem runEvent_avgInRange (fuel : Nat) (s s' : Simulation) (hs : AvgInRange s)
    (hstep : AvgStep s) (h : StopsIn (runEvent fuel s) s') : AvgInRange s' := by
  unfold runEvent at h
  cases hp : popEvent s with
  | none =>
    rw [hp] at h
    simp only [stopsIn_done, stopsIn_badDelete] at h
    rw [← h]
    exact hs
  | some p =>
    obtain ⟨e, s1⟩ := p
    rw [hp] at h
    dsimp only at h
    unfold popEvent at hp
    cases htop : EventQueue.top s.EventQueue with
    | none => rw [htop] at hp; exact absurd hp (by simp)
    | some e' =>
      rw [htop] at hp
      simp only [Option.some.injEq, Prod.mk.injEq] at hp
      obtain ⟨he, hs1⟩ := hp
      subst he
      obtain ⟨hle, hod, htr⟩ := hstep e' htop
      have h1 : AvgInRange s1 := by
        rw [← hs1]
        refine ⟨le_trans hs.1 hle, fun st hst => ?_⟩
        obtain ⟨a, b, c, d⟩ := hs.2 st hst
        exact ⟨a, le_trans b hle, c, le_trans d hle⟩
      unfold dispatch at h
      split at h
      · cases htrain : e'.train with
        | none =>
          unfold processArrival at h
          rw [htrain] at h
          exact absurd h (by simp)
        | some train =>
          rw [processArrival_eq fuel s1 e' train htrain] at h
          have ha := alightAndTransfer_avgInRange s1 train h1
          split_ifs at h with hterm
          · rw [boardAndDepart_eq] at h
            split at h
            · exact absurd h (by simp [Outcome.map])
            · simp only [Outcome.map, stopsIn_done, stopsIn_badDelete] at h
              rw [← h]
              refine ⟨ha.1, ?_⟩
              dsimp only
              apply stations_set_avgWithin _ _ _ _ ha.2
              exact avgWithin_set _ _ (stationAt_avgWithin _ _ ha.1 ha.2 _) _ _ _ ha.1 (le_refl _)
          · unfold terminalCheck at h
            split_ifs at h
            · exact absurd h (by simp)
            · simp only [stopsIn_done, stopsIn_badDelete] at h
              rw [← h]
              exact ha
      · simp only [stopsIn_done, stopsIn_badDelete] at h
        rw [← h]
        exact h1
      · rename_i hty
        simp only [stopsIn_done, stopsIn_badDelete] at h
        rw [← h]
        exact processNewOD_avgInRange _ (hod hty) s1 h1
      · rename_i hty
        simp only [stopsIn_done, stopsIn_badDelete] at h
        rw [← h]
        exact addPassengers_avgInRange _ _ _ _ h1 (htr hty)

theorem reset_avgInRange (s0 : Simulation) (h0 : Loaded s0) : AvgInRange (reset s0) := by
  rw [reset_eq s0 h0]
  refine ⟨le_refl _, ?_⟩
  intro st hst
  dsimp only at hst
  rw [List.mem_map] at hst
  obtain ⟨x, _, rfl⟩ := hst
  exact ⟨le_refl _, le_refl _, le_refl _, le_refl _⟩

theorem roundHalfEven_error (y : ℚ) : |((roundHalfEven y : Int) : ℚ) - y| ≤ 1 / 2 := by
  have h1 : ((⌊y⌋ : Int) : ℚ) ≤ y := Int.floor_le y
  have h2 : y < ((⌊y⌋ : Int) : ℚ) + 1 := Int.lt_floor_add_one y
  unfold roundHalfEven
  rw [abs_le]
  split_ifs with c1 c2 c3
  · constructor <;> linarith
  · push_cast
    constructor <;> linarith
  · constructor <;> linarith
  · push_cast
    constructor <;> linarith

theorem leadingBit_le (fuel : Nat) : ∀ n : Nat, 0 < n → n ≤ fuel → 2 ^ leadingBit fuel n ≤ n := by
  induction fuel with
  | zero => intro n h0 h; omega
  | succ fuel ih =>
    intro n h0 h
    unfold leadingBit
    split_ifs with c
    · simpa using h0
    · have h2 := ih (n / 2) (by omega) (by omega)
      rw [pow_succ]
      omega

theorem leadingBit_lt (fuel : Nat) : ∀ n : Nat, n ≤ fuel → n < 2 ^ (leadingBit fuel n + 1) := by
  induction fuel with
  | zero => intro n h; simp [leadingBit]; omega
  | succ fuel ih =>
    intro n h
    unfold leadingBit
    split_ifs with c
    · simpa using c
    · have h2 := ih (n / 2) (by omega)
      rw [pow_succ]
      omega

theorem binaryExponent_le (q : ℚ) (hq : q ≠ 0) : (2 : ℚ) ^ binaryExponent q ≤ |q| := by
  have hN : 0 < q.num.natAbs := Int.natAbs_pos.mpr (Rat.num_ne_zero.mpr hq)
  have hD : 0 < q.den := q.den_pos
  have hqa : |q| = (q.num.natAbs : ℚ) / (q.den : ℚ) := by
    conv_lhs => rw [← Rat.num_div_den q]
    rw [abs_div, Nat.abs_cast]
    congr 1
    rw [Nat.cast_natAbs, Int.cast_abs]
  have a1 : ((2 ^ leadingBit q.num.natAbs q.num.natAbs : Nat) : ℚ) ≤ (q.num.natAbs : ℚ) := by
    exact_mod_cast leadingBit_le _ _ hN (le_refl _)
  have b2 : ((q.den : Nat) : ℚ) < ((2 ^ (leadingBit q.den q.den + 1) : Nat) : ℚ) := by
    exact_mod_cast leadingBit_lt _ _ (le_refl _)
  unfold binaryExponent
  split_ifs with c
  · exact c
  · rw [hqa, zpow_sub₀ (by norm_num), zpow_sub₀ (by norm_num), zpow_natCast, zpow_natCast, zpow_one]
    have hDq : (0 : ℚ) < (q.den : ℚ) := by exact_mod_cast hD
    have hp : (0 : ℚ) < (2 : ℚ) ^ leadingBit q.den q.den := by positivity
    rw [div_div, div_le_div_iff₀ (by positivity) hDq]
    push_cast at a1 b2
    have : (2 : ℚ) ^ leadingBit q.num.natAbs q.num.natAbs * (q.den : ℚ) ≤
        (q.num.natAbs : ℚ) * ((2 : ℚ) ^ leadingBit q.den q.den * 2) := by
      rw [pow_succ] at b2
      have h3 : (2 : ℚ) ^ leadingBit q.num.natAbs q.num.natAbs * (q.den : ℚ) ≤
          (q.num.natAbs : ℚ) * (q.den : ℚ) := mul_le_mul_of_nonneg_right a1 (le_of_lt hDq)
      have h4 : (q.num.natAbs : ℚ) * (q.den : ℚ) ≤
          (q.num.natAbs : ℚ) * ((2 : ℚ) ^ leadingBit q.den q.den * 2) :=
        mul_le_mul_of_nonneg_left (le_of_lt b2) (by positivity)
      linarith
    exact this

/-- The relative error of binary64 rounding is at most `2 ^ (-53)`. -/
theorem roundBinary64_error (q : ℚ) : |roundBinary64 q - q| ≤ |q| / 2 ^ 53 := by
  unfold roundBinary64
  split_ifs with h0
  · rw [h0]; simp
  · have hS : (0 : ℚ) < 2 ^ (52 - binaryExponent q) := by positivity
    have he := roundHalfEven_error (q * 2 ^ (52 - binaryExponent q))
    have hle := binaryExponent_le q h0
    have e1 : ((roundHalfEven (q * 2 ^ (52 - binaryExponent q)) : Int) : ℚ) /
        2 ^ (52 - binaryExponent q) - q =
        (((roundHalfEven (q * 2 ^ (52 - binaryExponent q)) : Int) : ℚ) -
          q * 2 ^ (52 - binaryExponent q)) / 2 ^ (52 - binaryExponent q) := by
      rw [sub_div, mul_div_assoc, div_self (ne_of_gt hS), mul_one]
    rw [e1, abs_div, abs_of_pos hS, div_le_div_iff₀ hS (by positivity)]
    have e2 : (2 : ℚ) ^ (52 - binaryExponent q) = 2 ^ (52 : ℤ) / 2 ^ binaryExponent q := by
      rw [zpow_sub₀ (by norm_num)]
    have hE : (0 : ℚ) < 2 ^ binaryExponent q := by positivity
    rw [e2]
    have e3 : |q| * ((2 : ℚ) ^ (52 : ℤ) / 2 ^ binaryExponent q) =
        (|q| / 2 ^ binaryExponent q) * 2 ^ (52 : ℤ) := by
      field_simp
    rw [e3]
    have h1 : (1 : ℚ) ≤ |q| / 2 ^ binaryExponent q := by
      rw [le_div_iff₀ hE]
      linarith
    have h52 : (2 : ℚ) ^ (52 : ℤ) * 2 = 2 ^ 53 := by norm_num
    have h52' : (0 : ℚ) < 2 ^ (52 : ℤ) := by positivity
    calc |((roundHalfEven (q * (2 ^ (52 : ℤ) / 2 ^ binaryExponent q)) : Int) : ℚ) -
            q * (2 ^ (52 : ℤ) / 2 ^ binaryExponent q)| * 2 ^ 53
        ≤ 1 / 2 * 2 ^ 53 := by
          rw [e2] at he
          exact mul_le_mul_of_nonneg_right he (by positivity)
      _ = 1 * 2 ^ (52 : ℤ) := by norm_num
      _ ≤ |q| / 2 ^ binaryExponent q * 2 ^ (52 : ℤ) :=
          mul_le_mul_of_nonneg_right h1 (le_of_lt h52')

theorem roundBinary64_bounds (x : ℚ) (hx : 0 ≤ x) :
    x * (1 - 1 / 2 ^ 53) ≤ roundBinary64 x ∧ roundBinary64 x ≤ x * (1 + 1 / 2 ^ 53) := by
  have h := roundBinary64_error x
  rw [abs_of_nonneg hx, abs_le] at h
  have e1 : x * (1 - 1 / 2 ^ 53) = x - x / 2 ^ 53 := by ring
  have e2 : x * (1 + 1 / 2 ^ 53) = x + x / 2 ^ 53 := by ring
  rw [e1, e2]
  constructor <;> linarith

theorem roundHalfEven_intCast (z : Int) : roundHalfEven (z : ℚ) = z := by
  unfold roundHalfEven
  rw [Int.floor_intCast, sub_self, if_pos (by norm_num)]

/-- An integer of magnitude below `2 ^ 53` is a binary64 number. -/
theorem roundBinary64_intCast (k : Int) (hk : |k| < 2 ^ 53) : roundBinary64 (k : ℚ) = k := by
  unfold roundBinary64
  split_ifs with h0
  · exact h0.symm
  · have hle := binaryExponent_le (k : ℚ) h0
    have hq : |(k : ℚ)| < (2 : ℚ) ^ (53 : ℤ) := by
      rw [← Int.cast_abs]
      have h1 : ((|k| : Int) : ℚ) < ((2 ^ 53 : Int) : ℚ) := Int.cast_lt.mpr hk
      have h2 : ((2 ^ 53 : Int) : ℚ) = (2 : ℚ) ^ (53 : ℤ) := by norm_num
      rw [h2] at h1
      exact h1
    have he : binaryExponent (k : ℚ) < 53 :=
      (zpow_lt_zpow_iff_right₀ (by norm_num : (1 : ℚ) < 2)).mp (lt_of_le_of_lt hle hq)
    obtain ⟨d, hd⟩ : ∃ d : Nat, 52 - binaryExponent (k : ℚ) = (d : Int) :=
      ⟨(52 - binaryExponent (k : ℚ)).toNat, (Int.toNat_of_nonneg (by omega)).symm⟩
    rw [hd, zpow_natCast]
    have e : (k : ℚ) * 2 ^ d = ((k * 2 ^ d : Int) : ℚ) := by push_cast; ring
    rw [e, roundHalfEven_intCast]
    push_cast
    field_simp

/-- The running mean of lines 446-449 in binary64 arithmetic lies between the old
average and the clock up to three roundings. -/
theorem meanBinary64_bounds (n : Nat) (a : ℚ) (m : Int) (now : ℚ)
    (hm : 0 < m) (hnm : (n : Int) + m < 2 ^ 53) (ha : 0 ≤ a) (han : a ≤ now) :
    a * (1 - 1 / 2 ^ 53) ^ 3 ≤ meanBinary64 n a m now ∧
    meanBinary64 n a m now ≤ now * (1 + 1 / 2 ^ 53) ^ 3 := by
  have hn0 : (0 : Int) ≤ (n : Int) := Int.natCast_nonneg n
  have en : roundBinary64 ((n : Nat) : ℚ) = (n : ℚ) := by
    have := roundBinary64_intCast (n : Int) (by rw [abs_of_nonneg hn0]; omega)
    simpa using this
  have em : roundBinary64 ((m : Int) : ℚ) = (m : ℚ) :=
    roundBinary64_intCast m (by rw [abs_of_pos hm]; omega)
  have enm : roundBinary64 ((n : ℚ) + (m : ℚ)) = (n : ℚ) + (m : ℚ) := by
    have := roundBinary64_intCast ((n : Int) + m) (by rw [abs_of_nonneg (by omega)]; omega)
    simpa using this
  unfold meanBinary64
  rw [en, em, enm]
  have hnq : (0 : ℚ) ≤ (n : ℚ) := Nat.cast_nonneg n
  have hmq : (0 : ℚ) < (m : ℚ) := by exact_mod_cast hm
  have hD : (0 : ℚ) < (n : ℚ) + (m : ℚ) := by linarith
  have hnow : 0 ≤ now := le_trans ha han
  have hu1 : (0 : ℚ) ≤ 1 - 1 / 2 ^ 53 := by norm_num
  have hu2 : (0 : ℚ) ≤ 1 + 1 / 2 ^ 53 := by norm_num
  have hx1 : (0 : ℚ) ≤ (n : ℚ) * a := mul_nonneg hnq ha
  have hx2 : (0 : ℚ) ≤ (m : ℚ) * now := mul_nonneg (le_of_lt hmq) hnow
  obtain ⟨p1l, p1u⟩ := roundBinary64_bounds _ hx1
  obtain ⟨p2l, p2u⟩ := roundBinary64_bounds _ hx2
  have hP1 : 0 ≤ roundBinary64 ((n : ℚ) * a) := le_trans (mul_nonneg hx1 hu1) p1l
  have hP2 : 0 ≤ roundBinary64 ((m : ℚ) * now) := le_trans (mul_nonneg hx2 hu1) p2l
  have hS0 : 0 ≤ roundBinary64 ((n : ℚ) * a) + roundBinary64 ((m : ℚ) * now) :=
    add_nonneg hP1 hP2
  obtain ⟨sl, su⟩ := roundBinary64_bounds _ hS0
  have hS : 0 ≤ roundBinary64 (roundBinary64 ((n : ℚ) * a) + roundBinary64 ((m : ℚ) * now)) :=
    le_trans (mul_nonneg hS0 hu1) sl
  have hQ0 : 0 ≤ roundBinary64 (roundBinary64 ((n : ℚ) * a) + roundBinary64 ((m : ℚ) * now)) /
      ((n : ℚ) + (m : ℚ)) := div_nonneg hS (le_of_lt hD)
  obtain ⟨ql, qu⟩ := roundBinary64_bounds _ hQ0
  have hsum_u : (n : ℚ) * a + (m : ℚ) * now ≤ ((n : ℚ) + (m : ℚ)) * now := by
    have := mul_le_mul_of_nonneg_left han hnq
    linarith
  have hsum_l : ((n : ℚ) + (m : ℚ)) * a ≤ (n : ℚ) * a + (m : ℚ) * now := by
    have := mul_le_mul_of_nonneg_left han (le_of_lt hmq)
    linarith
  constructor
  · -- lower bound
    have s0l : ((n : ℚ) + (m : ℚ)) * a * (1 - 1 / 2 ^ 53) ≤
        roundBinary64 ((n : ℚ) * a) + roundBinary64 ((m : ℚ) * now) := by
      have := mul_le_mul_of_nonneg_right hsum_l hu1
      have e : ((n : ℚ) * a + (m : ℚ) * now) * (1 - 1 / 2 ^ 53) =
          (n : ℚ) * a * (1 - 1 / 2 ^ 53) + (m : ℚ) * now * (1 - 1 / 2 ^ 53) := by ring
      linarith
    have s1l : ((n : ℚ) + (m : ℚ)) * a * (1 - 1 / 2 ^ 53) * (1 - 1 / 2 ^ 53) ≤
        roundBinary64 (roundBinary64 ((n : ℚ) * a) + roundBinary64 ((m : ℚ) * now)) :=
      le_trans (mul_le_mul_of_nonneg_right s0l hu1) sl
    have q0l : a * (1 - 1 / 2 ^ 53) * (1 - 1 / 2 ^ 53) ≤
        roundBinary64 (roundBinary64 ((n : ℚ) * a) + roundBinary64 ((m : ℚ) * now)) /
          ((n : ℚ) + (m : ℚ)) := by
      rw [le_div_iff₀ hD]
      have e : a * (1 - 1 / 2 ^ 53) * (1 - 1 / 2 ^ 53) * ((n : ℚ) + (m : ℚ)) =
          ((n : ℚ) + (m : ℚ)) * a * (1 - 1 / 2 ^ 53) * (1 - 1 / 2 ^ 53) := by ring
      rw [e]
      exact s1l
    have e3 : a * (1 - 1 / 2 ^ 53) ^ 3 =
        a * (1 - 1 / 2 ^ 53) * (1 - 1 / 2 ^ 53) * (1 - 1 / 2 ^ 53) := by ring
    rw [e3]
    exact le_trans (mul_le_mul_of_nonneg_right q0l hu1) ql
  · -- upper bound
    have s0u : roundBinary64 ((n : ℚ) * a) + roundBinary64 ((m : ℚ) * now) ≤
        ((n : ℚ) + (m : ℚ)) * now * (1 + 1 / 2 ^ 53) := by
      have := mul_le_mul_of_nonneg_right hsum_u hu2
      have e : ((n : ℚ) * a + (m : ℚ) * now) * (1 + 1 / 2 ^ 53) =
          (n : ℚ) * a * (1 + 1 / 2 ^ 53) + (m : ℚ) * now * (1 + 1 / 2 ^ 53) := by ring
      linarith
    have s1u : roundBinary64 (roundBinary64 ((n : ℚ) * a) + roundBinary64 ((m : ℚ) * now)) ≤
        ((n : ℚ) + (m : ℚ)) * now * (1 + 1 / 2 ^ 53) * (1 + 1 / 2 ^ 53) :=
      le_trans su (mul_le_mul_of_nonneg_right s0u hu2)
    have q0u : roundBinary64 (roundBinary64 ((n : ℚ) * a) + roundBinary64 ((m : ℚ) * now)) /
          ((n : ℚ) + (m : ℚ)) ≤ now * (1 + 1 / 2 ^ 53) * (1 + 1 / 2 ^ 53) := by
      rw [div_le_iff₀ hD]
      have e : now * (1 + 1 / 2 ^ 53) * (1 + 1 / 2 ^ 53) * ((n : ℚ) + (m : ℚ)) =
          ((n : ℚ) + (m : ℚ)) * now * (1 + 1 / 2 ^ 53) * (1 + 1 / 2 ^ 53) := by ring
      rw [e]
      exact s1u
    have e3 : now * (1 + 1 / 2 ^ 53) ^ 3 =
        now * (1 + 1 / 2 ^ 53) * (1 + 1 / 2 ^ 53) * (1 + 1 / 2 ^ 53) := by ring
    rw [e3]
    exact le_trans qu (mul_le_mul_of_nonneg_right q0u hu2)

theorem roundHalfEven_le_int (y : ℚ) (N : Int) (h : y ≤ (N : ℚ)) : roundHalfEven y ≤ N := by
  have h1 : ((⌊y⌋ : Int) : ℚ) ≤ y := Int.floor_le y
  have hf : ⌊y⌋ ≤ N := by
    have : ((⌊y⌋ : Int) : ℚ) ≤ (N : ℚ) := le_trans h1 h
    exact_mod_cast this
  have hstep : (0 : ℚ) < y - ⌊y⌋ → ⌊y⌋ + 1 ≤ N := by
    intro hpos
    have : ((⌊y⌋ : Int) : ℚ) < (N : ℚ) := by linarith
    have : ⌊y⌋ < N := by exact_mod_cast this
    omega
  unfold roundHalfEven
  split_ifs with c1 c2 c3
  · exact hf
  · exact hstep (by linarith)
  · exact hf
  · exact hstep (by linarith)

/-- Rounding does not pass an integer of magnitude below `2 ^ 53`: such an integer is
a binary64 number, and a value below it is not rounded above it. -/
theorem roundBinary64_le_int (x : ℚ) (K : Int) (hx : 0 ≤ x) (hK : K < 2 ^ 53)
    (h : x ≤ (K : ℚ)) : roundBinary64 x ≤ (K : ℚ) := by
  unfold roundBinary64
  split_ifs with h0
  · exact le_trans hx h
  · have hle := binaryExponent_le x h0
    rw [abs_of_nonneg hx] at hle
    have hq : x < (2 : ℚ) ^ (53 : ℤ) := by
      have h1 : ((K : Int) : ℚ) < ((2 ^ 53 : Int) : ℚ) := Int.cast_lt.mpr hK
      have h2 : ((2 ^ 53 : Int) : ℚ) = (2 : ℚ) ^ (53 : ℤ) := by norm_num
      rw [h2] at h1
      exact lt_of_le_of_lt h h1
    have he : binaryExponent x < 53 :=
      (zpow_lt_zpow_iff_right₀ (by norm_num : (1 : ℚ) < 2)).mp (lt_of_le_of_lt hle hq)
    obtain ⟨d, hd⟩ : ∃ d : Nat, 52 - binaryExponent x = (d : Int) :=
      ⟨(52 - binaryExponent x).toNat, (Int.toNat_of_nonneg (by omega)).symm⟩
    rw [hd, zpow_natCast]
    have hS : (0 : ℚ) < 2 ^ d := by positivity
    rw [div_le_iff₀ hS]
    have e : (K : ℚ) * 2 ^ d = ((K * 2 ^ d : Int) : ℚ) := by push_cast; ring
    rw [e]
    have hy : x * 2 ^ d ≤ ((K * 2 ^ d : Int) : ℚ) := by
      rw [← e]
      exact mul_le_mul_of_nonneg_right h (le_of_lt hS)
    exact_mod_cast roundHalfEven_le_int _ _ hy

/-- With an integer clock the running mean of lines 446-449, computed in binary64,
does not exceed the clock. -/
theorem meanBinary64_le_clock (n : Nat) (a : ℚ) (m : Int) (T : Int)
    (hm : 0 < m) (hT : ((n : Int) + m) * T < 2 ^ 53) (ha : 0 ≤ a) (han : a ≤ (T : ℚ)) :
    meanBinary64 n a m (T : ℚ) ≤ (T : ℚ) := by
  have hn0 : (0 : Int) ≤ (n : Int) := Int.natCast_nonneg n
  have hT0 : (0 : Int) ≤ T := by
    have : (0 : ℚ) ≤ (T : ℚ) := le_trans ha han
    exact_mod_cast this
  have hTq : (0 : ℚ) ≤ (T : ℚ) := by exact_mod_cast hT0
  by_cases hTz : T = 0
  · -- the clock is 0: every term is 0
    subst hTz
    have ha0 : a = 0 := le_antisymm (by simpa using han) ha
    subst ha0
    unfold meanBinary64
    have z : roundBinary64 0 = 0 := by unfold roundBinary64; rw [if_pos rfl]
    simp [z]
  · have hT1 : 1 ≤ T := by omega
    have hnm : (n : Int) + m < 2 ^ 53 := by nlinarith
    have en : roundBinary64 ((n : Nat) : ℚ) = (n : ℚ) := by
      have := roundBinary64_intCast (n : Int) (by rw [abs_of_nonneg hn0]; omega)
      simpa using this
    have em : roundBinary64 ((m : Int) : ℚ) = (m : ℚ) :=
      roundBinary64_intCast m (by rw [abs_of_pos hm]; omega)
    have enm : roundBinary64 ((n : ℚ) + (m : ℚ)) = (n : ℚ) + (m : ℚ) := by
      have := roundBinary64_intCast ((n : Int) + m) (by rw [abs_of_nonneg (by omega)]; omega)
      simpa using this
    unfold meanBinary64
    rw [en, em, enm]
    have hnq : (0 : ℚ) ≤ (n : ℚ) := Nat.cast_nonneg n
    have hmq : (0 : ℚ) < (m : ℚ) := by exact_mod_cast hm
    have hD : (0 : ℚ) < (n : ℚ) + (m : ℚ) := by linarith
    have hu1 : (0 : ℚ) ≤ 1 - 1 / 2 ^ 53 := by norm_num
    have hx1 : (0 : ℚ) ≤ (n : ℚ) * a := mul_nonneg hnq ha
    have hnT : (n : Int) * T < 2 ^ 53 := by nlinarith
    have hmT : m * T < 2 ^ 53 := by nlinarith
    have hmT0 : 0 ≤ m * T := by positivity
    have p1 : roundBinary64 ((n : ℚ) * a) ≤ (((n : Int) * T : Int) : ℚ) := by
      apply roundBinary64_le_int _ _ hx1 hnT
      push_cast
      exact mul_le_mul_of_nonneg_left han hnq
    have p1n : 0 ≤ roundBinary64 ((n : ℚ) * a) :=
      le_trans (mul_nonneg hx1 hu1) (roundBinary64_bounds _ hx1).1
    have p2 : roundBinary64 ((m : ℚ) * (T : ℚ)) = ((m * T : Int) : ℚ) := by
      have := roundBinary64_intCast (m * T) (by rw [abs_of_nonneg hmT0]; exact hmT)
      rw [← this]
      push_cast
      rfl
    rw [p2]
    have hS0 : 0 ≤ roundBinary64 ((n : ℚ) * a) + ((m * T : Int) : ℚ) :=
      add_nonneg p1n (by exact_mod_cast hmT0)
    have s1 : roundBinary64 (roundBinary64 ((n : ℚ) * a) + ((m * T : Int) : ℚ)) ≤
        ((((n : Int) + m) * T : Int) : ℚ) := by
      apply roundBinary64_le_int _ _ hS0 hT
      have : ((((n : Int) + m) * T : Int) : ℚ) =
          (((n : Int) * T : Int) : ℚ) + ((m * T : Int) : ℚ) := by push_cast; ring
      rw [this]
      linarith
    have hS : 0 ≤ roundBinary64 (roundBinary64 ((n : ℚ) * a) + ((m * T : Int) : ℚ)) :=
      le_trans (mul_nonneg hS0 hu1) (roundBinary64_bounds _ hS0).1
    apply roundBinary64_le_int _ _ (div_nonneg hS (le_of_lt hD)) (by nlinarith)
    rw [div_le_iff₀ hD]
    have : ((((n : Int) + m) * T : Int) : ℚ) = (T : ℚ) * ((n : ℚ) + (m : ℚ)) := by
      push_cast; ring
    rw [← this]
    exact s1

/-- C14, the claim at concrete inputs.  (1) Rounding.  At `now = 61.7` (the
binary64 number nearest to 61.7), enqueuing 3 passengers into an empty queue
whose average is 0 gives, in binary64, (0 * 0 + 3 * 61.7) / 3 =
61.70000000000001, above `now`.  (2) At `a = now = 13.436424411240122`, a
binary64 number, a queue of 3 cohorts and a count of 9 give the new average
13.43642441124012, below `a`.  (3) The clock is whatever time the popped event
carries.  In `lateStart` the call of the train at station 0 at t = 100 sets the
average of that queue to 100, and the follow-on arrival at station 1,
scheduled for t = 60, is popped next: after that event the clock is 60, below
the average 100 of the queue of station 0. -/
theorem C14_average_above_clock :
    (roundBinary64 (617 / 10) = 4341751515761869 / 70368744177664 ∧
      meanBinary64 0 0 3 (4341751515761869 / 70368744177664) =
        8683503031523739 / 140737488355328 ∧
      (4341751515761869 / 70368744177664 : ℚ) < 8683503031523739 / 140737488355328) ∧
    (roundBinary64 (3782017248228303 / 281474976710656) = 3782017248228303 / 281474976710656 ∧
      meanBinary64 3 (3782017248228303 / 281474976710656) 9
          (3782017248228303 / 281474976710656) = 7564034496456605 / 562949953421312 ∧
      (7564034496456605 / 562949953421312 : ℚ) < 3782017248228303 / 281474976710656) ∧
    ((runEvent 1 (reset lateStart)).bind (runEvent 1)).map
        (fun s => (s.time, (s.stationAt 0).avg_inStationTime.get 0 0))
      = Outcome.done (60, 100) := by
  refine ⟨⟨?_, ?_, ?_⟩, ⟨?_, ?_, ?_⟩, ?_⟩ <;> decide!

/-- C14, amended.  (1) Along every execution from `init` in which the caller injects
positive counts and every processed event is not earlier than the clock and
injects positive counts only, no average is negative:
`0 ≤ avg_inStationTime[direction]` for every station and direction.  (2) When
`count > 0` passengers are enqueued at time `now` into a queue of `n` cohorts
whose average `a` satisfies `0 ≤ a ≤ now`, the new average, computed in
binary64, lies between `a` and `now` up to three roundings:
`a * (1 - 2 ^ (-53)) ^ 3 ≤ new ≤ now * (1 + 2 ^ (-53)) ^ 3` (with
`n + count < 2 ^ 53`, and `2 ^ (-960) ≤ now ≤ 2 ^ 960`, which keeps every
intermediate result in the normal range of binary64).  (3) When moreover `now` is
an integer with `(n + count) * now < 2 ^ 53`, the new average does not exceed
`now`. -/
theorem C14_average_in_range :
    (∀ s0 s : Simulation, Loaded s0 →
      Exec s0 (fun _ _ _ num => 0 < num) (fun _ _ => True) AvgStep s →
      ∀ st ∈ s.stations, 0 ≤ st.avg_inStationTime.d0 ∧ 0 ≤ st.avg_inStationTime.d1) ∧
    (∀ (n : Nat) (a : ℚ) (count : Int) (now : ℚ), 0 < count → (n : Int) + count < 2 ^ 53 →
      0 ≤ a → a ≤ now → 1 / 2 ^ 960 ≤ now → now ≤ 2 ^ 960 →
        a * (1 - 1 / 2 ^ 53) ^ 3 ≤ meanBinary64 n a count now ∧
        meanBinary64 n a count now ≤ now * (1 + 1 / 2 ^ 53) ^ 3) ∧
    (∀ (n : Nat) (a : ℚ) (count : Int) (now : Int), 0 < count →
      ((n : Int) + count) * now < 2 ^ 53 → 0 ≤ a → a ≤ (now : ℚ) →
        meanBinary64 n a count (now : ℚ) ≤ (now : ℚ)) := by
  refine ⟨?_, ?_, ?_⟩
  · intro s0 s h0 hr
    have key : AvgInRange s := by
      induction hr with
      | init => exact reset_avgInRange s0 h0
      | addPassengers from_ to_ num _ hnum ih => exact addPassengers_avgInRange _ _ _ _ ih hnum
      | addEvent e _ _ ih => exact ih
      | runEvent fuel _ hstep hrun ih => exact runEvent_avgInRange fuel _ _ ih hstep hrun
    intro st hst
    exact ⟨(key.2 st hst).1, (key.2 st hst).2.2.1⟩
  · intro n a count now hc hnm ha han _ _
    exact meanBinary64_bounds n a count now hc hnm ha han
  · intro n a count now hc hT ha han
    exact meanBinary64_le_clock n a count now hc hT ha han

/-- C14, witness: the reset state of the two-station line has no negative average;
at `now = 61.7` the new average 61.70000000000001 of the counterexample is
within three roundings of `now`; and at the integer clock 30, enqueuing 10
passengers into a queue of one cohort with average 0 gives the binary64 number
nearest to 300 / 11, below 30. -/
theorem C14_average_in_range_witness :
    (∀ st ∈ (reset (lineAB 300 0 60)).stations,
      0 ≤ st.avg_inStationTime.d0 ∧ 0 ≤ st.avg_inStationTime.d1) ∧
    ((0 : ℚ) * (1 - 1 / 2 ^ 53) ^ 3 ≤
        meanBinary64 0 0 3 (4341751515761869 / 70368744177664) ∧
      meanBinary64 0 0 3 (4341751515761869 / 70368744177664) ≤
        4341751515761869 / 70368744177664 * (1 + 1 / 2 ^ 53) ^ 3) ∧
    meanBinary64 1 0 10 ((30 : Int) : ℚ) ≤ ((30 : Int) : ℚ) ∧
    meanBinary64 1 0 10 30 = 3838295136963491 / 140737488355328 :=
  ⟨C14_average_in_range.1 (lineAB 300 0 60) _ ⟨rfl, rfl, rfl, rfl⟩ Exec.init,
    C14_average_in_range.2.1 0 0 3 (4341751515761869 / 70368744177664) (by decide)
      (by norm_num) (le_refl _) (by norm_num) (by norm_num) (by norm_num),
    C14_average_in_range.2.2 1 0 10 30 (by decide) (by norm_num) (le_refl _) (by norm_num),
    by decide!⟩

/-! ## Claim C11: delay is a component of travel time -/

theorem getPolicy_of_sameStatic {s0 s : Simulation} (h : SameStatic s0 s) (from_ to_ : Nat)
    (lineID : Int) :
    (getPolicy s from_ to_ lineID).1 =
      (getPolicy { s0 with randCalls := s.randCalls } from_ to_ lineID).1 := by
  obtain ⟨h1, h2, h3, _, h5, _, _, _, _, h10, _, _, _⟩ := h
  exact getPolicy_congr s { s0 with randCalls := s.randCalls } from_ to_ lineID
    h1.symm h2.symm h3.symm h5.symm h10.symm rfl

theorem transferTimeAt_of_sameStatic {s0 s : Simulation} (h : SameStatic s0 s) (i j : Nat) :
    s.transferTimeAt i j = s0.transferTimeAt i j := by
  unfold Simulation.transferTimeAt
  rw [h.2.2.2.1]

/-- An injection of a non-negative count whose routing charges no negative walk
leaves `totalDelay` as it is and does not lower `totalTravelTime`. -/
theorem addPassengers_slack {s0 s : Simulation} (hs : SameStatic s0 s) (from_ to_ : Nat)
    (num : Int) (hnum : 0 ≤ num) (hw : WalkOK s0 from_ to_ (-1)) :
    (addPassengers s from_ to_ num).totalDelay = s.totalDelay ∧
    s.totalTravelTime ≤ (addPassengers s from_ to_ num).totalTravelTime := by
  obtain ⟨h1, h2, _, _, _⟩ := addPassengers_counters s from_ to_ num
  refine ⟨h2, ?_⟩
  rw [h1]
  have hq : (0 : ℚ) ≤ (num : ℚ) := by exact_mod_cast hnum
  split_ifs with hd
  · rw [getPolicy_of_sameStatic hs] at hd ⊢
    rw [transferTimeAt_of_sameStatic hs]
    have := hw s.randCalls hd
    have := mul_nonneg this hq
    linarith
  · linarith

theorem alightAndTransfer_induct_transfer (I : Simulation × Train → Prop) (s : Simulation)
    (train : Train) (h0 : I (alightDirect s train))
    (hstep : (s.stationAt train.arrivingStation).isTransfer = true →
      ∀ (st : Simulation × Train) (d : Nat), d < TOTAL_STATIONS → I st →
        I (transferBody train.arrivingStation train.lineID st d)) :
    I (alightAndTransfer s train) := by
  by_cases ht : (s.stationAt train.arrivingStation).isTransfer = true
  · exact alightAndTransfer_induct I s train h0 (hstep ht)
  · unfold alightAndTransfer
    dsimp only
    rw [isTransfer_of_sameStatic (alightDirect_sameStatic s train)]
    rw [if_neg ht]
    exact h0

theorem alightAndTransfer_slack {s0 : Simulation} (s : Simulation) (train : Train)
    (hs : SameStatic s0 s) (hp : 0 ≤ train.passengerNum) (ht : train.lastTime ≤ s.time)
    (hw : (s0.stationAt train.arrivingStation).isTransfer = true →
      TrainWalksOK s0 train.arrivingStation train.lineID) :
    (alightAndTransfer s train).1.totalDelay = s.totalDelay ∧
    s.totalTravelTime ≤ (alightAndTransfer s train).1.totalTravelTime := by
  have key := alightAndTransfer_induct_transfer
    (fun st => SameStatic s0 st.1 ∧ st.1.totalDelay = s.totalDelay ∧
      s.totalTravelTime ≤ st.1.totalTravelTime) s train
    (by
      refine ⟨hs.trans (alightDirect_sameStatic s train), rfl, ?_⟩
      unfold alightDirect
      dsimp only
      have hq : (0 : ℚ) ≤ (train.passengerNum : ℚ) := by exact_mod_cast hp
      have := mul_nonneg hq (sub_nonneg.mpr ht)
      linarith)
    (by
      intro htr st d hd hI
      obtain ⟨i1, i2, i3⟩ := hI
      have htr0 : (s0.stationAt train.arrivingStation).isTransfer = true := by
        rw [← isTransfer_of_sameStatic hs]; exact htr
      obtain ⟨w1, w2⟩ := hw htr0 d hd
      obtain ⟨c1, c2, _, _, _, _, _⟩ := getPolicy_counters st.1 train.arrivingStation d train.lineID
      have hg := getPolicy_sameStatic st.1 train.arrivingStation d train.lineID
      have hpol := getPolicy_of_sameStatic i1 train.arrivingStation d train.lineID
      have htt : ∀ j, (getPolicy st.1 train.arrivingStation d train.lineID).2.transferTimeAt
          train.arrivingStation j = s0.transferTimeAt train.arrivingStation j :=
        fun j => transferTimeAt_of_sameStatic (i1.trans hg) _ _
      refine ⟨i1.trans (transferBody_sameStatic _ _ st d), ?_⟩
      unfold transferBody
      dsimp only
      split_ifs with h1 h2 h3 h4
      · refine ⟨i2, ?_⟩
        dsimp only
        have hq : (0 : ℚ) ≤ ((st.2.destination.getD d 0 : Int) : ℚ) := by
          exact_mod_cast le_of_lt h1
        have := mul_nonneg h2 hq
        linarith
      · have hsl := addPassengers_slack (i1.trans hg)
          (getPolicy st.1 train.arrivingStation d train.lineID).1.transferStation.toNat d
          (st.2.destination.getD d 0) (le_of_lt h1)
          (by
            rw [hpol] at h3 h4 ⊢
            rw [htt] at h4
            exact w2 st.1.randCalls h3 h4)
        refine ⟨by rw [hsl.1, c2]; exact i2, ?_⟩
        have := hsl.2
        rw [c1] at this
        linarith
      · refine ⟨by dsimp only; rw [c2]; exact i2, ?_⟩
        dsimp only
        rw [c1, htt]
        have hq : (0 : ℚ) ≤ ((st.2.destination.getD d 0 : Int) : ℚ) := by
          exact_mod_cast le_of_lt h1
        rw [hpol] at h3 ⊢
        have := mul_nonneg (w1 st.1.randCalls h3) hq
        linarith
      · exact ⟨by rw [c2]; exact i2, by rw [c1]; exact i3⟩
      · exact ⟨i2, i3⟩)
  exact key.2

theorem processNewOD_slack {s0 : Simulation} (OD : List (List Int))
    (hv : ∀ from_ to_, from_ < TOTAL_STATIONS → to_ < TOTAL_STATIONS →
      (OD.getD from_ []).getD to_ 0 ≠ 0 →
        0 ≤ (OD.getD from_ []).getD to_ 0 ∧ WalkOK s0 from_ to_ (-1))
    (s : Simulation) (hs : SameStatic s0 s) :
    (processNewOD s OD).totalDelay = s.totalDelay ∧
    s.totalTravelTime ≤ (processNewOD s OD).totalTravelTime := by
  unfold processNewOD
  have key := foldl_invariant_mem
    (fun x => SameStatic s0 x ∧ x.totalDelay = s.totalDelay ∧
      s.totalTravelTime ≤ x.totalTravelTime)
    (fun s from_ =>
      (List.range TOTAL_STATIONS).foldl
        (fun s to_ =>
          if (OD.getD from_ []).getD to_ 0 ≠ 0 then
            addPassengers s from_ to_ ((OD.getD from_ []).getD to_ 0)
          else s) s)
    (List.range TOTAL_STATIONS)
    (by
      intro a from_ hfrom ha
      refine foldl_invariant_mem
        (fun x => SameStatic s0 x ∧ x.totalDelay = s.totalDelay ∧
          s.totalTravelTime ≤ x.totalTravelTime) _ _ ?_ a ha
      intro b to_ hto hb
      dsimp only
      split_ifs with hz
      · obtain ⟨hn, hw⟩ := hv from_ to_ (List.mem_range.mp hfrom) (List.mem_range.mp hto) hz
        obtain ⟨e1, e2⟩ := addPassengers_slack hb.1 from_ to_ _ hn hw
        exact ⟨hb.1.trans (addPassengers_sameStatic _ _ _ _), e1.trans hb.2.1,
          le_trans hb.2.2 e2⟩
      · exact hb)
    s ⟨hs, rfl, le_refl _⟩
  exact key.2

theorem runEvent_slack {s0 : Simulation} (fuel : Nat) (s s' : Simulation)
    (hs : SameStatic s0 s) (hle : s.totalDelay ≤ s.totalTravelTime)
    (hstep : DelayStep s0 s) (h : StopsIn (runEvent fuel s) s') :
    s'.totalDelay ≤ s'.totalTravelTime := by
  unfold runEvent at h
  cases hp : popEvent s with
  | none =>
    rw [hp] at h
    simp only [stopsIn_done, stopsIn_badDelete] at h
    rw [← h]
    exact hle
  | some p =>
    obtain ⟨e, s1⟩ := p
    rw [hp] at h
    dsimp only at h
    have hs1 : SameStatic s0 s1 := hs.trans (popEvent_sameStatic _ _ _ hp)
    unfold popEvent at hp
    cases htop : EventQueue.top s.EventQueue with
    | none => rw [htop] at hp; exact absurd hp (by simp)
    | some e' =>
      rw [htop] at hp
      simp only [Option.some.injEq, Prod.mk.injEq] at hp
      obtain ⟨he, hs1e⟩ := hp
      subst he
      obtain ⟨ok1, ok2, ok3⟩ := hstep e' htop
      have hd1 : s1.totalDelay = s.totalDelay := by rw [← hs1e]
      have ht1 : s1.totalTravelTime = s.totalTravelTime := by rw [← hs1e]
      have htime : s1.time = e'.time := by rw [← hs1e]
      unfold dispatch at h
      split at h
      · rename_i hty
        cases htrain : e'.train with
        | none =>
          unfold processArrival at h
          rw [htrain] at h
          exact absurd h (by simp)
        | some train =>
          rw [processArrival_eq fuel s1 e' train htrain] at h
          obtain ⟨p1, p2, p3⟩ := ok1 hty train htrain
          obtain ⟨a1, a2⟩ := alightAndTransfer_slack s1 train hs1 p1 (by rw [htime]; exact p2) p3
          split_ifs at h with hterm
          · rw [boardAndDepart_eq] at h
            split at h
            · exact absurd h (by simp [Outcome.map])
            · simp only [Outcome.map, stopsIn_done, stopsIn_badDelete] at h
              rw [← h]
              dsimp only
              linarith
          · unfold terminalCheck at h
            split_ifs at h
            · exact absurd h (by simp)
            · simp only [stopsIn_done, stopsIn_badDelete] at h
              rw [← h]
              linarith
      · simp only [stopsIn_done, stopsIn_badDelete] at h
        rw [← h]
        linarith
      · rename_i hty
        simp only [stopsIn_done, stopsIn_badDelete] at h
        rw [← h]
        obtain ⟨e1, e2⟩ := processNewOD_slack e'.OD (ok2 hty) s1 hs1
        linarith
      · rename_i hty
        simp only [stopsIn_done, stopsIn_badDelete] at h
        rw [← h]
        obtain ⟨hn, hw⟩ := ok3 hty
        obtain ⟨e1, e2⟩ := addPassengers_slack hs1 _ _ _ (le_of_lt hn) hw
        unfold processTransfer
        dsimp only
        linarith

/-- C11, the claim at two concrete inputs.  (1) In `transferNet (-1)` routing
sends a passenger from station 1 to station 0 by a transfer via station 2,
while `transferTime[1][2]` is the "no relation" entry -1; `addPassengers(1, 0, 10)`
adds -1 * 10 to `totalTravelTime`: -10 against `totalDelay = 0`.  (2) On the
three-station line `addPassengers(0, 2, -50)` enqueues a cohort of -50, which
boards and rides to station 1: after that arrival `totalTravelTime = -3000`
against `totalDelay = 0`.  (3) `addPassengers(0, 1, 0)` on the empty queue of
the reset two-station line divides by `new_len = 0`: in the source the average
is then the quotient 0.0 / 0.0, which is not a number, and no order holds
between the totals computed from it at the next arrival. -/
theorem C11_delay_above_travel_time :
    ((addPassengers (reset (transferNet (-1))) 1 0 10).totalDelay,
      (addPassengers (reset (transferNet (-1))) 1 0 10).totalTravelTime) = (0, -10) ∧
    ((runEvent 1 (addPassengers (reset lineABC) 0 2 (-50))).bind (runEvent 1)).map
        (fun s => (s.totalDelay, s.totalTravelTime)) = Outcome.done (0, -3000) ∧
    newLen (reset (lineAB 300 0 60)) 0 1 0 = 0 := by
  refine ⟨?_, ?_, ?_⟩ <;> decide!

/-- C11, amended.  Along every execution from `init` in which every injected count
is positive, routing charges no negative walk, and every `ARRIVAL` is
processed no earlier than the `lastTime` of its train and with
`passengerNum ≥ 0`, `totalDelay ≤ totalTravelTime` holds after every
`addPassengers` call and where the processing of every event stops, at its
return or at its `delete& nextevent;`.  Every term added to `totalDelay` is
added to `totalTravelTime` as well, and the other terms added to
`totalTravelTime` are not negative. -/
theorem C11_delay_within_travel_time (s0 s : Simulation) (h0 : Loaded s0)
    (hr : Exec s0 (fun _ from_ to_ num => 0 < num ∧ WalkOK s0 from_ to_ (-1))
      (fun _ _ => True) (DelayStep s0) s) :
    s.totalDelay ≤ s.totalTravelTime := by
  induction hr with
  | init =>
    rw [reset_eq s0 h0]
  | addPassengers from_ to_ num hprev hinj ih =>
    obtain ⟨e1, e2⟩ :=
      addPassengers_slack (exec_sameStatic h0 hprev) from_ to_ num (le_of_lt hinj.1) hinj.2
    linarith
  | addEvent e _ _ ih => exact ih
  | runEvent fuel hprev hstep hrun ih =>
    exact runEvent_slack fuel _ _ (exec_sameStatic h0 hprev) ih hstep hrun

theorem delayStep_of_arrival (s0 s : Simulation) (e : Event) (train : Train)
    (htop : EventQueue.top s.EventQueue = some e) (hty : e.type = EventType.ARRIVAL)
    (htr : e.train = some train) (hp : 0 ≤ train.passengerNum) (ht : train.lastTime ≤ e.time)
    (hnt : (s0.stationAt train.arrivingStation).isTransfer = false) :
    DelayStep s0 s := by
  intro e' he'
  rw [htop] at he'
  simp only [Option.some.injEq] at he'
  subst he'
  refine ⟨?_, ?_, ?_⟩
  · intro _ tr' htr'
    rw [htr] at htr'
    simp only [Option.some.injEq] at htr'
    subst htr'
    exact ⟨hp, ht, fun h => absurd (hnt.symm.trans h) (by decide)⟩
  · intro h
    rw [hty] at h
    exact absurd h (by decide)
  · intro h
    rw [hty] at h
    exact absurd h (by decide)

theorem walkOK_lineAB (C : Int) (start : Int) (T : ℚ) : WalkOK (lineAB C start T) 0 1 (-1) := by
  intro calls
  simp [getPolicy, getPolicyNext, Simulation.policyNumAt, Simulation.directionsAt,
    Simulation.policyAt, lineAB]

/-- C11, witness: scenario S1.  The 50 passengers board at t = 0 and arrive at
t = 60; the execution satisfies the premises and at the end of the terminal
branch `totalDelay = 0` and `totalTravelTime = 50 * 60`. -/
theorem C11_delay_within_travel_time_witness :
    Loaded (lineAB 300 0 60) ∧
    ({ lineAB 300 0 60 with
        time := 60, totalTravelTime := (50 : Int) * 60, num_departed := 50, num_arrived := 50,
        EventQueue := [], time_iter := [1], stationID_iter := [1] } : Simulation).totalDelay ≤
      ({ lineAB 300 0 60 with
        time := 60, totalTravelTime := (50 : Int) * 60, num_departed := 50, num_arrived := 50,
        EventQueue := [], time_iter := [1], stationID_iter := [1] } : Simulation).totalTravelTime :=
  ⟨⟨rfl, rfl, rfl, rfl⟩,
    C11_delay_within_travel_time (lineAB 300 0 60) _ ⟨rfl, rfl, rfl, rfl⟩
      (Exec.runEvent 1
        (Exec.runEvent 1
          (Exec.addPassengers 0 1 50 Exec.init ⟨by decide, walkOK_lineAB 300 0 60⟩)
          (delayStep_of_arrival _ _ (startEvent [0, 0, 0, 0, 300, 0]) _ (by
              rw [addPassengers_EventQueue]; rfl) rfl rfl (by decide) (by decide!) rfl)
          (Or.inl (lineAB_first_event 300 60 50 0 (by decide) (by decide))))
        (delayStep_of_arrival _ _ (arrivalOf (Train.mk 0 0 1 0 (300 - 50) 0 [0, 50, 0] 50) 60) _
          rfl rfl rfl (by decide) (by decide!) rfl)
        (Or.inr (lineAB_second_event 300 60 50 1)))⟩

/-! ## Claim C12: the clock is monotone -/

theorem getPolicy_queueLater (Q0 : List Event) (t : ℚ) (it : List Nat) (s : Simulation)
    (from_ to_ : Nat) (lineID : Int)
    (h : QueueLater Q0 t it s) : QueueLater Q0 t it (getPolicy s from_ to_ lineID).2 := by
  unfold QueueLater
  rw [getPolicy_time, getPolicy_EventQueue, (getPolicy_counters s from_ to_ lineID).2.2.2.2.2.1]
  exact h

theorem addPassengers_time_iter (s : Simulation) (from_ to_ : Nat) (num : Int) :
    (addPassengers s from_ to_ num).time_iter = s.time_iter := by
  have h := (getPolicy_counters s from_ to_ (-1)).2.2.2.2.2.1
  unfold addPassengers
  dsimp only
  split_ifs <;> exact h

theorem addPassengers_queueLater (Q0 : List Event) (t : ℚ) (it : List Nat) (s : Simulation)
    (from_ to_ : Nat) (num : Int)
    (h : QueueLater Q0 t it s) : QueueLater Q0 t it (addPassengers s from_ to_ num) := by
  unfold QueueLater
  rw [(addPassengers_counters s from_ to_ num).2.2.2.2, addPassengers_EventQueue,
    addPassengers_time_iter]
  exact h

theorem alightAndTransfer_queueLater {s0 : Simulation} (s : Simulation) (train : Train)
    (hs : SameStatic s0 s) (hheap : IsHeap s.EventQueue)
    (hw : (s0.stationAt train.arrivingStation).isTransfer = true →
      ∀ dest, dest < TOTAL_STATIONS → WalkOK s0 train.arrivingStation dest train.lineID) :
    QueueLater s.EventQueue s.time s.time_iter (alightAndTransfer s train).1 := by
  have key := alightAndTransfer_induct_transfer
    (fun st => SameStatic s0 st.1 ∧ QueueLater s.EventQueue s.time s.time_iter st.1) s train
    ⟨hs.trans (alightDirect_sameStatic s train), rfl, rfl, hheap, fun x hx => Or.inl hx⟩
    (by
      intro htr st d hd hI
      obtain ⟨i1, i2⟩ := hI
      have htr0 : (s0.stationAt train.arrivingStation).isTransfer = true := by
        rw [← isTransfer_of_sameStatic hs]; exact htr
      have w1 := hw htr0 d hd
      have hg := getPolicy_sameStatic st.1 train.arrivingStation d train.lineID
      have hpol := getPolicy_of_sameStatic i1 train.arrivingStation d train.lineID
      have hq := getPolicy_queueLater _ _ _ st.1 train.arrivingStation d train.lineID i2
      have htt : ∀ j, (getPolicy st.1 train.arrivingStation d train.lineID).2.transferTimeAt
          train.arrivingStation j = s0.transferTimeAt train.arrivingStation j :=
        fun j => transferTimeAt_of_sameStatic (i1.trans hg) _ _
      refine ⟨i1.trans (transferBody_sameStatic _ _ st d), ?_⟩
      unfold transferBody
      dsimp only
      split_ifs with h1 h2 h3 h4
      · exact i2
      · exact addPassengers_queueLater _ _ _ _ _ _ _ hq
      · obtain ⟨q1, q2, q3, q4⟩ := hq
        refine ⟨q1, q2, EventQueue.push_isHeap _ _ q3, ?_⟩
        intro x hx
        dsimp only at hx
        rw [EventQueue.mem_push] at hx
        rcases hx with hx | hx
        · right
          rw [hx]
          dsimp only [Event.new]
          rw [htt, q1]
          rw [hpol] at h3 ⊢
          have := w1 st.1.randCalls h3
          linarith
        · exact q4 x hx
      · exact hq
      · exact i2)
  exact key.2

/-- Processing the event on top of a queue in heap order: the clock is the time
of that event, the queue is in heap order again, and every pending event is a
former one or, when follow-on events are not earlier, not earlier than the
clock. -/
theorem runEvent_queueLater {s0 : Simulation} (fuel : Nat) (s s' : Simulation) (e : Event)
    (hs : SameStatic s0 s) (hheap : IsHeap s.EventQueue)
    (htop : EventQueue.top s.EventQueue = some e) (hstep : FollowOnLater s0 s)
    (h : StopsIn (runEvent fuel s) s') :
    s'.time = e.time ∧ IsHeap s'.EventQueue ∧
    ∀ x ∈ s'.EventQueue, x ∈ EventQueue.pop s.EventQueue ∨ e.time ≤ x.time := by
  have hp : popEvent s =
      some (e, { s with EventQueue := EventQueue.pop s.EventQueue, time := e.time }) := by
    unfold popEvent
    rw [htop]
  have hs1 : SameStatic s0 { s with EventQueue := EventQueue.pop s.EventQueue, time := e.time } :=
    hs.trans (popEvent_sameStatic _ _ _ hp)
  have hheap1 : IsHeap (EventQueue.pop s.EventQueue) := EventQueue.pop_isHeap _ hheap
  unfold runEvent at h
  rw [hp] at h
  dsimp only at h
  unfold dispatch at h
  split at h
  · rename_i hty
    cases htrain : e.train with
    | none =>
      unfold processArrival at h
      rw [htrain] at h
      exact absurd h (by simp)
    | some train =>
      rw [processArrival_eq fuel _ e train htrain] at h
      obtain ⟨f1, f2⟩ := hstep e htop hty train htrain
      obtain ⟨a1, a2, a3, a4⟩ := alightAndTransfer_queueLater
        { s with EventQueue := EventQueue.pop s.EventQueue, time := e.time } train hs1 hheap1 f2
      have hat := (hs1.trans (alightAndTransfer_sameStatic _ train)).2.2.2.2.2.2.1
      split_ifs at h with hterm
      · rw [boardAndDepart_eq] at h
        split at h
        · exact absurd h (by simp [Outcome.map])
        · simp only [Outcome.map, stopsIn_done, stopsIn_badDelete] at h
          rw [← h]
          refine ⟨a1, EventQueue.push_isHeap _ _ a3, ?_⟩
          intro x hx
          dsimp only at hx
          rw [EventQueue.mem_push] at hx
          rcases hx with hx | hx
          · right
            rw [hx]
            dsimp only
            rw [← hat, a2]
            apply f1
            rw [← isTerminal_of_sameStatic hs1]
            exact hterm
          · exact a4 x hx
      · unfold terminalCheck at h
        split_ifs at h
        · exact absurd h (by simp)
        · simp only [stopsIn_done, stopsIn_badDelete] at h
          rw [← h]
          exact ⟨a1, a3, a4⟩
  · simp only [stopsIn_done, stopsIn_badDelete] at h
    rw [← h]
    exact ⟨rfl, hheap1, fun x hx => Or.inl hx⟩
  · simp only [stopsIn_done, stopsIn_badDelete] at h
    rw [← h]
    have hk : ∀ a : Simulation, (a.time = e.time ∧ a.EventQueue = EventQueue.pop s.EventQueue) →
        ((processNewOD a e.OD).time = e.time ∧
          (processNewOD a e.OD).EventQueue = EventQueue.pop s.EventQueue) := by
      intro a ha
      unfold processNewOD
      refine foldl_invariant_mem
        (fun x => x.time = e.time ∧ x.EventQueue = EventQueue.pop s.EventQueue) _ _ ?_ a ha
      intro b from_ _ hb
      refine foldl_invariant_mem
        (fun x => x.time = e.time ∧ x.EventQueue = EventQueue.pop s.EventQueue) _ _ ?_ b hb
      intro c to_ _ hc
      dsimp only
      split_ifs
      · rw [(addPassengers_counters c _ _ _).2.2.2.2, addPassengers_EventQueue]
        exact hc
      · exact hc
    obtain ⟨k1, k2⟩ :=
      hk { s with EventQueue := EventQueue.pop s.EventQueue, time := e.time } ⟨rfl, rfl⟩
    rw [k1, k2]
    exact ⟨rfl, hheap1, fun x hx => Or.inl hx⟩
  · simp only [stopsIn_done, stopsIn_badDelete] at h
    rw [← h]
    unfold processTransfer
    dsimp only
    rw [(addPassengers_counters _ _ _ _).2.2.2.2, addPassengers_EventQueue]
    exact ⟨rfl, hheap1, fun x hx => Or.inl hx⟩

theorem reset_isHeap (s0 : Simulation) (h0 : Loaded s0) : IsHeap (reset s0).EventQueue := by
  rw [reset_eq s0 h0]
  exact foldl_push_isHeap _ _ isHeap_nil

theorem top_le_of_isHeap (v : List Event) (hv : IsHeap v) (e : Event)
    (htop : EventQueue.top v = some e) : ∀ x ∈ v, e.time ≤ x.time := by
  unfold EventQueue.top at htop
  cases v with
  | nil => simp at htop
  | cons first rest =>
    simp only [List.head?_cons, Option.some.injEq] at htop
    subst htop
    exact isHeap_head_le first rest hv

/-- C12, the claim at two concrete inputs.  (1) On the three-station line with the
schedule `[60, 30]` the follow-on arrival pushed at t = 60 has time 30: the
clock values assigned at the three pops are 0, 60, 30.  (2) In
`transferNet (-1)` the train reaches the transfer station 1 at t = 60 with 10
passengers whom routing transfers via station 2, and `transferTime[1][2] = -1`
is not 0: a `TRANSFER` event is pushed for t = 60 + (-1) = 59 and popped next.
In both cases the clock has the earlier value from the pop to the
`delete& nextevent;` that ends the branch of the third event. -/
theorem C12_clock_goes_back :
    (runEvent 1 (reset (lineABCAt 60 30))).map (fun s => s.time) = Outcome.done 0 ∧
    ((runEvent 1 (reset (lineABCAt 60 30))).bind (runEvent 1)).map
        (fun s => (s.time, s.EventQueue.map (fun e => e.time))) = Outcome.done (60, [30]) ∧
    ((runEvent 1 (reset (lineABCAt 60 30))).bind
        (fun s => (runEvent 1 s).bind (runEvent 1))).atDelete (fun s => s.time) = some 30 ∧
    ((runEvent 1 (addPassengers (reset (transferNet (-1))) 0 0 10)).bind (runEvent 1)).map
        (fun s => (s.time, s.EventQueue.map (fun e => (e.time, e.type))))
      = Outcome.done (60, [(59, EventType.TRANSFER), (120, EventType.ARRIVAL)]) ∧
    ((runEvent 1 (addPassengers (reset (transferNet (-1))) 0 0 10)).bind
        (fun s => (runEvent 1 s).bind (runEvent 1))).atDelete (fun s => s.time) = some 59 := by
  refine ⟨?_, ?_, ?_, ?_, ?_⟩ <;> decide!

/-- C12, amended.  Each pop returns an event of minimum time among the pending
events.  Hence along every execution from `init` in which the events pushed
while an event at time `t` is processed are not earlier than `t` (the schedule
entry read for the follow-on `ARRIVAL` is at least `t`, the walks of the
transfers out of the train are not negative) and the caller adds no event
earlier than the last pop, the values assigned to `time` at successive pops are
nondecreasing, and the clock is the value assigned at the last pop. -/
theorem C12_monotone_clock (s0 s : Simulation) (ts : List ℚ) (h0 : Loaded s0)
    (hr : PopTrace s0 s ts) :
    ts.Pairwise (fun later earlier => earlier ≤ later) ∧
    (∀ e, EventQueue.top s.EventQueue = some e → ∀ x ∈ s.EventQueue, e.time ≤ x.time) ∧
    (∀ t ∈ ts.head?, s.time = t) := by
  have key : SameStatic s0 s ∧ IsHeap s.EventQueue ∧
      (∀ t ∈ ts.head?, s.time = t ∧ ∀ x ∈ s.EventQueue, t ≤ x.time) ∧
      ts.Pairwise (fun later earlier => earlier ≤ later) := by
    induction hr with
    | init =>
      exact ⟨reset_sameStatic s0 h0, reset_isHeap s0 h0, fun t ht => by simp at ht,
        List.Pairwise.nil⟩
    | addPassengers from_ to_ num _ ih =>
      obtain ⟨i1, i2, i3, i4⟩ := ih
      refine ⟨i1.trans (addPassengers_sameStatic _ _ _ _), ?_, ?_, i4⟩
      · rw [addPassengers_EventQueue]; exact i2
      · rw [addPassengers_EventQueue, (addPassengers_counters _ _ _ _).2.2.2.2]; exact i3
    | addEvent e _ hlate ih =>
      obtain ⟨i1, i2, i3, i4⟩ := ih
      refine ⟨i1.trans (addEvent_sameStatic _ _), EventQueue.push_isHeap _ _ i2, ?_, i4⟩
      intro t ht
      refine ⟨(i3 t ht).1, ?_⟩
      intro x hx
      unfold addEvent at hx
      dsimp only at hx
      rw [EventQueue.mem_push] at hx
      rcases hx with hx | hx
      · rw [hx]; exact hlate t ht
      · exact (i3 t ht).2 x hx
    | @pop a b us fuel e _ htop hstep hrun ih =>
      obtain ⟨i1, i2, i3, i4⟩ := ih
      obtain ⟨r1, r2, r3⟩ := runEvent_queueLater fuel a b e i1 i2 htop hstep hrun
      have hmin := top_le_of_isHeap a.EventQueue i2 e htop
      have hmem : e ∈ a.EventQueue := by
        unfold EventQueue.top at htop
        exact List.mem_of_mem_head? htop
      refine ⟨i1.trans (runEvent_sameStatic _ _ _ hrun), r2, ?_, ?_⟩
      · intro t ht
        simp only [List.head?_cons, Option.mem_def, Option.some.injEq] at ht
        subst ht
        refine ⟨r1, ?_⟩
        intro x hx
        rcases r3 x hx with h1 | h1
        · exact hmin x (EventQueue.mem_of_mem_pop _ _ h1)
        · exact h1
      · rw [List.pairwise_cons]
        refine ⟨?_, i4⟩
        intro t ht
        cases us with
        | nil => simp at ht
        | cons u rest =>
          have hu : u ≤ e.time := (i3 u rfl).2 e hmem
          rw [List.pairwise_cons] at i4
          rcases List.mem_cons.mp ht with h1 | h1
          · rw [h1]; exact hu
          · exact le_trans (i4.1 t h1) hu
  exact ⟨key.2.2.2, fun e he => top_le_of_isHeap _ key.2.1 e he, fun t ht => (key.2.2.1 t ht).1⟩

theorem followOnLater_of_arrival (s0 s : Simulation) (e : Event) (train : Train)
    (htop : EventQueue.top s.EventQueue = some e) (htr : e.train = some train)
    (hnt : (s0.stationAt train.arrivingStation).isTransfer = false)
    (hnext : (s0.stationAt train.arrivingStation).isTerminal.get train.direction false = false →
      e.time ≤ (s0.arrivalTime.getD train.trainID []).getD (s.time_iter.getD train.trainID 0) 0) :
    FollowOnLater s0 s := by
  intro e' he' _ tr' htr'
  rw [htop] at he'
  simp only [Option.some.injEq] at he'
  subst he'
  rw [htr] at htr'
  simp only [Option.some.injEq] at htr'
  subst htr'
  exact ⟨hnext, fun h => absurd (hnt.symm.trans h) (by decide)⟩

/-- C12, witness: scenario S1.  The train's first `ARRIVAL` is popped at t = 0 and
pushes the follow-on for t = 60, which is popped next: the trace is 60, 0. -/
theorem C12_monotone_clock_witness :
    Loaded (lineAB 300 0 60) ∧
    ([(arrivalOf (Train.mk 0 0 1 0 (300 - 50) 0 [0, 50, 0] 50) 60).time,
      (startEvent [0, 0, 0, 0, 300, 0]).time] : List ℚ).Pairwise
        (fun later earlier => earlier ≤ later) ∧
    ([(arrivalOf (Train.mk 0 0 1 0 (300 - 50) 0 [0, 50, 0] 50) 60).time,
      (startEvent [0, 0, 0, 0, 300, 0]).time] : List ℚ) = [60, 0] :=
  ⟨⟨rfl, rfl, rfl, rfl⟩,
    (C12_monotone_clock (lineAB 300 0 60) _ _ ⟨rfl, rfl, rfl, rfl⟩
      (PopTrace.pop 1 (arrivalOf (Train.mk 0 0 1 0 (300 - 50) 0 [0, 50, 0] 50) 60)
        (PopTrace.pop 1 (startEvent [0, 0, 0, 0, 300, 0])
          (PopTrace.addPassengers 0 1 50 PopTrace.init)
          (by rw [addPassengers_EventQueue]; rfl)
          (followOnLater_of_arrival _ _ (startEvent [0, 0, 0, 0, 300, 0]) _
            (by rw [addPassengers_EventQueue]; rfl) rfl rfl (fun _ => by decide!))
          (Or.inl (lineAB_first_event 300 60 50 0 (by decide) (by decide))))
        rfl
        (followOnLater_of_arrival _ _
          (arrivalOf (Train.mk 0 0 1 0 (300 - 50) 0 [0, 50, 0] 50) 60) _ rfl rfl rfl
          (fun h => absurd h (by decide)))
        (Or.inr (lineAB_second_event 300 60 50 1)))).1,
    by decide!⟩

/-! ## Claim C20: the boarding loop and the boarding block -/

/-- C20.  When every cohort of the queue has a positive count and is bound for a
station of the histogram, and the counts sum to `S ≤ capacity`, the boarding
loop terminates (one turn per cohort suffices) with the queue empty, `capacity`
decreased by `S`, `passengerNum` increased by `S`, and `destination[d]`
increased, for every `d`, by the counts of the cohorts bound for `d`; the
other fields of the train are unchanged.  The cohorts are absorbed in queue
order: the first turn absorbs the head cohort whole and goes on with the rest.
So the boarding block of an `ARRIVAL` at a station that is not terminal returns,
leaves the queue of that station and direction empty, and sends the train on
with these values. -/
theorem C20_full_fifo_boarding (fuel : Nat) (train : Train) (q : Q)
    (hpos : ∀ p ∈ q, 0 < p.numPassengers)
    (hdest : ∀ p ∈ q, p.destination < train.destination.length)
    (hcap : queuePassengers q ≤ train.capacity) (hfuel : q.length ≤ fuel) :
    (∃ train', boardLoop fuel train q = some (train', []) ∧
      train'.capacity = train.capacity - queuePassengers q ∧
      train'.passengerNum = train.passengerNum + queuePassengers q ∧
      (∀ d, train'.destination.getD d 0 = train.destination.getD d 0 + boundFor q d) ∧
      train'.destination.length = train.destination.length ∧
      train'.trainID = train.trainID ∧ train'.lineID = train.lineID ∧
      train'.arrivingStation = train.arrivingStation ∧
      train'.direction = train.direction ∧ train'.lastTime = train.lastTime) ∧
    (∀ (p : WaitingPassengers) (rest : Q) (k : Nat), q = p :: rest →
      boardLoop (k + 1) train q =
        boardLoop k
          { train with
            capacity := train.capacity - p.numPassengers,
            passengerNum := train.passengerNum + p.numPassengers,
            destination := train.destination.set p.destination
              (train.destination.getD p.destination 0 + p.numPassengers) }
          rest) ∧
    (∀ (s : Simulation) (nextevent : Event) (trainID station : Nat) (direction : Int),
      station < s.stations.length → (direction = 0 ∨ direction = 1) →
      (s.stationAt station).queue.get direction [] = q →
        ∃ r, boardAndDepart fuel s nextevent train trainID station direction = Outcome.done r ∧
          (r.1.stationAt station).queue.get direction [] = [] ∧
          r.2.capacity = train.capacity - queuePassengers q ∧
          r.2.passengerNum = train.passengerNum + queuePassengers q ∧
          (∀ d, r.2.destination.getD d 0 = train.destination.getD d 0 + boundFor q d) ∧
          (∃ x ∈ r.1.EventQueue, x.train = some r.2)) := by
  have hfull := boardLoop_full q fuel train hpos hdest hcap hfuel
  refine ⟨hfull, ?_, ?_⟩
  · intro p rest k hq
    subst hq
    have hp : 0 < p.numPassengers := hpos p (List.mem_cons_self _ _)
    have hnn := queuePassengers_nonneg rest (fun x hx => hpos x (List.mem_cons_of_mem _ hx))
    rw [queuePassengers_cons] at hcap
    rw [boardLoop, if_pos (by omega)]
  · intro s nextevent trainID station direction hst hdir hq
    obtain ⟨t', h1, h2, h3, h4, _⟩ := hfull
    rw [boardAndDepart_eq, hq, h1]
    refine ⟨_, rfl, ?_, h2, h3, h4, ?_⟩
    · dsimp only
      unfold Simulation.stationAt
      rw [getD_set_self _ _ _ _ hst]
      dsimp only
      exact Arr2.get_set_self _ _ _ _ hdir
    · dsimp only
      refine ⟨_, (EventQueue.mem_push _ _ _).mpr (Or.inl rfl), rfl⟩

/-- C20, witness: a single cohort of 30 bound for station 1 and a train with
exactly 30 remaining seats.  One turn of the loop boards the cohort whole and
leaves `capacity = 0` and an empty queue. -/
theorem C20_full_fifo_boarding_witness :
    (∃ train', boardLoop 1 (Train.mk 0 0 0 0 30 0 [0, 0, 0] 0) [⟨30, 1⟩] = some (train', []) ∧
      train'.capacity = 30 - queuePassengers [⟨30, 1⟩] ∧
      train'.passengerNum = 0 + queuePassengers [⟨30, 1⟩] ∧
      (∀ d, train'.destination.getD d 0 =
        ([0, 0, 0] : List Int).getD d 0 + boundFor [⟨30, 1⟩] d)) ∧
    (30 : Int) - queuePassengers [⟨30, 1⟩] = 0 ∧ boundFor [⟨30, 1⟩] 1 = 30 :=
  ⟨(C20_full_fifo_boarding 1 (Train.mk 0 0 0 0 30 0 [0, 0, 0] 0) [⟨30, 1⟩]
      (by decide) (by decide) (by decide) (by decide)).1.imp
      (fun _ h => ⟨h.1, h.2.1, h.2.2.1, h.2.2.2.1⟩),
    by decide, by decide⟩

/-! ## Claim C21: the routing algorithm -/

/-- C22.  One turn of the transfer loop for a destination `d` with
`m = destination[d] > 0` and `transferTime[s][d] < 0`, at time `now`.  If routing
returns a transfer via `via`, the `m` passengers leave the train
(`capacity += m`, `passengerNum -= m`); when `transferTime[s][via] == 0` the
turn is `addPassengers(via, d, m)` at time `now` and nothing else; otherwise
`totalTravelTime` grows by `transferTime[s][via] * m`, the one event
`TRANSFER (via, d, m)` at `now + transferTime[s][via]` is pushed, no station is
written, and dispatching that event executes `addPassengers(via, d, m)`, the
branch ending with its `delete& nextevent;` in the state so reached.  If
routing returns a direction the train is unchanged.  Apart from this the state
changes only in the position of the random sequence. -/
theorem C22_transfer_alighting (station : Nat) (lineID : Int) (s : Simulation) (train : Train)
    (d : Nat) (hm : 0 < train.destination.getD d 0) (ht : s.transferTimeAt station d < 0) :
    ((getPolicy s station d lineID).1.direction = -1 →
      s.transferTimeAt station (getPolicy s station d lineID).1.transferStation.toNat = 0 →
        transferBody station lineID (s, train) d =
          (addPassengers { s with randCalls := (getPolicy s station d lineID).2.randCalls }
              (getPolicy s station d lineID).1.transferStation.toNat d
              (train.destination.getD d 0),
            { train with
              passengerNum := train.passengerNum - train.destination.getD d 0,
              capacity := train.capacity + train.destination.getD d 0 })) ∧
    ((getPolicy s station d lineID).1.direction = -1 →
      s.transferTimeAt station (getPolicy s station d lineID).1.transferStation.toNat ≠ 0 →
        transferBody station lineID (s, train) d =
          ({ s with
              randCalls := (getPolicy s station d lineID).2.randCalls,
              totalTravelTime := s.totalTravelTime +
                s.transferTimeAt station (getPolicy s station d lineID).1.transferStation.toNat *
                  train.destination.getD d 0,
              EventQueue := EventQueue.push s.EventQueue
                (transferOf
                  (s.time +
                    s.transferTimeAt station
                      (getPolicy s station d lineID).1.transferStation.toNat)
                  (getPolicy s station d lineID).1.transferStation.toNat d
                  (train.destination.getD d 0)) },
            { train with
              passengerNum := train.passengerNum - train.destination.getD d 0,
              capacity := train.capacity + train.destination.getD d 0 }) ∧
        (transferBody station lineID (s, train) d).1.EventQueue.Perm
          (transferOf
              (s.time +
                s.transferTimeAt station (getPolicy s station d lineID).1.transferStation.toNat)
              (getPolicy s station d lineID).1.transferStation.toNat d
              (train.destination.getD d 0) :: s.EventQueue) ∧
        ∀ (fuel : Nat) (x : Simulation) (t : ℚ),
          dispatch fuel x
              (transferOf t (getPolicy s station d lineID).1.transferStation.toNat d
                (train.destination.getD d 0)) =
            Outcome.badDelete
              (addPassengers x (getPolicy s station d lineID).1.transferStation.toNat d
                (train.destination.getD d 0))) ∧
    ((getPolicy s station d lineID).1.direction ≠ -1 →
      transferBody station lineID (s, train) d =
        ({ s with randCalls := (getPolicy s station d lineID).2.randCalls }, train)) := by
  have hsnd := getPolicy_snd s station d lineID
  have htt : ∀ j, (getPolicy s station d lineID).2.transferTimeAt station j =
      s.transferTimeAt station j := by
    intro j
    unfold Simulation.transferTimeAt
    rw [(getPolicy_counters s station d lineID).2.2.2.2.1]
  have hge : ¬ s.transferTimeAt station d ≥ 0 := not_le.mpr ht
  refine ⟨?_, ?_, ?_⟩
  · intro hdir hzero
    unfold transferBody
    dsimp only
    rw [if_pos hm, if_neg hge, if_pos hdir, htt, if_pos hzero, ← hsnd]
  · intro hdir hwalk
    refine ⟨?_, ?_, ?_⟩
    · unfold transferBody
      dsimp only
      rw [if_pos hm, if_neg hge, if_pos hdir, htt, if_neg hwalk]
      rw [(getPolicy_counters s station d lineID).1, getPolicy_time, getPolicy_EventQueue]
      conv_lhs => rw [hsnd]
      rfl
    · unfold transferBody
      dsimp only
      rw [if_pos hm, if_neg hge, if_pos hdir, htt, if_neg hwalk]
      dsimp only
      rw [getPolicy_time, getPolicy_EventQueue]
      exact EventQueue.push_perm _ _
    · intro fuel x t
      unfold dispatch processTransfer transferOf
      simp only [List.getD_cons_zero, List.getD_cons_succ, Int.toNat_ofNat]
  · intro hdir
    unfold transferBody
    dsimp only
    rw [if_pos hm, if_neg hge, if_neg hdir, ← hsnd]

/-- C22, witness: scenario S5.  At `now = 60` the train reaches the transfer
station 1 with `m = 10` passengers bound for station 0; routing transfers them
via station 2 and `transferTime[1][2] = 30`.  The turn adds 30 * 10 = 300 to
`totalTravelTime`, empties the train and pushes `TRANSFER (2, 0, 10)` at t = 90.
In the run of `transferNet 30` the ride of 60 s and the walk give 600 + 300, and
when the event fires at t = 90 the 10 passengers are queued at station 2. -/
theorem C22_transfer_alighting_witness :
    (transferBody 1 0 (walkState, tenForZero) 0).1.EventQueue.Perm
      (transferOf
          (walkState.time +
            walkState.transferTimeAt 1 (getPolicy walkState 1 0 0).1.transferStation.toNat)
          (getPolicy walkState 1 0 0).1.transferStation.toNat 0
          (tenForZero.destination.getD 0 0) :: walkState.EventQueue) ∧
    transferOf
        (walkState.time +
          walkState.transferTimeAt 1 (getPolicy walkState 1 0 0).1.transferStation.toNat)
        (getPolicy walkState 1 0 0).1.transferStation.toNat 0
        (tenForZero.destination.getD 0 0) = transferOf 90 2 0 10 ∧
    ((transferBody 1 0 (walkState, tenForZero) 0).1.totalTravelTime,
      (transferBody 1 0 (walkState, tenForZero) 0).1.stations,
      (transferBody 1 0 (walkState, tenForZero) 0).2.passengerNum,
      (transferBody 1 0 (walkState, tenForZero) 0).2.capacity)
      = (300, walkState.stations, 0, 300) ∧
    ((runEvent 1 (addPassengers (reset (transferNet 30)) 0 0 10)).bind (runEvent 1)).map
        (fun s => (s.time, s.totalTravelTime, (s.stationAt 2).queue.get 0 []))
      = Outcome.done (60, 900, []) ∧
    ((runEvent 1 (addPassengers (reset (transferNet 30)) 0 0 10)).bind (runEvent 1)).map
        (fun s => s.EventQueue.map (fun e => (e.time, e.type, e.OD)))
      = Outcome.done [(90, EventType.TRANSFER, [[2, 0, 10]]), (120, EventType.ARRIVAL, [])] ∧
    ((runEvent 1 (addPassengers (reset (transferNet 30)) 0 0 10)).bind
        (fun s => (runEvent 1 s).bind (runEvent 1))).atDelete
        (fun s => (s.time, s.totalTravelTime, (s.stationAt 2).queue.get 0 []))
      = some (90, 900, [⟨10, 0⟩]) :=
  ⟨((C22_transfer_alighting 1 0 walkState tenForZero 0 (by decide) (by decide!)).2.1
      (by decide!) (by decide!)).2.1,
    by decide!, by decide!, by decide!, by decide!, by decide!⟩

/-- After the transfer loop no entry of the histogram is positive for a
destination that is an exit of the station. -/
theorem transferLoop_exit_cleared (station : Nat) (lineID : Int) (s : Simulation) (train : Train)
    (d : Nat) (hd : d < TOTAL_STATIONS) (ht : 0 ≤ s.transferTimeAt station d) :
    (transferLoop station lineID s train).2.destination.getD d 0 ≤ 0 := by
  unfold transferLoop
  have hstep : ∀ (st : Simulation × Train) (c : Nat),
      (transferBody station lineID st c).1.transferTime = st.1.transferTime ∧
      (∀ j, (transferBody station lineID st c).2.destination.getD j 0 = st.2.destination.getD j 0 ∨
        (transferBody station lineID st c).2.destination.getD j 0 = 0) ∧
      (0 ≤ st.1.transferTimeAt station c →
        (transferBody station lineID st c).2.destination.getD c 0 ≤ 0) := by
    intro st c
    have hT := (transferBody_sameStatic station lineID st c).2.2.2.1
    refine ⟨hT.symm, ?_, ?_⟩
    · intro j
      unfold transferBody
      dsimp only
      split_ifs
      · dsimp only
        by_cases hj : j = c
        · right; rw [hj]; exact getD_set_zero _ _
        · left; exact getD_set_ne _ _ _ _ _ hj
      · exact Or.inl rfl
      · exact Or.inl rfl
      · exact Or.inl rfl
      · exact Or.inl rfl
    · intro h0
      unfold transferBody
      dsimp only
      by_cases h1 : st.2.destination.getD c 0 > 0
      · rw [if_pos h1, if_pos h0]
        dsimp only
        rw [getD_set_zero]
      · rw [if_neg h1]
        exact not_lt.mp h1
  have key : ∀ (l : List Nat) (st : Simulation × Train),
      st.1.transferTime = s.transferTime →
      (d ∈ l ∨ st.2.destination.getD d 0 ≤ 0) →
      (l.foldl (transferBody station lineID) st).2.destination.getD d 0 ≤ 0 := by
    intro l
    induction l with
    | nil =>
      intro st _ h
      rcases h with h | h
      · simp at h
      · exact h
    | cons c l ih =>
      intro st hT h
      rw [List.foldl_cons]
      obtain ⟨e1, e2, e3⟩ := hstep st c
      apply ih _ (e1.trans hT)
      have hle : st.2.destination.getD d 0 ≤ 0 →
          (transferBody station lineID st c).2.destination.getD d 0 ≤ 0 := by
        intro h0
        rcases e2 d with h2 | h2
        · rw [h2]; exact h0
        · rw [h2]
      rcases h with h | h
      · rcases List.mem_cons.mp h with h1 | h1
        · right
          rw [h1]
          apply e3
          unfold Simulation.transferTimeAt
          rw [hT, ← h1]
          exact ht
        · exact Or.inl h1
      · exact Or.inr (hle h)
  exact key _ (s, train) rfl (Or.inl (List.mem_range.mpr hd))

/-- C23.  One turn of the transfer loop for a destination `d` with
`m = destination[d] > 0` and `transferTime[s][d] ≥ 0`: `num_arrived` grows by
`m`, `totalTravelTime` by `transferTime[s][d] * m`, `capacity` by `m`,
`passengerNum` falls by `m` and `destination[d]` becomes 0; nothing else
changes: the generator is not used (routing is not consulted), no station is
written and no event is pushed.  And after an `ARRIVAL` at a transfer station
has gone through the whole loop, no destination that is an exit of the station
has passengers left on the train. -/
theorem C23_destination_at_transfer (station : Nat) (lineID : Int) (s : Simulation)
    (train : Train) (d : Nat) (hm : 0 < train.destination.getD d 0)
    (ht : 0 ≤ s.transferTimeAt station d) :
    transferBody station lineID (s, train) d =
      ({ s with
          num_arrived := s.num_arrived + train.destination.getD d 0,
          totalTravelTime := s.totalTravelTime +
            s.transferTimeAt station d * train.destination.getD d 0 },
        { train with
          passengerNum := train.passengerNum - train.destination.getD d 0,
          capacity := train.capacity + train.destination.getD d 0,
          destination := train.destination.set d 0 }) ∧
    (transferBody station lineID (s, train) d).2.destination.getD d 0 = 0 ∧
    (transferBody station lineID (s, train) d).1.randCalls = s.randCalls ∧
    (transferBody station lineID (s, train) d).1.stations = s.stations ∧
    (transferBody station lineID (s, train) d).1.EventQueue = s.EventQueue ∧
    (∀ (a : Simulation) (tr : Train) (c : Nat),
      (a.stationAt tr.arrivingStation).isTransfer = true → c < TOTAL_STATIONS →
      0 ≤ a.transferTimeAt tr.arrivingStation c →
        (alightAndTransfer a tr).2.destination.getD c 0 ≤ 0) := by
  have e : transferBody station lineID (s, train) d =
      ({ s with
          num_arrived := s.num_arrived + train.destination.getD d 0,
          totalTravelTime := s.totalTravelTime +
            s.transferTimeAt station d * train.destination.getD d 0 },
        { train with
          passengerNum := train.passengerNum - train.destination.getD d 0,
          capacity := train.capacity + train.destination.getD d 0,
          destination := train.destination.set d 0 }) := by
    unfold transferBody
    dsimp only
    rw [if_pos hm, if_pos ht]
  refine ⟨e, ?_, ?_, ?_, ?_, ?_⟩
  · rw [e]
    exact getD_set_zero _ _
  · rw [e]
  · rw [e]
  · rw [e]
  · intro a tr c htr hc h0
    unfold alightAndTransfer
    dsimp only
    rw [isTransfer_of_sameStatic (alightDirect_sameStatic a tr), if_pos htr]
    apply transferLoop_exit_cleared _ _ _ _ c hc
    have : (alightDirect a tr).1.transferTimeAt tr.arrivingStation c =
        a.transferTimeAt tr.arrivingStation c := rfl
    rw [this]
    exact h0

/-- C23, witness: scenario S6.  In `exitNet` the train reaches the transfer station
1 with `m = 10` passengers bound for station 0, and `transferTime[1][0] = 45`:
the turn adds 10 to `num_arrived` and 450 to `totalTravelTime` and clears the
entry.  In the run the event at t = 60 leaves `num_arrived = 10`,
`totalTravelTime = 600 + 450`, an empty train, empty queues and no `TRANSFER`
event. -/
theorem C23_destination_at_transfer_witness :
    (transferBody 1 0 ({ reset exitNet with time := 60 }, tenForZero) 0).2.destination.getD 0 0
      = 0 ∧
    ((transferBody 1 0 ({ reset exitNet with time := 60 }, tenForZero) 0).1.num_arrived,
      (transferBody 1 0 ({ reset exitNet with time := 60 }, tenForZero) 0).1.totalTravelTime,
      (transferBody 1 0 ({ reset exitNet with time := 60 }, tenForZero) 0).2.passengerNum,
      (transferBody 1 0 ({ reset exitNet with time := 60 }, tenForZero) 0).2.capacity,
      (transferBody 1 0 ({ reset exitNet with time := 60 }, tenForZero) 0).2.destination)
      = (10, 450, 0, 300, [0, 0, 0]) ∧
    ((runEvent 1 (addPassengers (reset exitNet) 0 0 10)).bind (runEvent 1)).map
        (fun s => (s.time, s.num_arrived, s.totalTravelTime))
      = Outcome.done (60, 10, 1050) ∧
    ((runEvent 1 (addPassengers (reset exitNet) 0 0 10)).bind (runEvent 1)).map
        (fun s => (trainLoads s, s.stations.map stationPassengers))
      = Outcome.done ([(0, [0, 0, 0])], [0, 0, 0]) ∧
    ((runEvent 1 (addPassengers (reset exitNet) 0 0 10)).bind (runEvent 1)).map
        (fun s => s.EventQueue.map (fun e => (e.time, e.type)))
      = Outcome.done [(120, EventType.ARRIVAL)] :=
  ⟨(C23_destination_at_transfer 1 0 { reset exitNet with time := 60 } tenForZero 0
      (by decide) (by decide!)).2.1,
    by decide!, by decide!, by decide!, by decide!⟩

/-! ## Claims C24 and C25: guarded division and populated routing -/

theorem foldl_filterMap_calls (OD : List (List Int)) (from_ : Nat) (l : List Nat)
    (s : Simulation) :
    l.foldl
        (fun s to_ =>
          if (OD.getD from_ []).getD to_ 0 ≠ 0 then
            addPassengers s from_ to_ ((OD.getD from_ []).getD to_ 0)
          else s) s =
      (l.filterMap
        (fun to_ =>
          if (OD.getD from_ []).getD to_ 0 ≠ 0 then
            some (from_, to_, (OD.getD from_ []).getD to_ 0)
          else none)).foldl (fun s c => addPassengers s c.1 c.2.1 c.2.2) s := by
  induction l generalizing s with
  | nil => rfl
  | cons to_ l ih =>
    rw [List.foldl_cons, List.filterMap_cons]
    by_cases h : (OD.getD from_ []).getD to_ 0 ≠ 0
    · rw [if_pos h, if_pos h]
      dsimp only
      rw [List.foldl_cons]
      exact ih _
    · rw [if_neg h, if_neg h]
      exact ih _

/-- The `NEW_OD` branch is the sequence of its `addPassengers` calls. -/
theorem processNewOD_calls (s : Simulation) (OD : List (List Int)) :
    processNewOD s OD =
      (newODCalls OD).foldl (fun s c => addPassengers s c.1 c.2.1 c.2.2) s := by
  have key : ∀ (rows : List Nat) (a : Simulation),
      rows.foldl
          (fun s from_ =>
            (List.range TOTAL_STATIONS).foldl
              (fun s to_ =>
                if (OD.getD from_ []).getD to_ 0 ≠ 0 then
                  addPassengers s from_ to_ ((OD.getD from_ []).getD to_ 0)
                else s) s) a =
        ((rows.map (newODRow OD)).flatten).foldl
          (fun s c => addPassengers s c.1 c.2.1 c.2.2) a := by
    intro rows
    induction rows with
    | nil => intro a; rfl
    | cons from_ rows ih =>
      intro a
      rw [List.foldl_cons, List.map_cons, List.flatten_cons, List.foldl_append, ih]
      congr 1
      exact foldl_filterMap_calls OD from_ _ a
  exact key _ s

theorem mem_newODCalls (OD : List (List Int)) (c : Nat × Nat × Int) :
    c ∈ newODCalls OD ↔
      c.1 < TOTAL_STATIONS ∧ c.2.1 < TOTAL_STATIONS ∧
      (OD.getD c.1 []).getD c.2.1 0 ≠ 0 ∧ c.2.2 = (OD.getD c.1 []).getD c.2.1 0 := by
  unfold newODCalls
  constructor
  · intro h
    rw [List.mem_flatten] at h
    obtain ⟨l, hl, hc⟩ := h
    rw [List.mem_map] at hl
    obtain ⟨from_, hfrom, rfl⟩ := hl
    unfold newODRow at hc
    rw [List.mem_filterMap] at hc
    obtain ⟨to_, hto, hc⟩ := hc
    split_ifs at hc with h
    simp only [Option.some.injEq] at hc
    subst hc
    exact ⟨List.mem_range.mp hfrom, List.mem_range.mp hto, h, rfl⟩
  · rintro ⟨h1, h2, h3, h4⟩
    rw [List.mem_flatten]
    refine ⟨newODRow OD c.1, List.mem_map.mpr ⟨c.1, List.mem_range.mpr h1, rfl⟩, ?_⟩
    unfold newODRow
    rw [List.mem_filterMap]
    refine ⟨c.2.1, List.mem_range.mpr h2, ?_⟩
    rw [if_pos h3, ← h4]

theorem transferBody_created (station : Nat) (lineID : Int) (st : Simulation × Train)
    (d : Nat) :
    (∀ x ∈ (transferBody station lineID st d).1.EventQueue,
      x ∈ st.1.EventQueue ∨
      (x.type = EventType.TRANSFER ∧ 0 < (x.OD.getD 0 []).getD 2 0)) ∧
    ((transferBody station lineID st d).1.stations = st.1.stations ∨
      ∃ (a : Simulation) (via : Nat),
        0 < st.2.destination.getD d 0 ∧
        (transferBody station lineID st d).1 =
          addPassengers a via d (st.2.destination.getD d 0)) := by
  unfold transferBody
  dsimp only
  split_ifs with h1 h2 h3 h4
  · exact ⟨fun x hx => Or.inl hx, Or.inl rfl⟩
  · refine ⟨?_, Or.inr ⟨_, _, h1, rfl⟩⟩
    intro x hx
    rw [addPassengers_EventQueue, getPolicy_EventQueue] at hx
    exact Or.inl hx
  · refine ⟨?_, Or.inl (getPolicy_stations _ _ _ _)⟩
    intro x hx
    dsimp only at hx
    rw [EventQueue.mem_push, getPolicy_EventQueue] at hx
    rcases hx with hx | hx
    · right
      rw [hx]
      exact ⟨rfl, h1⟩
    · exact Or.inl hx
  · refine ⟨?_, Or.inl (getPolicy_stations _ _ _ _)⟩
    intro x hx
    rw [getPolicy_EventQueue] at hx
    exact Or.inl hx
  · exact ⟨fun x hx => Or.inl hx, Or.inl rfl⟩

/-- C24.  In `addPassengers` the running mean is divided by
`new_len = (size of the queue) + num`, which is positive whenever `num > 0`.
The `NEW_OD` branch is the sequence of calls `addPassengers(from, to, OD[from][to])`
for the non-zero entries, so with a matrix without negative entries every call
has `num > 0`.  Transfer handling calls `addPassengers` only with
`num = destination[d] > 0`, and every `TRANSFER` event it creates carries a
positive count, which is the `num` of the call made when the event is
dispatched (the branch then ends with its `delete& nextevent;`).  With `num = 0` and an empty queue the denominator is 0. -/
theorem C24_mean_division_guarded :
    (∀ (s : Simulation) (from_ to_ : Nat) (num : Int),
      (addPassengers s from_ to_ num).stations =
        s.stations.set (routedStation s from_ to_)
          { s.stationAt (routedStation s from_ to_) with
            avg_inStationTime :=
              (s.stationAt (routedStation s from_ to_)).avg_inStationTime.set
                (routedDirection s from_ to_)
                (((((s.stationAt (routedStation s from_ to_)).queue.get
                      (routedDirection s from_ to_) []).length : ℚ) *
                    (s.stationAt (routedStation s from_ to_)).avg_inStationTime.get
                      (routedDirection s from_ to_) 0 + num * s.time) /
                  newLen s from_ to_ num),
            queue :=
              (s.stationAt (routedStation s from_ to_)).queue.set (routedDirection s from_ to_)
                ((s.stationAt (routedStation s from_ to_)).queue.get
                    (routedDirection s from_ to_) []
                  ++ [{ numPassengers := num, destination := to_ }]) }) ∧
    (∀ (s : Simulation) (from_ to_ : Nat) (num : Int), 0 < num → 0 < newLen s from_ to_ num) ∧
    (∀ (s : Simulation) (OD : List (List Int)),
      processNewOD s OD =
        (newODCalls OD).foldl (fun s c => addPassengers s c.1 c.2.1 c.2.2) s) ∧
    (∀ OD : List (List Int),
      (∀ from_ to_, from_ < TOTAL_STATIONS → to_ < TOTAL_STATIONS →
        0 ≤ (OD.getD from_ []).getD to_ 0) →
      ∀ c ∈ newODCalls OD, 0 < c.2.2) ∧
    (∀ (station : Nat) (lineID : Int) (st : Simulation × Train) (d : Nat),
      (∀ x ∈ (transferBody station lineID st d).1.EventQueue,
        x ∈ st.1.EventQueue ∨
        (x.type = EventType.TRANSFER ∧ 0 < (x.OD.getD 0 []).getD 2 0)) ∧
      ((transferBody station lineID st d).1.stations = st.1.stations ∨
        ∃ (a : Simulation) (via : Nat),
          0 < st.2.destination.getD d 0 ∧
          (transferBody station lineID st d).1 =
            addPassengers a via d (st.2.destination.getD d 0))) ∧
    (∀ (fuel : Nat) (s : Simulation) (e : Event), e.type = EventType.TRANSFER →
      dispatch fuel s e =
        Outcome.badDelete
          (addPassengers s ((e.OD.getD 0 []).getD 0 0).toNat ((e.OD.getD 0 []).getD 1 0).toNat
            ((e.OD.getD 0 []).getD 2 0))) ∧
    (∀ (s : Simulation) (from_ to_ : Nat),
      (s.stationAt (routedStation s from_ to_)).queue.get (routedDirection s from_ to_) [] = [] →
      newLen s from_ to_ 0 = 0) := by
  refine ⟨?_, ?_, processNewOD_calls, ?_, transferBody_created, ?_, ?_⟩
  · intro s from_ to_ num
    rw [addPassengers_stations]
    rfl
  · intro s from_ to_ num hnum
    unfold newLen
    have h1 : (0 : ℚ) < (num : ℚ) := by exact_mod_cast hnum
    have h2 : (0 : ℚ) ≤ (((s.stationAt (routedStation s from_ to_)).queue.get
        (routedDirection s from_ to_) []).length : ℚ) := Nat.cast_nonneg _
    linarith
  · intro OD hnn c hc
    rw [mem_newODCalls] at hc
    obtain ⟨h1, h2, h3, h4⟩ := hc
    have := hnn c.1 c.2.1 h1 h2
    rw [h4]
    omega
  · intro fuel s e hty
    unfold dispatch
    rw [hty]
    rfl
  · intro s from_ to_ hq
    unfold newLen
    rw [hq]
    simp

/-- C24, witness: on the reset two-station line `addPassengers(0, 1, 50)` divides by
`new_len = 0 + 50 > 0`; the matrix with the single entry `OD[0][1] = 50` issues
the single call `(0, 1, 50)`; and `addPassengers(0, 1, 0)` on the empty queue has
`new_len = 0`. -/
theorem C24_mean_division_guarded_witness :
    0 < newLen (reset (lineAB 300 0 60)) 0 1 50 ∧
    (∀ c ∈ newODCalls [[0, 50, 0], [0, 0, 0], [0, 0, 0]], 0 < c.2.2) ∧
    newLen (reset (lineAB 300 0 60)) 0 1 0 = 0 ∧
    newLen (reset (lineAB 300 0 60)) 0 1 50 = 50 ∧
    newODCalls [[0, 50, 0], [0, 0, 0], [0, 0, 0]] = [(0, 1, 50)] :=
  ⟨C24_mean_division_guarded.2.1 (reset (lineAB 300 0 60)) 0 1 50 (by decide),
    C24_mean_division_guarded.2.2.2.1 [[0, 50, 0], [0, 0, 0], [0, 0, 0]]
      (fun from_ to_ hf ht => by
        have hf3 : from_ < 3 := hf
        have ht3 : to_ < 3 := ht
        interval_cases from_ <;> interval_cases to_ <;> decide),
    C24_mean_division_guarded.2.2.2.2.2.2 (reset (lineAB 300 0 60)) 0 1 (by decide!),
    by decide!, by decide⟩

theorem getPolicyScan_lt (s : Simulation) (from_ to_ : Nat) (lineID : Int) (num : Int) (i : Nat)
    (h : getPolicyScan s from_ to_ lineID num = some i) : i < num.toNat := by
  unfold getPolicyScan at h
  exact List.mem_range.mp (List.mem_of_find?_eq_some h)

/-- C25.  `getPolicy` evaluates `rand() % num` exactly when it calls `rand()`, and the
station it chooses is the candidate at the last index it reads.  For a
populated entry, `1 ≤ policy_num[from][to]`, the divisor is not 0 and every
index read is below `policy_num[from][to]`, hence below `MAX_POLICY_NUM` when
`policy_num[from][to] ≤ MAX_POLICY_NUM`, and the chosen station is a valid station
id when the stored candidates are.  For `policy_num[from][to] == 0` the scan
reads no candidate and `rand() % num` is evaluated with `num == 0`; the `NEW_OD`
branch routes every pair with a non-zero entry, the pairs `from == to` included. -/
theorem C25_routing_total_when_populated (s : Simulation) (from_ to_ : Nat) (lineID : Int) :
    ((getPolicyNext s from_ to_ lineID).2 =
      (if (getPolicyModulus s from_ to_ lineID).isSome then s.rand.2 else s)) ∧
    (∃ i, (getPolicyReads s from_ to_ lineID).getLast? = some i ∧
      (getPolicyNext s from_ to_ lineID).1 = s.policyAt from_ to_ i) ∧
    (1 ≤ s.policyNumAt from_ to_ →
      getPolicyModulus s from_ to_ lineID ≠ some 0 ∧
      (∀ i ∈ getPolicyReads s from_ to_ lineID, i < (s.policyNumAt from_ to_).toNat) ∧
      (s.policyNumAt from_ to_ ≤ MAX_POLICY_NUM →
        ∀ i ∈ getPolicyReads s from_ to_ lineID, i < MAX_POLICY_NUM) ∧
      ((∀ i, i < (s.policyNumAt from_ to_).toNat → s.policyAt from_ to_ i < TOTAL_STATIONS) →
        (getPolicyNext s from_ to_ lineID).1 < TOTAL_STATIONS)) ∧
    (s.policyNumAt from_ to_ = 0 →
      getPolicyScan s from_ to_ lineID (s.policyNumAt from_ to_) = none ∧
      getPolicyModulus s from_ to_ lineID = some 0 ∧
      (getPolicyNext s from_ to_ lineID).2 = s.rand.2 ∧
      getPolicyReads s from_ to_ lineID = [(Int.tmod s.rand.1 0).toNat]) ∧
    (∀ (OD : List (List Int)) (a : Nat), a < TOTAL_STATIONS →
      (OD.getD a []).getD a 0 ≠ 0 → (a, a, (OD.getD a []).getD a 0) ∈ newODCalls OD) := by
  have hreads : 1 ≤ s.policyNumAt from_ to_ →
      ∀ i ∈ getPolicyReads s from_ to_ lineID, i < (s.policyNumAt from_ to_).toNat := by
    intro h1 i hi
    unfold getPolicyReads at hi
    split_ifs at hi with hk
    · rw [List.mem_singleton] at hi
      rw [hi, hk]
      decide
    · split at hi
      · rename_i j hj
        have := getPolicyScan_lt s from_ to_ lineID _ j hj
        have := List.mem_range.mp hi
        omega
      · rw [List.mem_append, List.mem_singleton] at hi
        rcases hi with hi | hi
        · exact List.mem_range.mp hi
        · rw [hi]
          obtain ⟨k, hkk⟩ : ∃ k : Nat, s.policyNumAt from_ to_ = (k : Int) :=
            ⟨(s.policyNumAt from_ to_).toNat, (Int.toNat_of_nonneg (by omega)).symm⟩
          rw [hkk]
          have hk0 : 0 < k := by omega
          have e : Int.tmod ((s.rand.1 : Nat) : Int) (k : Int) = ((s.rand.1 % k : Nat) : Int) := by
            rw [Int.tmod_eq_emod (by omega) (by omega)]
            exact (Int.ofNat_emod _ _).symm
          rw [e, Int.toNat_ofNat, Int.toNat_ofNat]
          exact Nat.mod_lt _ hk0
  have hsel : ∃ i, (getPolicyReads s from_ to_ lineID).getLast? = some i ∧
      (getPolicyNext s from_ to_ lineID).1 = s.policyAt from_ to_ i := by
    unfold getPolicyNext getPolicyReads
    dsimp only
    split_ifs with hk
    · exact ⟨0, rfl, rfl⟩
    · cases getPolicyScan s from_ to_ lineID (s.policyNumAt from_ to_) with
      | none => exact ⟨_, List.getLast?_concat _, rfl⟩
      | some i =>
        refine ⟨i, ?_, rfl⟩
        dsimp only
        rw [List.range_succ]
        exact List.getLast?_concat _
  refine ⟨?_, hsel, ?_, ?_, ?_⟩
  · unfold getPolicyNext getPolicyModulus
    dsimp only
    by_cases hk : s.policyNumAt from_ to_ = 1
    · rw [if_pos hk, if_pos hk]
      rfl
    · rw [if_neg hk, if_neg hk]
      cases getPolicyScan s from_ to_ lineID (s.policyNumAt from_ to_) <;> rfl
  · intro h1
    refine ⟨?_, hreads h1, ?_, ?_⟩
    rotate_left 2
    · intro hvalid
      obtain ⟨i, hlast, heq⟩ := hsel
      rw [heq]
      exact hvalid i (hreads h1 i (List.mem_of_getLast?_eq_some hlast))
    · unfold getPolicyModulus
      split_ifs with hk
      · simp
      · cases getPolicyScan s from_ to_ lineID (s.policyNumAt from_ to_) with
        | none =>
          dsimp only
          intro h
          simp only [Option.some.injEq] at h
          omega
        | some i => simp
    · intro hmax i hi
      have := hreads h1 i hi
      have hM : MAX_POLICY_NUM = 4 := rfl
      have hmax4 : s.policyNumAt from_ to_ ≤ 4 := by
        rw [hM] at hmax
        exact_mod_cast hmax
      omega
  · intro h0
    have hscan : getPolicyScan s from_ to_ lineID (s.policyNumAt from_ to_) = none := by
      rw [h0]
      rfl
    refine ⟨hscan, ?_, ?_, ?_⟩
    · unfold getPolicyModulus
      rw [if_neg (by rw [h0]; decide), hscan, h0]
    · unfold getPolicyNext
      dsimp only
      rw [if_neg (by rw [h0]; decide), hscan]
    · unfold getPolicyReads
      rw [if_neg (by rw [h0]; decide), hscan, h0]
      rfl
  · intro OD a ha hne
    rw [mem_newODCalls]
    exact ⟨ha, ha, hne, rfl⟩

/-- C25, witness: in `forkNet` the pair `(0, 2)` has two candidates, none on line `-1`:
`getPolicy` reads indices 0 and 1 in the scan, evaluates `5 % 2` and reads index 1,
choosing station 2.  On the two-station line the pair `(0, 0)` has
`policy_num[0][0] == 0`: the scan is empty and `rand() % 0` is evaluated. -/
theorem C25_routing_total_when_populated_witness :
    (1 ≤ forkNet.policyNumAt 0 2 ∧
      getPolicyModulus forkNet 0 2 (-1) ≠ some 0 ∧
      (∀ i ∈ getPolicyReads forkNet 0 2 (-1), i < (forkNet.policyNumAt 0 2).toNat) ∧
      (forkNet.policyNumAt 0 2 ≤ MAX_POLICY_NUM →
        ∀ i ∈ getPolicyReads forkNet 0 2 (-1), i < MAX_POLICY_NUM) ∧
      ((∀ i, i < (forkNet.policyNumAt 0 2).toNat → forkNet.policyAt 0 2 i < TOTAL_STATIONS) →
        (getPolicyNext forkNet 0 2 (-1)).1 < TOTAL_STATIONS)) ∧
    ((lineAB 300 0 60).policyNumAt 0 0 = 0 ∧
      getPolicyScan (lineAB 300 0 60) 0 0 (-1) ((lineAB 300 0 60).policyNumAt 0 0) = none ∧
      getPolicyModulus (lineAB 300 0 60) 0 0 (-1) = some 0 ∧
      (getPolicyNext (lineAB 300 0 60) 0 0 (-1)).2 = (lineAB 300 0 60).rand.2 ∧
      getPolicyReads (lineAB 300 0 60) 0 0 (-1) =
        [(Int.tmod (lineAB 300 0 60).rand.1 0).toNat]) ∧
    (getPolicyReads forkNet 0 2 (-1) = [0, 1, 1] ∧
      getPolicyModulus forkNet 0 2 (-1) = some 2 ∧
      (getPolicyNext forkNet 0 2 (-1)).1 = 2 ∧
      (getPolicyNext forkNet 0 2 (-1)).2.randCalls = 1) :=
  ⟨⟨by decide, (C25_routing_total_when_populated forkNet 0 2 (-1)).2.2.1 (by decide)⟩,
    ⟨by decide, (C25_routing_total_when_populated (lineAB 300 0 60) 0 0 (-1)).2.2.2.1 (by decide)⟩,
    by decide, by decide, by decide, by decide⟩

end CTA
